import Mathlib

/-!
# DSP interpreter: register file, arithmetic helpers, write-back log, run loops

A shallow embedding of `Source/Core/Core/DSP/Interpreter/DSPInterpreter.cpp`
(with `Source/Core/Core/DSP/DSPAnalyzer.h` for the code flags).

Conventions of the embedding:
* `u16`, `u32`, `u64` values are natural numbers, reduced with an explicit
  `% 2 ^ w` wherever the C++ arithmetic can leave the range;
* `s16`, `s32`, `s64` values are integers; the casts between the signed and the
  unsigned view are `toS16`, `toS32`, `toS64` and `toU32`, `toU64`;
* signed overflow of an `int`: the decrement `cycles--` is taken in 32-bit two's
  complement (`INT_MIN` wraps to `INT_MAX`); the product of two operands promoted to
  `int`, whose outcome past `INT_MAX` depends on the compiler, has no defined result
  there (`none`);
* C arrays are functions from the index to the element;
* a `union` of a wide `val` with 16-bit sub-fields is the wide value, the
  sub-fields being 16-bit windows of it (`getField` / `setField`).
-/

namespace DSP

/-! ## Machine integers -/

/-- Cast of a bit pattern to `s16` (two's complement). -/
def toS16 (n : Nat) : Int :=
  if n % 2 ^ 16 < 2 ^ 15 then ((n % 2 ^ 16 : Nat) : Int) else ((n % 2 ^ 16 : Nat) : Int) - 2 ^ 16

/-- Cast of a bit pattern to `s8` (two's complement). -/
def toS8 (n : Nat) : Int :=
  if n % 2 ^ 8 < 2 ^ 7 then ((n % 2 ^ 8 : Nat) : Int) else ((n % 2 ^ 8 : Nat) : Int) - 2 ^ 8

/-- Cast of a bit pattern to `s32` (two's complement). -/
def toS32 (n : Nat) : Int :=
  if n % 2 ^ 32 < 2 ^ 31 then ((n % 2 ^ 32 : Nat) : Int) else ((n % 2 ^ 32 : Nat) : Int) - 2 ^ 32

/-- Cast of a bit pattern to `s64` (two's complement). -/
def toS64 (n : Nat) : Int :=
  if n % 2 ^ 64 < 2 ^ 63 then ((n % 2 ^ 64 : Nat) : Int) else ((n % 2 ^ 64 : Nat) : Int) - 2 ^ 64

/-- Cast of a signed value to `u16`: its bit pattern. -/
def toU16 (x : Int) : Nat := (x % 2 ^ 16).toNat

/-- Cast of a signed value to `u32`: its bit pattern. -/
def toU32 (x : Int) : Nat := (x % 2 ^ 32).toNat

/-- Cast of a signed value to `u64`: its bit pattern. -/
def toU64 (x : Int) : Nat := (x % 2 ^ 64).toNat

/-- Read the 16-bit sub-field that starts at bit `off` of a union's wide value. -/
def getField (val off : Nat) : Nat := val / 2 ^ off % 2 ^ 16

/-- Overwrite the 16-bit sub-field that starts at bit `off` of a union's wide value. -/
def setField (val off v : Nat) : Nat :=
  val / 2 ^ (off + 16) * 2 ^ (off + 16) + v % 2 ^ 16 * 2 ^ off + val % 2 ^ off

/-! ## Constants of `DSPCore.h` -/

/-- Modelled from the spec: carry flag of the status register (`DSPCore.h` is not
part of the sources at hand; the value is the one noted in `UpdateSR16`). -/
def SR_CARRY : Nat := 0x0001
/-- Modelled from the spec: overflow flag (`// 0x02 and 0x80` in `UpdateSR16`). -/
def SR_OVERFLOW : Nat := 0x0002
/-- Modelled from the spec: arithmetic-zero flag (`// 0x04`). -/
def SR_ARITH_ZERO : Nat := 0x0004
/-- Modelled from the spec: sign flag (`// 0x08`). -/
def SR_SIGN : Nat := 0x0008
/-- Modelled from the spec: over-S32 flag (`// 0x10`). -/
def SR_OVER_S32 : Nat := 0x0010
/-- Modelled from the spec: top-two-bits-equal flag (`// 0x20`). -/
def SR_TOP2BITS : Nat := 0x0020
/-- Modelled from the spec: logic-zero flag. -/
def SR_LOGIC_ZERO : Nat := 0x0040
/-- Modelled from the spec: sticky overflow flag (`// 0x02 and 0x80`). -/
def SR_OVERFLOW_STICKY : Nat := 0x0080
/-- Modelled from the spec: multiply-modify mode bit. -/
def SR_MUL_MODIFY : Nat := 0x2000
/-- Modelled from the spec: 40-bit mode bit. -/
def SR_40_MODE_BIT : Nat := 0x4000
/-- Modelled from the spec: multiply-unsigned mode bit. -/
def SR_MUL_UNSIGNED : Nat := 0x8000
/-- Modelled from the spec: the comparison-flag group. -/
def SR_CMP_MASK : Nat := 0x003f
/-- Modelled from the spec: halt bit of the control register. -/
def CR_HALT : Nat := 0x0004

/-- Code flag `CODE_IDLE_SKIP` of `DSPAnalyzer.h`. -/
def CODE_IDLE_SKIP : Nat := 2
/-- Code flag `CODE_LOOP_END` of `DSPAnalyzer.h`. -/
def CODE_LOOP_END : Nat := 8

/-! Architectural register indices (`DSPCore.h`). -/

/-- Modelled from the spec: index of the first address register. -/
def DSP_REG_AR0 : Nat := 0x00
/-- Modelled from the spec: index of the first index register. -/
def DSP_REG_IX0 : Nat := 0x04
/-- Modelled from the spec: index of the first wrap-mask register. -/
def DSP_REG_WR0 : Nat := 0x08
/-- Modelled from the spec: index of the first stack register. -/
def DSP_REG_ST0 : Nat := 0x0c
/-- Modelled from the spec: index of the high window of accumulator 0. -/
def DSP_REG_ACH0 : Nat := 0x10
/-- Modelled from the spec: index of the config register. -/
def DSP_REG_CR : Nat := 0x12
/-- Modelled from the spec: index of the status register. -/
def DSP_REG_SR : Nat := 0x13
/-- Modelled from the spec: index of the product low field. -/
def DSP_REG_PRODL : Nat := 0x14
/-- Modelled from the spec: index of the product mid field. -/
def DSP_REG_PRODM : Nat := 0x15
/-- Modelled from the spec: index of the product high field. -/
def DSP_REG_PRODH : Nat := 0x16
/-- Modelled from the spec: index of the second product mid field. -/
def DSP_REG_PRODM2 : Nat := 0x17
/-- Modelled from the spec: index of the low half of `ax[0]`. -/
def DSP_REG_AXL0 : Nat := 0x18
/-- Modelled from the spec: index of the high half of `ax[0]`. -/
def DSP_REG_AXH0 : Nat := 0x1a
/-- Modelled from the spec: index of the low window of accumulator 0. -/
def DSP_REG_ACL0 : Nat := 0x1c
/-- Modelled from the spec: index of the mid window of accumulator 0. -/
def DSP_REG_ACM0 : Nat := 0x1e

/-! ## Register file and core state -/

/-- Modelled from the spec: the architectural register file `DSP_Regs`. The
unions `prod` (`val`; `l`, `m`, `h`, `m2`), `ax[i]` (`val`; `l`, `h`) and
`ac[i]` (`val`; `l`, `m`, `h`) are held as their wide value. -/
structure DSP_Regs where
  ar : Nat → Nat
  ix : Nat → Nat
  wr : Nat → Nat
  st : Nat → Nat
  cr : Nat
  sr : Nat
  prod : Nat
  ax : Nat → Nat
  ac : Nat → Nat

/-- Modelled from the spec: the DSP state `SDSP`, as far as the interpreter
touches it; `reg_stacks` and `reg_stack_ptrs` back the call/loop stacks, and
`external_interrupt_waiting` is the flag the thread-mode run loop tests. The step
counter is the spec's monotonically increasing counter: no wrap is modelled. -/
structure SDSP where
  r : DSP_Regs
  pc : Nat
  cr : Nat
  step_counter : Nat
  reg_stacks : Nat → Nat → Nat
  reg_stack_ptrs : Nat → Nat
  external_interrupt_waiting : Bool := false

/-- Modelled from the spec: `SDSP::IsSRFlagSet`, true when the flag's bit is set
in the status register. -/
def IsSRFlagSet (s : SDSP) (flag : Nat) : Bool := (s.r.sr &&& flag) != 0

/-! ## Condition codes -/

/-- The lambda `IsLess` of `CheckCondition`: the two masked status words are
compared as they are. -/
def IsLess (s : SDSP) : Bool := (s.r.sr &&& SR_OVERFLOW) != (s.r.sr &&& SR_SIGN)

/-- The lambda `IsConditionA` of `CheckCondition`. -/
def IsConditionA (s : SDSP) : Bool :=
  (IsSRFlagSet s SR_OVER_S32 || IsSRFlagSet s SR_TOP2BITS) && !IsSRFlagSet s SR_ARITH_ZERO

/-- `Interpreter::CheckCondition`. -/
def CheckCondition (s : SDSP) (condition : Nat) : Bool :=
  match condition &&& 0xf with
  | 0xf => true
  | 0x0 => !IsLess s
  | 0x1 => IsLess s
  | 0x2 => !IsLess s && !IsSRFlagSet s SR_ARITH_ZERO
  | 0x3 => IsLess s || IsSRFlagSet s SR_ARITH_ZERO
  | 0x4 => !IsSRFlagSet s SR_ARITH_ZERO
  | 0x5 => IsSRFlagSet s SR_ARITH_ZERO
  | 0x6 => !IsSRFlagSet s SR_CARRY
  | 0x7 => IsSRFlagSet s SR_CARRY
  | 0x8 => !IsSRFlagSet s SR_OVER_S32
  | 0x9 => IsSRFlagSet s SR_OVER_S32
  | 0xa => IsConditionA s
  | 0xb => !IsConditionA s
  | 0xc => !IsSRFlagSet s SR_LOGIC_ZERO
  | 0xd => IsSRFlagSet s SR_LOGIC_ZERO
  | 0xe => IsSRFlagSet s SR_OVERFLOW
  | _ => true

/-! ## Address registers -/

/-- The assignment `state.r.ar[reg] = val`. -/
def writeAR (s : SDSP) (reg val : Nat) : SDSP :=
  { s with r := { s.r with ar := Function.update s.r.ar reg val } }

/-- `Interpreter::IncrementAddressRegister`; `ar`, `wr` and `nar` are `u32`. -/
def IncrementAddressRegister (s : SDSP) (reg : Nat) : Nat :=
  let ar := s.r.ar reg
  let wr := s.r.wr reg
  let nar := (ar + 1) % 2 ^ 32
  let nar := if (nar ^^^ ar) > ((wr ||| 1) <<< 1) % 2 ^ 32
    then (nar + 2 ^ 32 - (wr + 1) % 2 ^ 32) % 2 ^ 32 else nar
  nar % 2 ^ 16

/-- `Interpreter::DecrementAddressRegister`; `ar`, `wr` and `nar` are `u32`. -/
def DecrementAddressRegister (s : SDSP) (reg : Nat) : Nat :=
  let ar := s.r.ar reg
  let wr := s.r.wr reg
  let nar := (ar + wr) % 2 ^ 32
  let nar := if ((nar ^^^ ar) &&& ((wr ||| 1) <<< 1) % 2 ^ 32) > wr
    then (nar + 2 ^ 32 - (wr + 1) % 2 ^ 32) % 2 ^ 32 else nar
  nar % 2 ^ 16

/-- `Interpreter::IncreaseAddressRegister`; `ix_` is an `s16`, widened to the `s32`
`ix`; `ar`, `wr`, `mx`, `nar` and `dar` are `u32`, and `ix` enters the `u32`
arithmetic through its bit pattern. -/
def IncreaseAddressRegister (s : SDSP) (reg : Nat) (ix_ : Int) : Nat :=
  let ar := s.r.ar reg
  let wr := s.r.wr reg
  let ix : Int := ix_
  let mx := ((wr ||| 1) <<< 1) % 2 ^ 32
  let nar := (ar + toU32 ix) % 2 ^ 32
  let dar := (nar ^^^ ar ^^^ toU32 ix) &&& mx
  let nar :=
    if ix ≥ 0 then
      if dar > wr then (nar + 2 ^ 32 - (wr + 1) % 2 ^ 32) % 2 ^ 32 else nar
    else
      if ((((nar + wr + 1) % 2 ^ 32) ^^^ nar) &&& dar) ≤ wr then (nar + wr + 1) % 2 ^ 32
      else nar
  nar % 2 ^ 16

/-- `Interpreter::DecreaseAddressRegister`; as `IncreaseAddressRegister`, with
`ar - ix`, `~ix` and the test `static_cast<u32>(ix) > 0xFFFF8000`. -/
def DecreaseAddressRegister (s : SDSP) (reg : Nat) (ix_ : Int) : Nat :=
  let ar := s.r.ar reg
  let wr := s.r.wr reg
  let ix : Int := ix_
  let mx := ((wr ||| 1) <<< 1) % 2 ^ 32
  let nar := (ar + 2 ^ 32 - toU32 ix) % 2 ^ 32
  let dar := (nar ^^^ ar ^^^ toU32 (~~~ix)) &&& mx
  let nar :=
    if toU32 ix > 0xFFFF8000 then
      if dar > wr then (nar + 2 ^ 32 - (wr + 1) % 2 ^ 32) % 2 ^ 32 else nar
    else
      if ((((nar + wr + 1) % 2 ^ 32) ^^^ nar) &&& dar) ≤ wr then (nar + wr + 1) % 2 ^ 32
      else nar
  nar % 2 ^ 16

/-! ## Accumulators -/

/-- `Interpreter::GetLongAcc`: `static_cast<s64>(val << 24) >> 24`, the right shift
of the signed value being arithmetic. -/
def GetLongAcc (s : SDSP) (reg : Nat) : Int :=
  toS64 ((s.r.ac reg <<< 24) % 2 ^ 64) / 2 ^ 24

/-- `Interpreter::SetLongAcc`. -/
def SetLongAcc (s : SDSP) (reg : Nat) (value : Int) : SDSP :=
  { s with r := { s.r with ac := Function.update s.r.ac reg (toU64 value) } }

/-- The sub-field `ac[reg].l`. -/
def acL (s : SDSP) (reg : Nat) : Nat := getField (s.r.ac reg) 0
/-- The sub-field `ac[reg].m`. -/
def acM (s : SDSP) (reg : Nat) : Nat := getField (s.r.ac reg) 16
/-- The sub-field `ac[reg].h`. -/
def acH (s : SDSP) (reg : Nat) : Nat := getField (s.r.ac reg) 32

/-- `Interpreter::OpReadRegisterAndSaturate`; `static_cast<s32>(acc)` keeps the low
32 bits of the accumulator value. -/
def OpReadRegisterAndSaturate (s : SDSP) (reg : Nat) : Nat :=
  if IsSRFlagSet s SR_40_MODE_BIT then
    let acc := GetLongAcc s reg
    if acc ≠ toS32 (toU64 acc) then
      if acc > 0 then 0x7fff else 0x8000
    else acM s reg
  else acM s reg

/-! ## Product register and multiplication -/

/-- The sub-field `prod.l`. -/
def prodL (s : SDSP) : Nat := getField s.r.prod 0
/-- The sub-field `prod.m`. -/
def prodM (s : SDSP) : Nat := getField s.r.prod 16
/-- The sub-field `prod.h`. -/
def prodH (s : SDSP) : Nat := getField s.r.prod 32
/-- The sub-field `prod.m2`. -/
def prodM2 (s : SDSP) : Nat := getField s.r.prod 48

/-- Left shift of an `s64` by `k`, on its bit pattern. -/
def shlS64 (x : Int) (k : Nat) : Int := toS64 ((toU64 x <<< k) % 2 ^ 64)

/-- Multiplication of two `int` operands. A product outside the `int` range is a
signed overflow, for which the language defines no result (`none`). -/
def mulInt (x y : Int) : Option Int :=
  if -2 ^ 31 ≤ x * y ∧ x * y < 2 ^ 31 then some (x * y) else none

/-- `Interpreter::GetLongProduct`. -/
def GetLongProduct (s : SDSP) : Int :=
  let val : Int := toS8 (prodH s % 2 ^ 8)
  let val := shlS64 val 32
  let low_prod : Int := (prodM s : Int)
  let low_prod := toS64 (toU64 (low_prod + (prodM2 s : Int)))
  let low_prod := shlS64 low_prod 16
  let low_prod := toS64 (toU64 low_prod ||| prodL s)
  toS64 (toU64 (val + low_prod))

/-- `Interpreter::GetLongProductRounded`; `~0xffff` is the `int` `-65536`, widened to
64 bits for the `&`. -/
def GetLongProductRounded (s : SDSP) : Int :=
  let prod := GetLongProduct s
  if (toU64 prod &&& 0x10000) != 0 then
    toS64 (toU64 (toS64 (toU64 (prod + 0x8000))) &&& toU64 (~~~(0xffff : Int)))
  else
    toS64 (toU64 (toS64 (toU64 (prod + 0x7fff))) &&& toU64 (~~~(0xffff : Int)))

/-- `Interpreter::SetLongProduct`. -/
def SetLongProduct (s : SDSP) (value : Int) : SDSP :=
  { s with r := { s.r with prod := toU64 value &&& 0x000000FFFFFFFFFF } }

/-- `Interpreter::GetMultiplyProduct`; `a`, `b` are `u16`, `sign` is `u8`. The
operands are promoted to `int` and each product is formed in `int` (`mulInt`); the
unsigned branch casts the `int` product to `u32`; the result is widened to `s64`.
The call has no defined result (`none`) when the `int` product overflows. -/
def GetMultiplyProduct (s : SDSP) (a b sign : Nat) : Option Int :=
  let prod : Option Int :=
    if sign = 1 && IsSRFlagSet s SR_MUL_UNSIGNED then
      (mulInt (a : Int) (b : Int)).map (fun p => ((toU32 p : Nat) : Int))
    else if sign = 2 && IsSRFlagSet s SR_MUL_UNSIGNED then
      mulInt (a : Int) (toS16 b)
    else
      mulInt (toS16 a) (toS16 b)
  prod.map (fun prod => if !IsSRFlagSet s SR_MUL_MODIFY then shlS64 prod 1 else prod)

/-- `Interpreter::Multiply`. -/
def Multiply (s : SDSP) (a b sign : Nat) : Option Int := GetMultiplyProduct s a b sign

/-! ## Register access by architectural index -/

/-- The call/loop stack operations `SDSP::StoreStack` and `SDSP::PopStack` live in
`DSPCore.cpp`, outside the sources at hand: they are parameters of the embedding.
The second argument is the `StackRegister` number `reg - DSP_REG_ST0`. -/
structure StackOps where
  StoreStack : SDSP → Nat → Nat → SDSP
  PopStack : SDSP → Nat → Nat × SDSP

/-- `Interpreter::OpReadRegister`; the result is the value read and the state after
the read (a stack register is popped). `none` is the `default:` branch with its
failing assertion. -/
def OpReadRegister (K : StackOps) (s : SDSP) (reg_ : Int) : Option (Nat × SDSP) :=
  let reg := toU32 reg_ &&& 0x1f
  if reg = DSP_REG_ST0 ∨ reg = DSP_REG_ST0 + 1 ∨ reg = DSP_REG_ST0 + 2 ∨ reg = DSP_REG_ST0 + 3 then
    some (K.PopStack s (reg - DSP_REG_ST0))
  else if reg = DSP_REG_AR0 ∨ reg = DSP_REG_AR0 + 1 ∨ reg = DSP_REG_AR0 + 2
      ∨ reg = DSP_REG_AR0 + 3 then
    some (s.r.ar (reg - DSP_REG_AR0), s)
  else if reg = DSP_REG_IX0 ∨ reg = DSP_REG_IX0 + 1 ∨ reg = DSP_REG_IX0 + 2
      ∨ reg = DSP_REG_IX0 + 3 then
    some (s.r.ix (reg - DSP_REG_IX0), s)
  else if reg = DSP_REG_WR0 ∨ reg = DSP_REG_WR0 + 1 ∨ reg = DSP_REG_WR0 + 2
      ∨ reg = DSP_REG_WR0 + 3 then
    some (s.r.wr (reg - DSP_REG_WR0), s)
  else if reg = DSP_REG_ACH0 ∨ reg = DSP_REG_ACH0 + 1 then
    some (getField (s.r.ac (reg - DSP_REG_ACH0)) 32, s)
  else if reg = DSP_REG_CR then some (s.r.cr, s)
  else if reg = DSP_REG_SR then some (s.r.sr, s)
  else if reg = DSP_REG_PRODL then some (getField s.r.prod 0, s)
  else if reg = DSP_REG_PRODM then some (getField s.r.prod 16, s)
  else if reg = DSP_REG_PRODH then some (getField s.r.prod 32, s)
  else if reg = DSP_REG_PRODM2 then some (getField s.r.prod 48, s)
  else if reg = DSP_REG_AXL0 ∨ reg = DSP_REG_AXL0 + 1 then
    some (getField (s.r.ax (reg - DSP_REG_AXL0)) 0, s)
  else if reg = DSP_REG_AXH0 ∨ reg = DSP_REG_AXH0 + 1 then
    some (getField (s.r.ax (reg - DSP_REG_AXH0)) 16, s)
  else if reg = DSP_REG_ACL0 ∨ reg = DSP_REG_ACL0 + 1 then
    some (getField (s.r.ac (reg - DSP_REG_ACL0)) 0, s)
  else if reg = DSP_REG_ACM0 ∨ reg = DSP_REG_ACM0 + 1 then
    some (getField (s.r.ac (reg - DSP_REG_ACM0)) 16, s)
  else none

/-- `Interpreter::OpWriteRegister`; a register index without a `case` leaves the
state as it is. -/
def OpWriteRegister (K : StackOps) (s : SDSP) (reg_ : Int) (val : Nat) : SDSP :=
  let reg := toU32 reg_ &&& 0x1f
  if reg = DSP_REG_ACH0 ∨ reg = DSP_REG_ACH0 + 1 then
    let i := reg - DSP_REG_ACH0
    let v := setField (s.r.ac i) 32 (toU16 (toS8 (val % 2 ^ 8)))
    { s with r := { s.r with ac := Function.update s.r.ac i v } }
  else if reg = DSP_REG_ST0 ∨ reg = DSP_REG_ST0 + 1 ∨ reg = DSP_REG_ST0 + 2
      ∨ reg = DSP_REG_ST0 + 3 then
    K.StoreStack s (reg - DSP_REG_ST0) val
  else if reg = DSP_REG_AR0 ∨ reg = DSP_REG_AR0 + 1 ∨ reg = DSP_REG_AR0 + 2
      ∨ reg = DSP_REG_AR0 + 3 then
    { s with r := { s.r with ar := Function.update s.r.ar (reg - DSP_REG_AR0) val } }
  else if reg = DSP_REG_IX0 ∨ reg = DSP_REG_IX0 + 1 ∨ reg = DSP_REG_IX0 + 2
      ∨ reg = DSP_REG_IX0 + 3 then
    { s with r := { s.r with ix := Function.update s.r.ix (reg - DSP_REG_IX0) val } }
  else if reg = DSP_REG_WR0 ∨ reg = DSP_REG_WR0 + 1 ∨ reg = DSP_REG_WR0 + 2
      ∨ reg = DSP_REG_WR0 + 3 then
    { s with r := { s.r with wr := Function.update s.r.wr (reg - DSP_REG_WR0) val } }
  else if reg = DSP_REG_CR then { s with r := { s.r with cr := val } }
  else if reg = DSP_REG_SR then { s with r := { s.r with sr := val } }
  else if reg = DSP_REG_PRODL then { s with r := { s.r with prod := setField s.r.prod 0 val } }
  else if reg = DSP_REG_PRODM then { s with r := { s.r with prod := setField s.r.prod 16 val } }
  else if reg = DSP_REG_PRODH then { s with r := { s.r with prod := setField s.r.prod 32 val } }
  else if reg = DSP_REG_PRODM2 then { s with r := { s.r with prod := setField s.r.prod 48 val } }
  else if reg = DSP_REG_AXL0 ∨ reg = DSP_REG_AXL0 + 1 then
    let i := reg - DSP_REG_AXL0
    let v := setField (s.r.ax i) 0 val
    { s with r := { s.r with ax := Function.update s.r.ax i v } }
  else if reg = DSP_REG_AXH0 ∨ reg = DSP_REG_AXH0 + 1 then
    let i := reg - DSP_REG_AXH0
    let v := setField (s.r.ax i) 16 val
    { s with r := { s.r with ax := Function.update s.r.ax i v } }
  else if reg = DSP_REG_ACL0 ∨ reg = DSP_REG_ACL0 + 1 then
    let i := reg - DSP_REG_ACL0
    let v := setField (s.r.ac i) 0 val
    { s with r := { s.r with ac := Function.update s.r.ac i v } }
  else if reg = DSP_REG_ACM0 ∨ reg = DSP_REG_ACM0 + 1 then
    let i := reg - DSP_REG_ACM0
    let v := setField (s.r.ac i) 16 val
    { s with r := { s.r with ac := Function.update s.r.ac i v } }
  else s

/-- The register index selects one of the four stack registers `ST0..ST3`. -/
def isStackIndex (reg_ : Int) : Prop :=
  DSP_REG_ST0 ≤ toU32 reg_ &&& 0x1f ∧ toU32 reg_ &&& 0x1f ≤ DSP_REG_ST0 + 3

/-! ## Write-back log -/

/-- The interpreter object: the DSP state it drives and its write-back log, the
arrays `m_write_back_log` and `m_write_back_log_idx` (declared in
`DSPInterpreter.h`; their common length is the parameter `cap` of the operations
below). -/
structure Interpreter where
  state : SDSP
  m_write_back_log : Nat → Nat
  m_write_back_log_idx : Nat → Int

/-- The body of the loop of `ApplyWriteBackLog` on the DSP state: with
`PRECISE_BACKLOG` (`precise`) the value is first or-ed with the register's current
value, then it is written. -/
def writeBackEntry (K : StackOps) (precise : Bool) (s : SDSP) (idx : Int) (value : Nat) :
    Option SDSP :=
  if precise then
    match OpReadRegister K s idx with
    | some (v, s') => some (OpWriteRegister K s' idx (value ||| v))
    | none => none
  else some (OpWriteRegister K s idx value)

/-- The loop of `ApplyWriteBackLog` from slot `i` on, `slots` being the number of
array slots from `i` to the end: reading `m_write_back_log_idx[i]` past the end of
the array has no defined result (`none`). -/
def ApplyWriteBackLog.loop (K : StackOps) (precise : Bool) :
    (slots : Nat) → (i : Nat) → Interpreter → Option Interpreter
  | 0, _, _ => none
  | slots + 1, i, I =>
    if I.m_write_back_log_idx i ≠ -1 then
      match writeBackEntry K precise I.state (I.m_write_back_log_idx i) (I.m_write_back_log i) with
      | some st =>
        ApplyWriteBackLog.loop K precise slots (i + 1)
          { state := st, m_write_back_log := I.m_write_back_log,
            m_write_back_log_idx := Function.update I.m_write_back_log_idx i (-1) }
      | none => none
    else some I

/-- `Interpreter::ApplyWriteBackLog`, for a log of `cap` slots. -/
def ApplyWriteBackLog (K : StackOps) (precise : Bool) (cap : Nat) (I : Interpreter) :
    Option Interpreter :=
  ApplyWriteBackLog.loop K precise cap 0 I

/-- `Interpreter::WriteToBackLog`, for a log of `cap` slots; a slot past the end of
the arrays has no defined result. -/
def WriteToBackLog (cap : Nat) (I : Interpreter) (i : Nat) (idx : Int) (value : Nat) :
    Option Interpreter :=
  if i < cap then
    some { state := I.state, m_write_back_log := Function.update I.m_write_back_log i value,
           m_write_back_log_idx := Function.update I.m_write_back_log_idx i idx }
  else none

/-- The calls `WriteToBackLog(i, idx, value)`, `WriteToBackLog(i + 1, ..)`, ... for
the given (index, value) pairs, in slot order. -/
def fillLog (cap : Nat) : Interpreter → Nat → List (Int × Nat) → Option Interpreter
  | I, _, [] => some I
  | I, i, e :: es =>
    match WriteToBackLog cap I i e.1 e.2 with
    | some I' => fillLog cap I' (i + 1) es
    | none => none

/-- The calls `OpWriteRegister(idx, value)` for the given pairs, in list order. -/
def writeAll (K : StackOps) (s : SDSP) (entries : List (Int × Nat)) : SDSP :=
  entries.foldl (fun st e => OpWriteRegister K st e.1 e.2) s

/-! ## Batch-run loops -/

/-- Modelled from the spec: the run state of the core (`State` of `DSPCore.h`), set
by `DSPCore::SetState`. -/
inductive State where
  | Stopped
  | Running
  | Stepping
  deriving DecidableEq

/-- Modelled from the spec: the core `DSPCore` as the run loops use it: the
interpreter with the DSP state, the run state, the breakpoint set behind
`BreakPoints().IsAddressBreakPoint` and the analyzer's array `m_code_flags`. -/
structure DSPCore where
  interp : Interpreter
  core_state : State
  breakpoints : Nat → Bool
  m_code_flags : Nat → Nat

/-- `Analyzer::GetCodeFlags` (`DSPAnalyzer.h`). -/
def GetCodeFlags (c : DSPCore) (address : Nat) : Nat := c.m_code_flags address

/-- The test `(state.cr & CR_HALT) != 0`. -/
def haltSet (c : DSPCore) : Bool := (c.interp.state.cr &&& CR_HALT) != 0

/-- The test `m_dsp_core.BreakPoints().IsAddressBreakPoint(state.pc)`. -/
def atBreakPoint (c : DSPCore) : Bool := c.breakpoints c.interp.state.pc

/-- The test `(Analyzer::GetCodeFlags(state.pc) & Analyzer::CODE_IDLE_SKIP) != 0`. -/
def atIdleSkip (c : DSPCore) : Bool :=
  (GetCodeFlags c c.interp.state.pc &&& CODE_IDLE_SKIP) != 0

/-- Modelled from the spec: `DSPCore::SetState`. -/
def SetState (c : DSPCore) (new_state : State) : DSPCore := { c with core_state := new_state }

/-- How a `for` burst of a run loop ends: by a `return value;` or by running to its
end with `cycles` left. -/
inductive Burst where
  | ret (c : DSPCore) (value : Int)
  | next (c : DSPCore) (cycles : Int)

/-- The statement `cycles--` on the `int` budget, in 32-bit two's complement:
`INT_MIN` wraps to `INT_MAX`. -/
def decCycles (cycles : Int) : Int := if cycles = -2 ^ 31 then 2 ^ 31 - 1 else cycles - 1

/-- One `for` burst of `n` iterations of a run loop. The bursts of `RunCycles` and
`RunCyclesDebug` differ only in which of the three tests their body starts with:
the halt test (`halt`), the breakpoint test (`bp`), the idle-skip test (`idle`),
always in this order; then `Step(); cycles--; if (cycles < 0) return 0;`. `Step`
calls into the exception check, the instruction fetch and the opcode tables, all
outside the sources at hand: it is a parameter. `cycles` is an `int`, decremented
by `decCycles`. -/
def burst (Step : DSPCore → DSPCore) (halt bp idle : Bool) : Nat → DSPCore → Int → Burst
  | 0, c, cycles => Burst.next c cycles
  | n + 1, c, cycles =>
    if halt && haltSet c then Burst.ret c 0
    else if bp && atBreakPoint c then Burst.ret (SetState c State.Stepping) cycles
    else if idle && atIdleSkip c then Burst.ret c 0
    else
      let c := Step c
      let cycles := decCycles cycles
      if cycles < 0 then Burst.ret c 0 else burst Step halt bp idle n c cycles

/-- The `while (true)` of `RunCycles` (`bp = false`) and of `RunCyclesDebug`
(`bp = true`): a burst of 8 with idle skipping, then a burst of 200 without. `fuel`
bounds the number of rounds. -/
def mainLoop (Step : DSPCore → DSPCore) (bp : Bool) : Nat → DSPCore → Int → Option (DSPCore × Int)
  | 0, _, _ => none
  | fuel + 1, c, cycles =>
    match burst Step true bp true 8 c cycles with
    | Burst.ret c v => some (c, v)
    | Burst.next c cycles =>
      match burst Step false bp false 200 c cycles with
      | Burst.ret c v => some (c, v)
      | Burst.next c cycles => mainLoop Step bp fuel c cycles

/-- `Interpreter::RunCycles`: the core after the call and the value returned. The
budget that leaves the first burst is non-negative and a round of the `while` loop
takes 208 cycles off it, so `cycles + 1` rounds are never used up. -/
def RunCycles (Step : DSPCore → DSPCore) (c : DSPCore) (cycles : Int) : Option (DSPCore × Int) :=
  match burst Step true false false 8 c cycles with
  | Burst.ret c v => some (c, v)
  | Burst.next c cycles => mainLoop Step false (cycles.toNat + 1) c cycles

/-- `Interpreter::RunCyclesDebug`: the core after the call and the value returned. -/
def RunCyclesDebug (Step : DSPCore → DSPCore) (c : DSPCore) (cycles : Int) :
    Option (DSPCore × Int) :=
  match burst Step true true false 8 c cycles with
  | Burst.ret c v => some (c, v)
  | Burst.next c cycles => mainLoop Step true (cycles.toNat + 1) c cycles

/-- The `u16` bit pattern of the `int` value `~mask`, as stored by `sr &= ~mask`. -/
def notMask16 (mask : Nat) : Nat := toU16 (~~~(mask : Int))

/-- The assignment of a new value to `state.r.sr`. -/
def writeSR (s : SDSP) (sr : Nat) : SDSP := { s with r := { s.r with sr := sr } }

/-- `Interpreter::UpdateSR16`; `value` is an `s16`. -/
def UpdateSR16 (s : SDSP) (value : Int) (carry overflow over_s32 : Bool) : SDSP :=
  let sr := s.r.sr &&& notMask16 SR_CMP_MASK
  let sr := if carry then sr ||| SR_CARRY else sr
  let sr := if overflow then (sr ||| SR_OVERFLOW) ||| SR_OVERFLOW_STICKY else sr
  let sr := if value = 0 then sr ||| SR_ARITH_ZERO else sr
  let sr := if value < 0 then sr ||| SR_SIGN else sr
  let sr := if over_s32 then sr ||| SR_OVER_S32 else sr
  let sr := if toU16 value >>> 14 = 0 ∨ toU16 value >>> 14 = 3 then sr ||| SR_TOP2BITS else sr
  writeSR s sr

/-- `Interpreter::UpdateSR64`; `value` is an `s64`, the literal `0xc0000000` an
`unsigned int` widened to 64 bits for the `&`. -/
def UpdateSR64 (s : SDSP) (value : Int) (carry overflow : Bool) : SDSP :=
  let sr := s.r.sr &&& notMask16 SR_CMP_MASK
  let sr := if carry then sr ||| SR_CARRY else sr
  let sr := if overflow then (sr ||| SR_OVERFLOW) ||| SR_OVERFLOW_STICKY else sr
  let sr := if value = 0 then sr ||| SR_ARITH_ZERO else sr
  let sr := if value < 0 then sr ||| SR_SIGN else sr
  let sr := if value ≠ toS32 (toU64 value) then sr ||| SR_OVER_S32 else sr
  let sr := if toU64 value &&& 0xc0000000 = 0 ∨ toU64 value &&& 0xc0000000 = 0xc0000000
    then sr ||| SR_TOP2BITS else sr
  writeSR s sr

/-- `Interpreter::UpdateSRLogicZero`. -/
def UpdateSRLogicZero (s : SDSP) (value : Bool) : SDSP :=
  if value then writeSR s (s.r.sr ||| SR_LOGIC_ZERO)
  else writeSR s (s.r.sr &&& notMask16 SR_LOGIC_ZERO)

/-- `Interpreter::ConditionalExtendAccum`; `reg` is an `int`. -/
def ConditionalExtendAccum (s : SDSP) (reg : Int) : SDSP :=
  if reg ≠ (DSP_REG_ACM0 : Int) ∧ reg ≠ ((DSP_REG_ACM0 + 1 : Nat) : Int) then s
  else if !IsSRFlagSet s SR_40_MODE_BIT then s
  else
    let i := (reg - (DSP_REG_ACM0 : Int)).toNat
    let val := getField (s.r.ac i) 16
    let h := if (val &&& 0x8000) ≠ 0 then 0xFFFF else 0x0000
    let ac1 := setField (s.r.ac i) 32 h
    let ac2 := setField ac1 0 0
    { s with r := { s.r with ac := Function.update s.r.ac i ac2 } }

/-! ## Control register of the host interface -/

/-- The collaborators of `Interpreter::Step` outside the sources at hand:
`DSPCore::CheckExceptions`, `SDSP::FetchInstruction` (the word fetched and the core
with the program counter advanced), `ExecuteInstruction` as a whole (its handlers
come from the opcode tables) and `HandleLoop`. -/
structure StepOps where
  CheckExceptions : DSPCore → DSPCore
  FetchInstruction : DSPCore → Nat × DSPCore
  ExecuteInstruction : DSPCore → Nat → DSPCore
  HandleLoop : DSPCore → DSPCore

/-- The statement `m_dsp_core.DSPState().step_counter++`. -/
def incStepCounter (c : DSPCore) : DSPCore :=
  { c with interp := { c.interp with
      state := { c.interp.state with step_counter := c.interp.state.step_counter + 1 } } }

/-- `Interpreter::Step`; `pc` is a `u16`, `pc - 1` an `int` cast back to `u16`. -/
def Step (P : StepOps) (c : DSPCore) : DSPCore :=
  let c := P.CheckExceptions c
  let c := incStepCounter c
  let f := P.FetchInstruction c
  let opc := f.1
  let c := P.ExecuteInstruction f.2 opc
  let pc := c.interp.state.pc
  if (GetCodeFlags c (toU16 ((pc : Int) - 1)) &&& CODE_LOOP_END) != 0 then P.HandleLoop c
  else c

/-- The collaborators of `RunCyclesThread` outside the sources at hand:
`DSPCore::CheckExternalInterrupt` and `DSPCore::SetExternalInterrupt`. -/
structure InterruptOps where
  CheckExternalInterrupt : DSPCore → DSPCore
  SetExternalInterrupt : DSPCore → Bool → DSPCore

/-- One round of the `while (true)` of `RunCyclesThread` past the halt test: a
waiting external interrupt is serviced, then `Step()` runs. -/
def threadRound (E : InterruptOps) (Step : DSPCore → DSPCore) (c : DSPCore) : DSPCore :=
  let c := if c.interp.state.external_interrupt_waiting
    then E.SetExternalInterrupt (E.CheckExternalInterrupt c) false else c
  Step c

/-- The `while (true)` of `RunCyclesThread`: the core on return and the value
returned. `cycles` is an `int`: `cycles--` is taken in 32-bit two's complement, so
from `INT_MIN` it wraps to `INT_MAX`. `fuel` bounds the number of rounds. -/
def threadLoop (E : InterruptOps) (Step : DSPCore → DSPCore) :
    Nat → DSPCore → Int → Option (DSPCore × Int)
  | 0, _, _ => none
  | fuel + 1, c, cycles =>
    if haltSet c then some (c, 0)
    else
      let c := threadRound E Step c
      let cycles := toS32 (toU32 (cycles - 1))
      if cycles < 0 then some (c, 0) else threadLoop E Step fuel c cycles

/-- `Interpreter::RunCyclesThread`: the core after the call and the value returned.
A 32-bit counter decremented once per round is negative within `2 ^ 32` rounds. -/
def RunCyclesThread (E : InterruptOps) (Step : DSPCore → DSPCore) (c : DSPCore)
    (cycles : Int) : Option (DSPCore × Int) :=
  threadLoop E Step (2 ^ 32) c cycles

/-- Stack operations whose `StoreStack` leaves the registers other than the stack
registers as it finds them. -/
def keepsRegisters (K : StackOps) : Prop :=
  ∀ s i v, (K.StoreStack s i v).r.ar = s.r.ar ∧ (K.StoreStack s i v).r.ix = s.r.ix ∧
    (K.StoreStack s i v).r.wr = s.r.wr ∧ (K.StoreStack s i v).r.cr = s.r.cr ∧
    (K.StoreStack s i v).r.sr = s.r.sr ∧ (K.StoreStack s i v).r.prod = s.r.prod ∧
    (K.StoreStack s i v).r.ax = s.r.ax ∧ (K.StoreStack s i v).r.ac = s.r.ac

/-- A collaborator that leaves the step counter as it finds it. -/
def keepsStepCounter (f : DSPCore → DSPCore) : Prop :=
  ∀ c, (f c).interp.state.step_counter = c.interp.state.step_counter

/-! ## Fixtures for the concrete instances -/

/-- A state whose status register holds `sr` and everything else zero. -/
def stateWithSR (sr : Nat) : SDSP :=
  { r := { ar := fun _ => 0, ix := fun _ => 0, wr := fun _ => 0, st := fun _ => 0,
           cr := 0, sr := sr, prod := 0, ax := fun _ => 0, ac := fun _ => 0 },
    pc := 0, cr := 0, step_counter := 0,
    reg_stacks := fun _ _ => 0, reg_stack_ptrs := fun _ => 0 }

/-- A state whose address registers all hold `ar`, whose wrap masks all hold `wr`,
and everything else zero. -/
def addrState (ar wr : Nat) : SDSP :=
  { r := { ar := fun _ => ar, ix := fun _ => 0, wr := fun _ => wr, st := fun _ => 0,
           cr := 0, sr := 0, prod := 0, ax := fun _ => 0, ac := fun _ => 0 },
    pc := 0, cr := 0, step_counter := 0,
    reg_stacks := fun _ _ => 0, reg_stack_ptrs := fun _ => 0 }

/-- The all-zero state. -/
def zeroState : SDSP := addrState 0 0

/-- An interpreter on the all-zero state whose log holds the two entries
`(idx, v1)`, `(idx, v2)` in slots 0 and 1 and the sentinel everywhere else. -/
def twoEntryLog (idx : Int) (v1 v2 : Nat) : Interpreter :=
  { state := zeroState,
    m_write_back_log := fun i => if i = 0 then v1 else if i = 1 then v2 else 0,
    m_write_back_log_idx := fun i => if i = 0 then idx else if i = 1 then idx else -1 }

/-- An interpreter on the all-zero state whose log holds the three entries
`(AR0, 5)`, `(AR1, 9)`, `(AR0, 7)` in slots 0 to 2 and the sentinel everywhere
else. -/
def threeEntryLog : Interpreter :=
  { state := zeroState,
    m_write_back_log := fun i => if i = 0 then 5 else if i = 1 then 9 else if i = 2 then 7 else 0,
    m_write_back_log_idx := fun i => if i = 0 then 0 else if i = 1 then 1 else if i = 2 then 0
      else -1 }

/-- An interpreter on the all-zero state with an empty log. -/
def emptyLog : Interpreter :=
  { state := zeroState, m_write_back_log := fun _ => 0, m_write_back_log_idx := fun _ => -1 }

/-- The stack operations of a machine without stacks: a store is dropped, a pop
reads zero. -/
def noStacks : StackOps :=
  { StoreStack := fun s _ _ => s, PopStack := fun s _ => (0, s) }

/-- A state whose product register holds the wide value `prod` and everything else
zero. -/
def prodState (prod : Nat) : SDSP :=
  { r := { ar := fun _ => 0, ix := fun _ => 0, wr := fun _ => 0, st := fun _ => 0,
           cr := 0, sr := 0, prod := prod, ax := fun _ => 0, ac := fun _ => 0 },
    pc := 0, cr := 0, step_counter := 0,
    reg_stacks := fun _ _ => 0, reg_stack_ptrs := fun _ => 0 }

/-- Collaborators of `Step` that do nothing: only the step counter moves. -/
def idleStepOps : StepOps :=
  { CheckExceptions := fun c => c, FetchInstruction := fun c => (0, c),
    ExecuteInstruction := fun c _ => c, HandleLoop := fun c => c }

/-- Interrupt collaborators that do nothing. -/
def noInterrupts : InterruptOps :=
  { CheckExternalInterrupt := fun c => c, SetExternalInterrupt := fun c _ => c }

/-- A core on the all-zero state, running, without breakpoints and with an empty
code flag map. -/
def zeroCore : DSPCore :=
  { interp := emptyLog, core_state := State.Running, breakpoints := fun _ => false,
    m_code_flags := fun _ => 0 }

/-! # Theorems -/

/-! ## Status flags and condition codes -/

/-- A single-bit flag test is the test of that bit of the status register. -/
theorem isSRFlagSet_two_pow (s : SDSP) (k : Nat) :
    IsSRFlagSet s (2 ^ k) = s.r.sr.testBit k := by
  unfold IsSRFlagSet
  rw [Nat.and_two_pow]
  cases h : s.r.sr.testBit k
  · simp
  · have : 0 < 2 ^ k := Nat.pos_pow_of_pos k (by decide)
    simp [Nat.ne_of_gt this]

/-- What `IsLess` computes: the masked words `sr & 0x02` and `sr & 0x08` can only be
equal when both are zero, so the comparison is the disjunction of the two flags. -/
theorem isLess_eq_or (s : SDSP) :
    IsLess s = (s.r.sr.testBit 1 || s.r.sr.testBit 3) := by
  unfold IsLess SR_OVERFLOW SR_SIGN
  have h1 := Nat.and_two_pow s.r.sr 1
  have h3 := Nat.and_two_pow s.r.sr 3
  norm_num at h1 h3
  rw [h1, h3]
  cases s.r.sr.testBit 1 <;> cases s.r.sr.testBit 3 <;> decide

/-- C1 (code at the failing input): with the overflow bit and the sign bit both set
(`sr = 0x000A`) the two flags do not differ, yet condition 1 (Less) holds and
condition 0 (Greater-Equal) does not, because `sr & 0x02 = 2` is compared with
`sr & 0x08 = 8`. -/
theorem C1_less_when_both_flags_set :
    ((stateWithSR 0x000A).r.sr.testBit 1 = true ∧ (stateWithSR 0x000A).r.sr.testBit 3 = true) ∧
    CheckCondition (stateWithSR 0x000A) 1 = true ∧
    CheckCondition (stateWithSR 0x000A) 0 = false := by
  decide

/-- C9: `CheckCondition` depends only on the low 4 bits of the condition code, and
codes 2 to 0xF follow the table: G = not L and not Z, LE = L or Z, NZ, Z, NC, C,
not OS32, OS32, A = (OS32 or TOP2) and not Z, not A, not LZ, LZ, O, always true
(C = bit 0, O = bit 1, Z = bit 2, OS32 = bit 4, TOP2 = bit 5, LZ = bit 6 of `sr`). -/
theorem C9_checkCondition_table (s : SDSP) (c : Nat) :
    CheckCondition s c = CheckCondition s (c % 16) ∧
    CheckCondition s 0x2 = (!CheckCondition s 0x1 && !s.r.sr.testBit 2) ∧
    CheckCondition s 0x3 = (CheckCondition s 0x1 || s.r.sr.testBit 2) ∧
    CheckCondition s 0x4 = !s.r.sr.testBit 2 ∧
    CheckCondition s 0x5 = s.r.sr.testBit 2 ∧
    CheckCondition s 0x6 = !s.r.sr.testBit 0 ∧
    CheckCondition s 0x7 = s.r.sr.testBit 0 ∧
    CheckCondition s 0x8 = !s.r.sr.testBit 4 ∧
    CheckCondition s 0x9 = s.r.sr.testBit 4 ∧
    CheckCondition s 0xA = ((s.r.sr.testBit 4 || s.r.sr.testBit 5) && !s.r.sr.testBit 2) ∧
    CheckCondition s 0xB = !CheckCondition s 0xA ∧
    CheckCondition s 0xC = !s.r.sr.testBit 6 ∧
    CheckCondition s 0xD = s.r.sr.testBit 6 ∧
    CheckCondition s 0xE = s.r.sr.testBit 1 ∧
    CheckCondition s 0xF = true := by
  have hC := isSRFlagSet_two_pow s 0
  have hO := isSRFlagSet_two_pow s 1
  have hZ := isSRFlagSet_two_pow s 2
  have hS32 := isSRFlagSet_two_pow s 4
  have hT := isSRFlagSet_two_pow s 5
  have hLZ := isSRFlagSet_two_pow s 6
  norm_num at hC hO hZ hS32 hT hLZ
  refine ⟨?_, ?_⟩
  · have hm : c % 16 &&& 0xf = c &&& 0xf := by
      have h1 := Nat.and_pow_two_sub_one_eq_mod c 4
      have h2 := Nat.and_pow_two_sub_one_eq_mod (c % 16) 4
      norm_num at h1 h2
      rw [h1, h2]
    unfold CheckCondition
    rw [hm]
  · simp [CheckCondition, IsConditionA, SR_CARRY, SR_OVERFLOW, SR_ARITH_ZERO, SR_OVER_S32,
      SR_TOP2BITS, SR_LOGIC_ZERO, hC, hO, hZ, hS32, hT, hLZ]

/-! ## Address-register increment and decrement -/

/-- The carry chain of `a + 1`: `(a + 1) ^^^ a` exceeds `2 ^ (n + 1) - 2` exactly when
the low `n` bits of `a` are all ones. -/
theorem xor_succ_gt_iff (n : Nat) : ∀ a : Nat,
    ((a + 1) ^^^ a > 2 ^ (n + 1) - 2 ↔ a % 2 ^ n = 2 ^ n - 1) := by
  induction n with
  | zero =>
    intro a
    have h : ((a + 1) ^^^ a) % 2 = 1 := by rw [Nat.xor_mod_two_eq]; omega
    have h0 : (a + 1) ^^^ a > 0 := by omega
    have h1 : a % 1 = 0 := Nat.mod_one a
    simp only [Nat.zero_add, Nat.pow_one, Nat.pow_zero, Nat.sub_self]
    exact ⟨fun _ => h1, fun _ => h0⟩
  | succ n ih =>
    intro a
    have hx2 : ((a + 1) ^^^ a) % 2 = 1 := by rw [Nat.xor_mod_two_eq]; omega
    have hxd : ((a + 1) ^^^ a) / 2 = ((a + 1) / 2) ^^^ (a / 2) := Nat.xor_div_two
    have hp : 0 < 2 ^ n := Nat.pos_pow_of_pos n (by decide)
    have hmod : a % 2 ^ (n + 1) = a % 2 + 2 * (a / 2 % 2 ^ n) := by
      rw [Nat.pow_succ, Nat.mul_comm, Nat.mod_mul]
    have hpow : 2 ^ (n + 1 + 1) = 4 * 2 ^ n := by ring
    have hpow1 : 2 ^ (n + 1) = 2 * 2 ^ n := by ring
    have hlt : a / 2 % 2 ^ n < 2 ^ n := Nat.mod_lt _ hp
    rcases Nat.mod_two_eq_zero_or_one a with he | ho
    · have h1 : (a + 1) / 2 = a / 2 := by omega
      rw [h1, Nat.xor_self] at hxd
      rw [hmod, hpow, hpow1]
      generalize a / 2 % 2 ^ n = r at *
      generalize 2 ^ n = p at *
      generalize (a + 1) ^^^ a = x at *
      omega
    · have h1 : (a + 1) / 2 = a / 2 + 1 := by omega
      rw [h1] at hxd
      have := ih (a / 2)
      rw [hpow1] at this
      rw [hmod, hpow, hpow1]
      generalize a / 2 % 2 ^ n = r at *
      generalize (a / 2 + 1) ^^^ (a / 2) = y at *
      generalize 2 ^ n = p at *
      generalize (a + 1) ^^^ a = x at *
      omega

/-- Division of `a + (W - 1)` by `W` rounds `a / W` up. -/
theorem add_pred_div (a W : Nat) (hW : 0 < W) :
    (a + (W - 1)) / W = if a % W = 0 then a / W else a / W + 1 := by
  obtain ⟨q, r, rfl, hr⟩ : ∃ q r, a = W * q + r ∧ r < W :=
    ⟨a / W, a % W, (Nat.div_add_mod a W).symm, Nat.mod_lt _ hW⟩
  have hmod : (W * q + r) % W = r := by rw [Nat.mul_add_mod]; exact Nat.mod_eq_of_lt hr
  have hdiv : (W * q + r) / W = q := by
    rw [Nat.mul_add_div hW, Nat.div_eq_of_lt hr, Nat.add_zero]
  rw [hmod, hdiv]
  by_cases h0 : r = 0
  · subst h0
    rw [if_pos rfl, Nat.add_zero, Nat.mul_add_div hW, Nat.div_eq_of_lt (by omega), Nat.add_zero]
  · rw [if_neg h0]
    have e : W * q + r + (W - 1) = W * (q + 1) + (r - 1) := by
      rw [Nat.mul_succ]; omega
    rw [e, Nat.mul_add_div hW, Nat.div_eq_of_lt (by omega), Nat.add_zero]

/-- A value below `2 * W` has an odd quotient by `W` exactly from `W` on. -/
theorem div_mod_two_eq_one_iff (y W : Nat) (hy : y < 2 * W) :
    y / W % 2 = 1 ↔ W ≤ y := by
  by_cases h : y < W
  · rw [Nat.div_eq_of_lt h]; omega
  · have : y / W = 1 := Nat.div_eq_of_lt_le (by omega) (by omega)
    rw [this]; omega

/-- A multiple of `2 ^ n` below `2 ^ 16` leaves room for a whole block. -/
theorem block_room (a n : Nat) (hn : n ≤ 16) (ha : a < 2 ^ 16) (h0 : a % 2 ^ n = 0) :
    a + 2 ^ n ≤ 2 ^ 16 := by
  have hd : 2 ^ n ∣ 2 ^ 16 - a := by
    apply Nat.dvd_sub'
    · exact pow_dvd_pow 2 hn
    · exact Nat.dvd_of_mod_eq_zero h0
  have := Nat.le_of_dvd (by omega) hd
  omega

/-- Bit `i` of the constant one. -/
theorem testBit_one_eq (i : Nat) : (1 : Nat).testBit i = decide (i < 1) := by
  have h := Nat.testBit_two_pow_sub_one 1 i
  simpa using h

/-- The `| 1` of the boundary mask changes nothing on a mask `2 ^ n - 1` with `1 ≤ n`. -/
theorem mask_or_one (n : Nat) (hn1 : 1 ≤ n) : (2 ^ n - 1) ||| 1 = 2 ^ n - 1 := by
  apply Nat.eq_of_testBit_eq
  intro i
  rw [Nat.testBit_or, testBit_one_eq, Nat.testBit_two_pow_sub_one]
  by_cases hi : i < n
  · simp [hi]
  · have : ¬ i < 1 := by omega
    simp [hi, this]

/-- The last 16-bit address is the last word of its block, for every block size. -/
theorem full_mod (n : Nat) (hn : n ≤ 16) : 65535 % 2 ^ n = 2 ^ n - 1 := by
  interval_cases n <;> rfl

/-- Arithmetic reading of `IncrementAddressRegister` for a wrap mask `2 ^ n - 1`,
`1 ≤ n ≤ 16`: the address steps to the start of its `2 ^ n` block from the block's
last word, and to the next word otherwise. -/
theorem increment_eq (s : SDSP) (reg n : Nat) (har : s.r.ar reg < 2 ^ 16)
    (hn1 : 1 ≤ n) (hn : n ≤ 16) (hwr : s.r.wr reg = 2 ^ n - 1) :
    IncrementAddressRegister s reg =
      if s.r.ar reg % 2 ^ n = 2 ^ n - 1 then s.r.ar reg + 1 - 2 ^ n else s.r.ar reg + 1 := by
  unfold IncrementAddressRegister
  have hW16 : 2 ^ n ≤ 2 ^ 16 := Nat.pow_le_pow_right (by decide) hn
  have hW2 : 2 ^ 1 ≤ 2 ^ n := Nat.pow_le_pow_right (by decide) hn1
  simp only [hwr, mask_or_one n hn1, Nat.shiftLeft_eq]
  generalize s.r.ar reg = ar at har
  have key := xor_succ_gt_iff n ar
  have hpow : 2 ^ (n + 1) = 2 * 2 ^ n := by ring
  have hfull : ar = 65535 → ar % 2 ^ n = 2 ^ n - 1 := fun h => h ▸ full_mod n hn
  have hr : ar % 2 ^ n ≤ ar := Nat.mod_le _ _
  have h32 : (ar + 1) % 2 ^ 32 = ar + 1 := Nat.mod_eq_of_lt (by omega)
  rw [hpow] at key
  rw [h32]
  clear hpow h32
  generalize (ar + 1) ^^^ ar = x at key
  generalize ar % 2 ^ n = r at key hfull hr ⊢
  generalize 2 ^ n = W at key hfull hW16 hW2 ⊢
  norm_num at har hW16 hW2 ⊢
  split_ifs <;> omega

/-- Arithmetic reading of `DecrementAddressRegister` for a wrap mask `2 ^ n - 1`,
`1 ≤ n ≤ 16`: the address steps to the end of its `2 ^ n` block from the block's
first word, and to the previous word otherwise. -/
theorem decrement_eq (s : SDSP) (reg n : Nat) (har : s.r.ar reg < 2 ^ 16)
    (hn1 : 1 ≤ n) (hn : n ≤ 16) (hwr : s.r.wr reg = 2 ^ n - 1) :
    DecrementAddressRegister s reg =
      if s.r.ar reg % 2 ^ n = 0 then s.r.ar reg + 2 ^ n - 1 else s.r.ar reg - 1 := by
  unfold DecrementAddressRegister
  have hW16 : 2 ^ n ≤ 2 ^ 16 := Nat.pow_le_pow_right (by decide) hn
  have hW2 : 2 ^ 1 ≤ 2 ^ n := Nat.pow_le_pow_right (by decide) hn1
  have hWpos : 0 < 2 ^ n := Nat.pos_pow_of_pos n (by decide)
  simp only [hwr, mask_or_one n hn1, Nat.shiftLeft_eq]
  generalize s.r.ar reg = ar at har
  have hM : ((2 ^ n - 1) * 2 ^ 1).testBit n = true := by
    rw [Nat.mul_comm, Nat.testBit_mul_pow_two, Nat.testBit_two_pow_sub_one]
    simp; omega
  have hbit : ((((ar + (2 ^ n - 1)) ^^^ ar) &&& ((2 ^ n - 1) * 2 ^ 1)).testBit n)
      = ((ar + (2 ^ n - 1)).testBit n ^^ ar.testBit n) := by
    rw [Nat.testBit_and, Nat.testBit_xor, hM, Bool.and_true]
  have hle : (((ar + (2 ^ n - 1)) ^^^ ar) &&& ((2 ^ n - 1) * 2 ^ 1)) ≤ (2 ^ n - 1) * 2 ^ 1 :=
    Nat.and_le_right
  simp only [Nat.testBit_to_div_mod] at hbit
  have h32 : (ar + (2 ^ n - 1)) % 2 ^ 32 = ar + (2 ^ n - 1) :=
    Nat.mod_eq_of_lt (by omega)
  have hM32 : (2 ^ n - 1) * 2 ^ 1 % 2 ^ 32 = (2 ^ n - 1) * 2 ^ 1 :=
    Nat.mod_eq_of_lt (by omega)
  rw [h32, hM32]
  generalize (((ar + (2 ^ n - 1)) ^^^ ar) &&& ((2 ^ n - 1) * 2 ^ 1)) = y at hbit hle
  have hy := div_mod_two_eq_one_iff y (2 ^ n) (by omega)
  have hq := add_pred_div ar (2 ^ n) hWpos
  have hroom : ar % 2 ^ n = 0 → ar + 2 ^ n ≤ 2 ^ 16 := block_room ar n hn har
  have hr : ar % 2 ^ n ≤ ar := Nat.mod_le _ _
  have hiff : 2 ^ n ≤ y ↔ ¬ ar % 2 ^ n = 0 := by
    rw [← hy]
    by_cases h0 : ar % 2 ^ n = 0
    · rw [if_pos h0] at hq
      rw [hq] at hbit
      by_cases h1 : y / 2 ^ n % 2 = 1 <;> by_cases h3 : ar / 2 ^ n % 2 = 1 <;>
        simp [h0, h1, h3] at hbit ⊢
    · rw [if_neg h0] at hq
      rw [hq] at hbit
      have hpar : (ar / 2 ^ n + 1) % 2 = 1 ↔ ¬ ar / 2 ^ n % 2 = 1 := by omega
      by_cases h1 : y / 2 ^ n % 2 = 1 <;> by_cases h3 : ar / 2 ^ n % 2 = 1 <;>
        simp [h0, h1, h3, hpar] at hbit ⊢
  clear hbit hM h32 hM32 hy hq
  generalize ar % 2 ^ n = r at hiff hroom hr ⊢
  generalize 2 ^ n = W at hiff hroom hW16 hW2 hle hWpos ⊢
  norm_num at har hW16 hW2 hroom ⊢
  split_ifs <;> omega

/-- Residues of the neighbours of `a` modulo the block size `W`. -/
theorem mod_neighbours (a W : Nat) (hW : 0 < W) :
    (a % W = W - 1 → (a + 1 - W) % W = 0) ∧
    (a % W ≠ W - 1 → (a + 1) % W = a % W + 1) ∧
    (a % W = 0 → (a + W - 1) % W = W - 1) ∧
    (a % W ≠ 0 → (a - 1) % W = a % W - 1) := by
  obtain ⟨q, r, rfl, hr⟩ : ∃ q r, a = W * q + r ∧ r < W :=
    ⟨a / W, a % W, (Nat.div_add_mod a W).symm, Nat.mod_lt _ hW⟩
  have hmod : (W * q + r) % W = r := by rw [Nat.mul_add_mod]; exact Nat.mod_eq_of_lt hr
  rw [hmod]
  refine ⟨?_, ?_, ?_, ?_⟩
  · intro h
    have e : W * q + r + 1 - W = W * q := by omega
    rw [e, Nat.mul_mod_right]
  · intro h
    rw [Nat.add_assoc, Nat.mul_add_mod]
    exact Nat.mod_eq_of_lt (by omega)
  · intro h
    have e : W * q + r + W - 1 = W * q + (W - 1) := by omega
    rw [e, Nat.mul_add_mod]
    exact Nat.mod_eq_of_lt (by omega)
  · intro h
    have e : W * q + r - 1 = W * q + (r - 1) := by omega
    rw [e, Nat.mul_add_mod]
    exact Nat.mod_eq_of_lt (by omega)

/-- C3 (as amended): for a 16-bit address and a wrap mask `2 ^ n - 1` with
`1 ≤ n ≤ 16`, writing the result of `IncrementAddressRegister` back and decrementing
gives the address again, and so does writing the result of
`DecrementAddressRegister` back and incrementing. -/
theorem C3_increment_decrement_inverse (s : SDSP) (reg n : Nat)
    (har : s.r.ar reg < 2 ^ 16) (hn1 : 1 ≤ n) (hn : n ≤ 16) (hwr : s.r.wr reg = 2 ^ n - 1) :
    DecrementAddressRegister (writeAR s reg (IncrementAddressRegister s reg)) reg = s.r.ar reg ∧
    IncrementAddressRegister (writeAR s reg (DecrementAddressRegister s reg)) reg = s.r.ar reg := by
  have hWpos : 0 < 2 ^ n := Nat.pos_pow_of_pos n (by decide)
  have hI := increment_eq s reg n har hn1 hn hwr
  have hD := decrement_eq s reg n har hn1 hn hwr
  have hIlt : IncrementAddressRegister s reg < 2 ^ 16 := by
    unfold IncrementAddressRegister; exact Nat.mod_lt _ (by decide)
  have hDlt : DecrementAddressRegister s reg < 2 ^ 16 := by
    unfold DecrementAddressRegister; exact Nat.mod_lt _ (by decide)
  have hwA : ∀ v, (writeAR s reg v).r.ar reg = v := fun v => by simp [writeAR]
  have hwW : ∀ v, (writeAR s reg v).r.wr reg = 2 ^ n - 1 := fun v => by simp [writeAR, hwr]
  have hDI := decrement_eq (writeAR s reg (IncrementAddressRegister s reg)) reg n
    (by rw [hwA]; exact hIlt) hn1 hn (hwW _)
  have hID := increment_eq (writeAR s reg (DecrementAddressRegister s reg)) reg n
    (by rw [hwA]; exact hDlt) hn1 hn (hwW _)
  rw [hwA] at hDI hID
  rw [hDI, hID, hI, hD]
  obtain ⟨mA, mB, mC, mD⟩ := mod_neighbours (s.r.ar reg) (2 ^ n) hWpos
  have hr : s.r.ar reg % 2 ^ n < 2 ^ n := Nat.mod_lt _ hWpos
  have hle : s.r.ar reg % 2 ^ n ≤ s.r.ar reg := Nat.mod_le _ _
  have hW2 : 2 ^ 1 ≤ 2 ^ n := Nat.pow_le_pow_right (by decide) hn1
  constructor
  · by_cases h : s.r.ar reg % 2 ^ n = 2 ^ n - 1
    · rw [if_pos h, if_pos (mA h)]; omega
    · rw [if_neg h, if_neg (by rw [mB h]; omega)]; omega
  · by_cases h : s.r.ar reg % 2 ^ n = 0
    · rw [if_pos h, if_pos (mC h)]; omega
    · rw [if_neg h, if_neg (by rw [mD h]; omega)]; omega

/-- C3, a concrete instance: address `0x10FF` in a 256-word block (`wr = 0x00FF`). -/
theorem C3_increment_decrement_inverse_witness :
    DecrementAddressRegister
        (writeAR (addrState 0x10FF 0xFF) 0 (IncrementAddressRegister (addrState 0x10FF 0xFF) 0)) 0
      = (addrState 0x10FF 0xFF).r.ar 0 ∧
    IncrementAddressRegister
        (writeAR (addrState 0x10FF 0xFF) 0 (DecrementAddressRegister (addrState 0x10FF 0xFF) 0)) 0
      = (addrState 0x10FF 0xFF).r.ar 0 :=
  C3_increment_decrement_inverse (addrState 0x10FF 0xFF) 0 8 (by decide) (by decide) (by decide)
    (by decide)

/-- C3 (as stated, refuted): the wrap mask `0 = 2 ^ 0 - 1` is of the form `2 ^ n - 1`,
yet at address `0` increment gives `1` and decrement is the identity, so neither
composition returns the address. -/
theorem C3_counterexample_zero_mask :
    (addrState 0 0).r.ar 0 < 2 ^ 16 ∧ (addrState 0 0).r.wr 0 = 2 ^ 0 - 1 ∧
    DecrementAddressRegister
        (writeAR (addrState 0 0) 0 (IncrementAddressRegister (addrState 0 0) 0)) 0
      ≠ (addrState 0 0).r.ar 0 ∧
    IncrementAddressRegister
        (writeAR (addrState 0 0) 0 (DecrementAddressRegister (addrState 0 0) 0)) 0
      ≠ (addrState 0 0).r.ar 0 := by
  decide

/-! ## Accumulator round trip -/

/-- C4: for every accumulator index `reg` (0 and 1 in particular) and every signed
64-bit `V`, `GetLongAcc` after `SetLongAcc reg V` is the sign extension of the low 40
bits of `V`; it is `V` itself when `-2^39 ≤ V < 2^39`, and it always lies in the
signed 40-bit range. -/
theorem C4_setLongAcc_getLongAcc (s : SDSP) (reg : Nat) (V : Int)
    (hV : -2 ^ 63 ≤ V ∧ V < 2 ^ 63) :
    GetLongAcc (SetLongAcc s reg V) reg
        = (if V % 2 ^ 40 < 2 ^ 39 then V % 2 ^ 40 else V % 2 ^ 40 - 2 ^ 40) ∧
    (-2 ^ 39 ≤ V ∧ V < 2 ^ 39 → GetLongAcc (SetLongAcc s reg V) reg = V) ∧
    (-2 ^ 39 ≤ GetLongAcc (SetLongAcc s reg V) reg ∧
      GetLongAcc (SetLongAcc s reg V) reg < 2 ^ 39) := by
  have key : GetLongAcc (SetLongAcc s reg V) reg
      = (if V % 2 ^ 40 < 2 ^ 39 then V % 2 ^ 40 else V % 2 ^ 40 - 2 ^ 40) := by
    simp only [GetLongAcc, SetLongAcc, toS64, toU64, Function.update_same, Nat.shiftLeft_eq]
    have hmm : (V % 2 ^ 64).toNat * 2 ^ 24 % 2 ^ 64 % 2 ^ 64
        = (V % 2 ^ 64).toNat * 2 ^ 24 % 2 ^ 64 := Nat.mod_mod _ _
    rw [hmm]
    split_ifs <;> omega
  rw [key]
  refine ⟨rfl, ?_, ?_⟩
  · intro h; split_ifs <;> omega
  · split_ifs <;> omega

/-- C4, a concrete instance: accumulator 1 and the value `-2`. -/
theorem C4_setLongAcc_getLongAcc_witness :
    GetLongAcc (SetLongAcc zeroState 1 (-2)) 1
        = (if (-2 : Int) % 2 ^ 40 < 2 ^ 39 then (-2 : Int) % 2 ^ 40 else (-2 : Int) % 2 ^ 40 - 2 ^ 40) ∧
    (-2 ^ 39 ≤ (-2 : Int) ∧ (-2 : Int) < 2 ^ 39 → GetLongAcc (SetLongAcc zeroState 1 (-2)) 1 = -2) ∧
    (-2 ^ 39 ≤ GetLongAcc (SetLongAcc zeroState 1 (-2)) 1 ∧
      GetLongAcc (SetLongAcc zeroState 1 (-2)) 1 < 2 ^ 39) :=
  C4_setLongAcc_getLongAcc zeroState 1 (-2) (by decide)

/-! ## Product register -/

/-- A sub-field is a 16-bit value. -/
theorem getField_lt (val off : Nat) : getField val off < 2 ^ 16 :=
  Nat.mod_lt _ (by decide)

/-- Closed form of `GetLongProduct`: the sign-extended low byte of `h` times `2^32`,
plus the sum of the two middle fields times `2^16`, plus `l`. -/
theorem getLongProduct_eq (s : SDSP) :
    GetLongProduct s
      = toS8 (prodH s % 2 ^ 8) * 2 ^ 32 + ((prodM s : Int) + (prodM2 s : Int)) * 2 ^ 16
        + (prodL s : Int) := by
  have hl : prodL s < 2 ^ 16 := getField_lt _ _
  have hm : prodM s < 2 ^ 16 := getField_lt _ _
  have hm2 : prodM2 s < 2 ^ 16 := getField_lt _ _
  have hh : -2 ^ 7 ≤ toS8 (prodH s % 2 ^ 8) ∧ toS8 (prodH s % 2 ^ 8) < 2 ^ 7 := by
    unfold toS8; split_ifs <;> omega
  unfold GetLongProduct
  generalize toS8 (prodH s % 2 ^ 8) = h at hh
  generalize prodL s = l at hl
  generalize prodM s = m at hm
  generalize prodM2 s = m2 at hm2
  have e1 : shlS64 h 32 = h * 2 ^ 32 := by
    simp only [shlS64, toS64, toU64, Nat.shiftLeft_eq]
    split_ifs <;> omega
  have e2 : toS64 (toU64 ((m : Int) + (m2 : Int))) = (m : Int) + (m2 : Int) := by
    simp only [toS64, toU64]
    split_ifs <;> omega
  have e3 : shlS64 ((m : Int) + (m2 : Int)) 16 = (((m + m2) * 2 ^ 16 : Nat) : Int) := by
    simp only [shlS64, toS64, toU64, Nat.shiftLeft_eq]
    split_ifs <;> omega
  have e4 : toU64 (((m + m2) * 2 ^ 16 : Nat) : Int) ||| l = (m + m2) * 2 ^ 16 + l := by
    have : toU64 (((m + m2) * 2 ^ 16 : Nat) : Int) = 2 ^ 16 * (m + m2) := by
      simp only [toU64]; omega
    rw [this, ← Nat.mul_add_lt_is_or hl, Nat.mul_comm]
  simp only [e1, e2, e3, e4]
  simp only [toS64, toU64]
  split_ifs <;> omega

/-- The test `(x & 0x10000) != 0` reads bit 16. -/
theorem and_bit16_ne_zero (n : Nat) :
    ((n &&& 0x10000) != 0) = decide (n / 2 ^ 16 % 2 = 1) := by
  have h := Nat.and_two_pow n 16
  have e : (0x10000 : Nat) = 2 ^ 16 := by norm_num
  rw [e, h, Nat.testBit_to_div_mod]
  generalize n / 2 ^ 16 % 2 = b
  by_cases hb : b = 1 <;> simp [hb]

/-- The bit pattern of `~0xffff` widened to 64 bits. -/
theorem toU64_not_ffff : toU64 (~~~(0xffff : Int)) = 2 ^ 16 * (2 ^ 48 - 1) := by
  decide

/-- Masking a 64-bit pattern with `~0xffff` clears its low 16 bits. -/
theorem and_not_ffff (n : Nat) (hn : n < 2 ^ 64) :
    n &&& toU64 (~~~(0xffff : Int)) = n / 2 ^ 16 * 2 ^ 16 := by
  rw [toU64_not_ffff, Nat.mul_comm (n / 2 ^ 16)]
  apply Nat.eq_of_testBit_eq
  intro i
  rw [Nat.testBit_and, Nat.testBit_mul_pow_two, Nat.testBit_mul_pow_two,
    Nat.testBit_two_pow_sub_one, ← Nat.shiftRight_eq_div_pow, Nat.testBit_shiftRight]
  by_cases h16 : i ≥ 16
  · have e : 16 + (i - 16) = i := by omega
    rw [e]
    by_cases h64 : i - 16 < 48
    · simp [h16, h64]
    · have hlt : n < 2 ^ i := lt_of_lt_of_le hn (Nat.pow_le_pow_right (by decide) (by omega))
      simp [h16, h64, Nat.testBit_lt_two_pow hlt]
  · simp [h16]

/-- The product read by `GetLongProduct` fits well inside `s64`. -/
theorem getLongProduct_bounds (s : SDSP) :
    -2 ^ 39 ≤ GetLongProduct s ∧ GetLongProduct s < 2 ^ 40 := by
  rw [getLongProduct_eq]
  have hl : prodL s < 2 ^ 16 := getField_lt _ _
  have hm : prodM s < 2 ^ 16 := getField_lt _ _
  have hm2 : prodM2 s < 2 ^ 16 := getField_lt _ _
  have hh : -2 ^ 7 ≤ toS8 (prodH s % 2 ^ 8) ∧ toS8 (prodH s % 2 ^ 8) < 2 ^ 7 := by
    unfold toS8; split_ifs <;> omega
  omega

/-- Closed form of `GetLongProductRounded`: add the bias chosen by bit 16 and clear
the low 16 bits. -/
theorem getLongProductRounded_eq (s : SDSP) :
    GetLongProductRounded s
      = if GetLongProduct s / 2 ^ 16 % 2 = 1 then (GetLongProduct s + 0x8000) / 2 ^ 16 * 2 ^ 16
        else (GetLongProduct s + 0x7fff) / 2 ^ 16 * 2 ^ 16 := by
  have hb := getLongProduct_bounds s
  unfold GetLongProductRounded
  generalize GetLongProduct s = P at hb
  have hlt : ∀ x : Int, toU64 (toS64 (toU64 x)) < 2 ^ 64 := by
    intro x; simp only [toU64, toS64]; split_ifs <;> omega
  simp only [and_bit16_ne_zero, and_not_ffff _ (hlt _)]
  have hbit : (toU64 P / 2 ^ 16 % 2 = 1) ↔ (P / 2 ^ 16 % 2 = 1) := by
    simp only [toU64]; omega
  by_cases h : P / 2 ^ 16 % 2 = 1
  · rw [if_pos h, if_pos (by simpa using hbit.mpr h)]
    simp only [toU64, toS64]
    split_ifs <;> omega
  · rw [if_neg h, if_neg (by simpa using fun h' => h (hbit.mp h'))]
    simp only [toU64, toS64]
    split_ifs <;> omega

/-- C5: for every product-register state, `GetLongProductRounded` is a multiple of
`0x10000` at distance at most `0x8000` from `P = GetLongProduct`, no multiple of
`0x10000` is nearer, and on a tie (`P mod 0x10000 = 0x8000`) it is `P + 0x8000` when
bit 16 of `P` is set and `P - 0x8000` when it is clear; products `0x8000` and
`0x7FFF` both round to `0`. -/
theorem C5_getLongProductRounded (s : SDSP) :
    GetLongProductRounded s % 0x10000 = 0 ∧
    |GetLongProductRounded s - GetLongProduct s| ≤ 0x8000 ∧
    (∀ k : Int, |GetLongProductRounded s - GetLongProduct s|
        ≤ |0x10000 * k - GetLongProduct s|) ∧
    (GetLongProduct s % 0x10000 = 0x8000 →
      (GetLongProduct s / 0x10000 % 2 = 1 →
        GetLongProductRounded s = GetLongProduct s + 0x8000) ∧
      (GetLongProduct s / 0x10000 % 2 = 0 →
        GetLongProductRounded s = GetLongProduct s - 0x8000)) ∧
    (GetLongProduct s = 0x8000 → GetLongProductRounded s = 0) ∧
    (GetLongProduct s = 0x7FFF → GetLongProductRounded s = 0) ∧
    GetLongProduct (SetLongProduct zeroState 0x8000) = 0x8000 ∧
    GetLongProductRounded (SetLongProduct zeroState 0x8000) = 0 ∧
    GetLongProduct (SetLongProduct zeroState 0x7FFF) = 0x7FFF ∧
    GetLongProductRounded (SetLongProduct zeroState 0x7FFF) = 0 := by
  have hgen : ∀ t : SDSP,
      GetLongProductRounded t % 0x10000 = 0 ∧
      |GetLongProductRounded t - GetLongProduct t| ≤ 0x8000 ∧
      (∀ k : Int, |GetLongProductRounded t - GetLongProduct t|
          ≤ |0x10000 * k - GetLongProduct t|) ∧
      (GetLongProduct t % 0x10000 = 0x8000 →
        (GetLongProduct t / 0x10000 % 2 = 1 →
          GetLongProductRounded t = GetLongProduct t + 0x8000) ∧
        (GetLongProduct t / 0x10000 % 2 = 0 →
          GetLongProductRounded t = GetLongProduct t - 0x8000)) ∧
      (GetLongProduct t = 0x8000 → GetLongProductRounded t = 0) ∧
      (GetLongProduct t = 0x7FFF → GetLongProductRounded t = 0) := by
    intro t
    have hR := getLongProductRounded_eq t
    generalize GetLongProductRounded t = R at hR
    generalize GetLongProduct t = P at hR
    norm_num at hR
    have hmul : R % 65536 = 0 := by split_ifs at hR <;> omega
    have hlo : R - P ≤ 32768 := by split_ifs at hR <;> omega
    have hhi : P - R ≤ 32768 := by split_ifs at hR <;> omega
    refine ⟨hmul, ?_, ?_, ?_, ?_, ?_⟩
    · rw [abs_le]; constructor <;> omega
    · intro k
      rcases abs_cases (R - P) with ⟨h1, _⟩ | ⟨h1, _⟩ <;>
        rcases abs_cases (65536 * k - P) with ⟨h2, _⟩ | ⟨h2, _⟩ <;>
        rw [h1, h2] <;> omega
    · intro htie
      constructor
      · intro hb; rw [if_pos hb] at hR; omega
      · intro hb; rw [if_neg (by omega)] at hR; omega
    · intro hP; subst hP; norm_num at hR; exact hR
    · intro hP; subst hP; norm_num at hR; exact hR
  have hP1 : GetLongProduct (SetLongProduct zeroState 0x8000) = 0x8000 := by
    rw [getLongProduct_eq]; decide
  have hP2 : GetLongProduct (SetLongProduct zeroState 0x7FFF) = 0x7FFF := by
    rw [getLongProduct_eq]; decide
  obtain ⟨a1, a2, a3, a4, a5, a6⟩ := hgen s
  exact ⟨a1, a2, a3, a4, a5, a6, hP1, (hgen _).2.2.2.2.1 hP1, hP2, (hgen _).2.2.2.2.2 hP2⟩

/-! ## Multiplication -/

/-- Reading back a product stored by `SetLongProduct`: the sign extension of the
low 40 bits of the stored value. -/
theorem getLongProduct_setLongProduct (s : SDSP) (x : Int) :
    GetLongProduct (SetLongProduct s x)
      = if x % 2 ^ 40 < 2 ^ 39 then x % 2 ^ 40 else x % 2 ^ 40 - 2 ^ 40 := by
  rw [getLongProduct_eq]
  have e : (0x000000FFFFFFFFFF : Nat) = 2 ^ 40 - 1 := by norm_num
  simp only [prodL, prodM, prodM2, prodH, SetLongProduct, e, Nat.and_pow_two_sub_one_eq_mod,
    getField, toS8, toU64]
  split_ifs <;> omega

/-- A product of two bounded integers is bounded by the product of the bounds. -/
theorem abs_mul_le_of_abs_le (x y X Y : Int) (hx : |x| ≤ X) (hy : |y| ≤ Y) :
    |x * y| ≤ X * Y := by
  rw [abs_mul]
  exact mul_le_mul hx hy (abs_nonneg _) (le_trans (abs_nonneg _) hx)

/-- Range of the `s16` view. -/
theorem toS16_bounds (n : Nat) : -2 ^ 15 ≤ toS16 n ∧ toS16 n < 2 ^ 15 := by
  unfold toS16; split_ifs <;> omega

/-- The `int` product of two operands is defined exactly when it lies in the `int`
range. -/
theorem mulInt_eq (x y : Int) :
    (-2 ^ 31 ≤ x * y ∧ x * y < 2 ^ 31 → mulInt x y = some (x * y)) ∧
    (¬ (-2 ^ 31 ≤ x * y ∧ x * y < 2 ^ 31) → mulInt x y = none) := by
  unfold mulInt
  exact ⟨fun h => if_pos h, fun h => if_neg h⟩

/-- Doubling an exact product of 16-bit operands by `prod <<= 1` is exact. -/
theorem shlS64_one (p : Int) (hlo : -2 ^ 32 ≤ p) (hhi : p < 2 ^ 32) : shlS64 p 1 = 2 * p := by
  simp only [shlS64, toS64, toU64, Nat.shiftLeft_eq]
  split_ifs <;> omega

/-- C8 (the code as it is): for 16-bit operands, `Multiply a b sign` is the exact
product selected by the mode, doubled unless multiply-modify mode is set, and
`GetLongProduct` reads it back after `SetLongProduct`, in the signed and mixed modes
and, in the unsigned mode, as long as `a * b < 2^31`. In the unsigned mode with
`a * b ≥ 2^31` the product `a * b` of the two promoted operands overflows `int` and
the call has no defined result. With `a = 1`, `b = 0xFFFF`, signed, modify clear,
the value is `-2`. -/
theorem C8_multiply_exact_unless_overflow (s : SDSP) (a b sign : Nat) (ha : a < 2 ^ 16)
    (hb : b < 2 ^ 16) :
    (sign = 1 ∧ IsSRFlagSet s SR_MUL_UNSIGNED = true ∧ (2 : Int) ^ 31 ≤ (a : Int) * (b : Int) →
      Multiply s a b sign = none) ∧
    (¬ (sign = 1 ∧ IsSRFlagSet s SR_MUL_UNSIGNED = true ∧ (2 : Int) ^ 31 ≤ (a : Int) * (b : Int)) →
      Multiply s a b sign
        = some ((if IsSRFlagSet s SR_MUL_MODIFY = true then 1 else 2) *
          (if sign = 1 ∧ IsSRFlagSet s SR_MUL_UNSIGNED = true then (a : Int) * (b : Int)
           else if sign = 2 ∧ IsSRFlagSet s SR_MUL_UNSIGNED = true then (a : Int) * toS16 b
           else toS16 a * toS16 b)) ∧
      ∀ p, Multiply s a b sign = some p → GetLongProduct (SetLongProduct s p) = p) ∧
    Multiply zeroState 0x0001 0xFFFF 0 = some (-2) := by
  have hA := toS16_bounds a
  have hB := toS16_bounds b
  have hau : |(a : Int)| ≤ 65535 := by rw [abs_le]; omega
  have hbu : |(b : Int)| ≤ 65535 := by rw [abs_le]; omega
  have has : |toS16 a| ≤ 32768 := by rw [abs_le]; omega
  have hbs : |toS16 b| ≤ 32768 := by rw [abs_le]; omega
  have p1 := abs_le.mp (abs_mul_le_of_abs_le _ _ _ _ hau hbu)
  have p1' : (0 : Int) ≤ (a : Int) * (b : Int) := by positivity
  have p2 := abs_le.mp (abs_mul_le_of_abs_le _ _ _ _ hau hbs)
  have p3 := abs_le.mp (abs_mul_le_of_abs_le _ _ _ _ has hbs)
  norm_num at p1 p2 p3
  have m2 : mulInt (a : Int) (toS16 b) = some ((a : Int) * toS16 b) :=
    (mulInt_eq _ _).1 ⟨by omega, by omega⟩
  have m3 : mulInt (toS16 a) (toS16 b) = some (toS16 a * toS16 b) :=
    (mulInt_eq _ _).1 ⟨by omega, by omega⟩
  have d1 : (a : Int) * (b : Int) < 2 ^ 31 →
      shlS64 (((toU32 ((a : Int) * (b : Int)) : Nat) : Int)) 1 = 2 * ((a : Int) * (b : Int)) ∧
      ((toU32 ((a : Int) * (b : Int)) : Nat) : Int) = (a : Int) * (b : Int) := by
    intro h
    have e : ((toU32 ((a : Int) * (b : Int)) : Nat) : Int) = (a : Int) * (b : Int) := by
      simp only [toU32]; omega
    rw [e]
    exact ⟨shlS64_one _ (by omega) (by omega), rfl⟩
  have d2 := shlS64_one ((a : Int) * toS16 b) (by omega) (by omega)
  have d3 := shlS64_one (toS16 a * toS16 b) (by omega) (by omega)
  refine ⟨?_, ?_, by decide⟩
  · rintro ⟨h1, h2, h3⟩
    have m1 : mulInt (a : Int) (b : Int) = none := (mulInt_eq _ _).2 (by omega)
    simp [Multiply, GetMultiplyProduct, h1, h2, m1]
  · intro hno
    have key : Multiply s a b sign
        = some ((if IsSRFlagSet s SR_MUL_MODIFY = true then 1 else 2) *
          (if sign = 1 ∧ IsSRFlagSet s SR_MUL_UNSIGNED = true then (a : Int) * (b : Int)
           else if sign = 2 ∧ IsSRFlagSet s SR_MUL_UNSIGNED = true then (a : Int) * toS16 b
           else toS16 a * toS16 b)) := by
      unfold Multiply GetMultiplyProduct
      by_cases c1 : sign = 1 ∧ IsSRFlagSet s SR_MUL_UNSIGNED = true
      · have hlt : (a : Int) * (b : Int) < 2 ^ 31 := by
          by_contra hcon
          exact hno ⟨c1.1, c1.2, by omega⟩
        have m1 : mulInt (a : Int) (b : Int) = some ((a : Int) * (b : Int)) :=
          (mulInt_eq _ _).1 ⟨by omega, hlt⟩
        obtain ⟨d1a, d1b⟩ := d1 hlt
        have d1c := shlS64_one ((a : Int) * (b : Int)) (by omega) (by omega)
        cases hm : IsSRFlagSet s SR_MUL_MODIFY <;>
          simp [c1.1, c1.2, m1, hm, d1a, d1b, d1c]
      · by_cases c2 : sign = 2 ∧ IsSRFlagSet s SR_MUL_UNSIGNED = true
        · have hs1 : ¬ sign = 1 := by omega
          cases hm : IsSRFlagSet s SR_MUL_MODIFY <;>
            simp [hs1, c2.1, c2.2, m2, hm, d2]
        · have n1 : (decide (sign = 1) && IsSRFlagSet s SR_MUL_UNSIGNED) = false := by
            cases hu : IsSRFlagSet s SR_MUL_UNSIGNED
            · simp
            · simp only [Bool.and_true, decide_eq_false_iff_not]
              exact fun h => c1 ⟨h, hu⟩
          have n2 : (decide (sign = 2) && IsSRFlagSet s SR_MUL_UNSIGNED) = false := by
            cases hu : IsSRFlagSet s SR_MUL_UNSIGNED
            · simp
            · simp only [Bool.and_true, decide_eq_false_iff_not]
              exact fun h => c2 ⟨h, hu⟩
          cases hm : IsSRFlagSet s SR_MUL_MODIFY <;>
            simp [n1, n2, c1, c2, m3, hm, d3]
    refine ⟨key, ?_⟩
    intro p hp
    rw [key] at hp
    have hp' := (Option.some.inj hp).symm
    rw [getLongProduct_setLongProduct, hp']
    generalize (a : Int) * (b : Int) = uu at p1 p1' ⊢
    generalize (a : Int) * toS16 b = us at p2 ⊢
    generalize toS16 a * toS16 b = ss at p3 ⊢
    split_ifs <;> omega

/-- C8 at the failing input: `0xFFFF × 0xFFFF` in unsigned mode (status register
`0xA000`: multiply-unsigned and multiply-modify set). The product `0xFFFE0001` of
the promoted operands is above `INT_MAX`: the call has no defined result. -/
theorem C8_multiply_exact_unless_overflow_witness :
    ((0xFFFF : Nat) < 2 ^ 16 ∧
      (1 = 1 ∧ IsSRFlagSet (stateWithSR 0xA000) SR_MUL_UNSIGNED = true ∧
        (2 : Int) ^ 31 ≤ ((0xFFFF : Nat) : Int) * ((0xFFFF : Nat) : Int))) ∧
    Multiply (stateWithSR 0xA000) 0xFFFF 0xFFFF 1 = none :=
  ⟨by decide,
    (C8_multiply_exact_unless_overflow (stateWithSR 0xA000) 0xFFFF 0xFFFF 1 (by decide)
      (by decide)).1 (by decide)⟩

/-! ## Saturating accumulator read -/

/-- C10: with 40-bit mode set, `OpReadRegisterAndSaturate reg` is `0x7FFF` when
`GetLongAcc reg > 2^31 - 1`, `0x8000` when `GetLongAcc reg < -2^31`, and the raw mid
window `ac[reg].m` otherwise, which is bits 16..31 of the accumulator value clamped
to the signed 32-bit range; with 40-bit mode clear it is the raw mid window. -/
theorem C10_readRegisterAndSaturate (s : SDSP) (reg : Nat) :
    (IsSRFlagSet s SR_40_MODE_BIT = true →
      (GetLongAcc s reg > 2 ^ 31 - 1 → OpReadRegisterAndSaturate s reg = 0x7FFF) ∧
      (GetLongAcc s reg < -2 ^ 31 → OpReadRegisterAndSaturate s reg = 0x8000) ∧
      (-2 ^ 31 ≤ GetLongAcc s reg ∧ GetLongAcc s reg ≤ 2 ^ 31 - 1 →
        OpReadRegisterAndSaturate s reg = acM s reg) ∧
      ((OpReadRegisterAndSaturate s reg : Int)
        = (max (-2 ^ 31) (min (2 ^ 31 - 1) (GetLongAcc s reg))) / 2 ^ 16 % 2 ^ 16)) ∧
    (IsSRFlagSet s SR_40_MODE_BIT = false → OpReadRegisterAndSaturate s reg = acM s reg) := by
  have hacc : GetLongAcc s reg
      = (if (s.r.ac reg : Int) % 2 ^ 40 < 2 ^ 39 then (s.r.ac reg : Int) % 2 ^ 40
         else (s.r.ac reg : Int) % 2 ^ 40 - 2 ^ 40) := by
    simp only [GetLongAcc, toS64, Nat.shiftLeft_eq]
    split_ifs <;> omega
  have hm : (acM s reg : Int) = (s.r.ac reg : Int) / 2 ^ 16 % 2 ^ 16 := by
    simp only [acM, getField]; omega
  constructor
  · intro h40
    unfold OpReadRegisterAndSaturate
    rw [if_pos h40]
    have hS : toS32 (toU64 (GetLongAcc s reg))
        = (if GetLongAcc s reg % 2 ^ 32 < 2 ^ 31 then GetLongAcc s reg % 2 ^ 32
           else GetLongAcc s reg % 2 ^ 32 - 2 ^ 32) := by
      simp only [toS32, toU64]
      split_ifs <;> omega
    simp only [hS]
    generalize GetLongAcc s reg = acc at hacc
    generalize (s.r.ac reg : Int) = v at hacc hm
    generalize acM s reg = m at hm
    refine ⟨?_, ?_, ?_, ?_⟩
    · intro h
      rw [if_pos (by split_ifs <;> omega), if_pos (by omega)]
    · intro h
      rw [if_pos (by split_ifs <;> omega), if_neg (by omega)]
    · intro h
      rw [if_neg (by split_ifs <;> omega)]
    · by_cases h1 : acc > 2 ^ 31 - 1
      · rw [if_pos (by split_ifs <;> omega), if_pos (by omega), min_eq_left (by omega),
          max_eq_right (by omega)]
        norm_num
      · by_cases h2 : acc < -2 ^ 31
        · rw [if_pos (by split_ifs <;> omega), if_neg (by omega), min_eq_right (by omega),
            max_eq_left (by omega)]
          norm_num
        · rw [if_neg (by split_ifs <;> omega), min_eq_right (by omega), max_eq_right (by omega)]
          split_ifs at hacc <;> omega
  · intro h40
    unfold OpReadRegisterAndSaturate
    rw [if_neg (by simp [h40])]

/-! ## Write-back log -/

/-- The index a register access switches on is one of the 32 register numbers. -/
theorem regIndex_lt (reg_ : Int) : toU32 reg_ &&& 0x1f < 32 := by
  have h := Nat.and_pow_two_sub_one_eq_mod (toU32 reg_) 5
  norm_num at h
  rw [h]
  exact Nat.mod_lt _ (by decide)

/-- Every masked register index has a `case` in `OpReadRegister`: the read
returns. -/
theorem opReadRegister_isSome (K : StackOps) (s : SDSP) (reg_ : Int) :
    ∃ v s', OpReadRegister K s reg_ = some (v, s') := by
  have hlt := regIndex_lt reg_
  unfold OpReadRegister
  generalize toU32 reg_ &&& 0x1f = reg at hlt
  interval_cases reg <;>
    simp [DSP_REG_ST0, DSP_REG_AR0, DSP_REG_IX0, DSP_REG_WR0, DSP_REG_ACH0, DSP_REG_CR,
      DSP_REG_SR, DSP_REG_PRODL, DSP_REG_PRODM, DSP_REG_PRODH, DSP_REG_PRODM2, DSP_REG_AXL0,
      DSP_REG_AXH0, DSP_REG_ACL0, DSP_REG_ACM0] <;>
    exact ⟨_, _, rfl⟩

/-- The body of the flush loop always produces a state. -/
theorem writeBackEntry_isSome (K : StackOps) (precise : Bool) (s : SDSP) (idx : Int)
    (value : Nat) : ∃ s', writeBackEntry K precise s idx value = some s' := by
  unfold writeBackEntry
  cases precise
  · exact ⟨_, rfl⟩
  · obtain ⟨v, s', h⟩ := opReadRegister_isSome K s idx
    simp [h]

/-- Without the precise mode the body of the flush loop is `OpWriteRegister`. -/
theorem writeBackEntry_false (K : StackOps) (s : SDSP) (idx : Int) (value : Nat) :
    writeBackEntry K false s idx value = some (OpWriteRegister K s idx value) := by
  simp [writeBackEntry]

/-- The flush loop from slot `i`, on a log whose slots `i .. i + k - 1` hold `k`
entries followed by the sentinel: it returns, it has applied the entries in slot
order, it has reset exactly these slots to `-1`, and it leaves the value array as it
was. -/
theorem applyLoop_entries (K : StackOps) (precise : Bool) :
    ∀ (k slots i : Nat) (I : Interpreter),
      k < slots →
      (∀ j, j < k → I.m_write_back_log_idx (i + j) ≠ -1) →
      I.m_write_back_log_idx (i + k) = -1 →
      ∃ I', ApplyWriteBackLog.loop K precise slots i I = some I' ∧
        I'.m_write_back_log = I.m_write_back_log ∧
        (∀ j, I'.m_write_back_log_idx j
          = if i ≤ j ∧ j < i + k then -1 else I.m_write_back_log_idx j) ∧
        (precise = false →
          I'.state = writeAll K I.state
            ((List.range k).map (fun j =>
              (I.m_write_back_log_idx (i + j), I.m_write_back_log (i + j))))) := by
  intro k
  induction k with
  | zero =>
    intro slots i I hk _ hs
    obtain ⟨n, rfl⟩ : ∃ n, slots = n + 1 := ⟨slots - 1, by omega⟩
    refine ⟨I, ?_, rfl, ?_, ?_⟩
    · simp only [ApplyWriteBackLog.loop]
      rw [if_neg (by simpa using hs)]
    · intro j
      rw [if_neg (by omega)]
    · intro _; simp [writeAll]
  | succ k ih =>
    intro slots i I hk hne hs
    obtain ⟨n, rfl⟩ : ∃ n, slots = n + 1 := ⟨slots - 1, by omega⟩
    have h0 : I.m_write_back_log_idx i ≠ -1 := by simpa using hne 0 (by omega)
    obtain ⟨st, hst⟩ := writeBackEntry_isSome K precise I.state (I.m_write_back_log_idx i)
      (I.m_write_back_log i)
    obtain ⟨I', hI', hlog, hidx, hstate⟩ := ih n (i + 1)
      { state := st, m_write_back_log := I.m_write_back_log,
        m_write_back_log_idx := Function.update I.m_write_back_log_idx i (-1) }
      (by omega)
      (by
        intro j hj
        have := hne (j + 1) (by omega)
        simp only [Function.update_apply]
        rw [if_neg (by omega)]
        have e : i + 1 + j = i + (j + 1) := by omega
        rw [e]; exact this)
      (by
        simp only [Function.update_apply]
        rw [if_neg (by omega)]
        have e : i + 1 + k = i + (k + 1) := by omega
        rw [e]; exact hs)
    refine ⟨I', ?_, hlog, ?_, ?_⟩
    · simp only [ApplyWriteBackLog.loop]
      rw [if_pos h0, hst]
      exact hI'
    · intro j
      rw [hidx j]
      simp only [Function.update_apply]
      by_cases hj : j = i
      · subst hj
        rw [if_neg (by omega), if_pos rfl, if_pos (by omega)]
      · by_cases hj2 : i + 1 ≤ j ∧ j < i + 1 + k
        · rw [if_pos hj2, if_pos (by omega)]
        · rw [if_neg hj2, if_neg hj, if_neg (by omega)]
    · intro hp
      subst hp
      rw [hstate rfl]
      rw [writeBackEntry_false] at hst
      cases hst
      simp only [writeAll, List.range_succ_eq_map, List.map_cons, List.foldl_cons, List.map_map,
        Nat.add_zero, Function.update_apply]
      congr 1
      apply List.map_congr_left
      intro j _
      simp only [Function.comp, Function.update_apply]
      rw [if_neg (by omega)]
      have e : i + 1 + j = i + (j + 1) := by omega
      rw [e]

/-- Overwriting a sub-field twice keeps the second value only. -/
theorem setField_setField (val v1 v2 off : Nat)
    (hoff : off = 0 ∨ off = 16 ∨ off = 32 ∨ off = 48) :
    setField (setField val off v1) off v2 = setField val off v2 := by
  unfold setField
  rcases hoff with h | h | h | h <;> subst h <;> norm_num <;> omega

/-- Two writes to the same register other than a stack register: the second write
alone gives the same state. -/
theorem opWriteRegister_twice (K : StackOps) (s : SDSP) (reg_ : Int) (v1 v2 : Nat)
    (hns : ¬ isStackIndex reg_) :
    OpWriteRegister K (OpWriteRegister K s reg_ v1) reg_ v2 = OpWriteRegister K s reg_ v2 := by
  have hlt := regIndex_lt reg_
  unfold isStackIndex at hns
  unfold OpWriteRegister
  generalize toU32 reg_ &&& 0x1f = reg at hlt hns
  interval_cases reg <;>
    simp [DSP_REG_ST0, DSP_REG_AR0, DSP_REG_IX0, DSP_REG_WR0, DSP_REG_ACH0, DSP_REG_CR,
      DSP_REG_SR, DSP_REG_PRODL, DSP_REG_PRODM, DSP_REG_PRODH, DSP_REG_PRODM2, DSP_REG_AXL0,
      DSP_REG_AXH0, DSP_REG_ACL0, DSP_REG_ACM0, setField_setField] at hns ⊢

/-- Reading the log slots `0 .. k - 1` back gives the entries they hold. -/
theorem log_slots_eq (I : Interpreter) (i : Nat) (entries : List (Int × Nat))
    (hslots : ∀ j e, entries[j]? = some e →
      I.m_write_back_log_idx (i + j) = e.1 ∧ I.m_write_back_log (i + j) = e.2) :
    (List.range entries.length).map
        (fun j => (I.m_write_back_log_idx (i + j), I.m_write_back_log (i + j))) = entries := by
  apply List.ext_getElem
  · simp
  · intro n h1 h2
    have hget : entries[n]? = some entries[n] := List.getElem?_eq_getElem h2
    obtain ⟨ha, hb⟩ := hslots n _ hget
    simp only [List.getElem_map, List.getElem_range]
    rw [ha, hb]

/-- Filling the slots `i .. i + k - 1` of a log with room for them: the calls
return, the DSP state is untouched, the slots hold the entries, and every other slot
of the index array is as before. -/
theorem fillLog_spec (cap : Nat) :
    ∀ (entries : List (Int × Nat)) (I : Interpreter) (i : Nat),
      i + entries.length ≤ cap →
      ∃ I1, fillLog cap I i entries = some I1 ∧ I1.state = I.state ∧
        (∀ j e, entries[j]? = some e →
          I1.m_write_back_log_idx (i + j) = e.1 ∧ I1.m_write_back_log (i + j) = e.2) ∧
        (∀ j, j < i ∨ i + entries.length ≤ j →
          I1.m_write_back_log_idx j = I.m_write_back_log_idx j ∧
          I1.m_write_back_log j = I.m_write_back_log j) := by
  intro entries
  induction entries with
  | nil =>
    intro I i _
    exact ⟨I, rfl, rfl, by intro j e h; simp at h, fun _ _ => ⟨rfl, rfl⟩⟩
  | cons e es ih =>
    intro I i hlen
    simp only [List.length_cons] at hlen
    have hi : i < cap := by omega
    obtain ⟨I1, hI1, hst, hin, hout⟩ := ih
      { state := I.state, m_write_back_log := Function.update I.m_write_back_log i e.2,
        m_write_back_log_idx := Function.update I.m_write_back_log_idx i e.1 }
      (i + 1) (by omega)
    refine ⟨I1, ?_, hst, ?_, ?_⟩
    · simp only [fillLog, WriteToBackLog]
      rw [if_pos hi]
      exact hI1
    · intro j x hx
      cases j with
      | zero =>
        simp only [List.getElem?_cons_zero, Option.some.injEq] at hx
        subst hx
        have := hout i (Or.inl (by omega))
        simp only [Function.update_same] at this
        simpa using this
      | succ j =>
        simp only [List.getElem?_cons_succ] at hx
        have := hin j x hx
        have e1 : i + (j + 1) = i + 1 + j := by omega
        rw [e1]; exact this
    · intro j hj
      simp only [List.length_cons] at hj
      have := hout j (by omega)
      simp only [Function.update_apply] at this
      rw [if_neg (by omega), if_neg (by omega)] at this
      exact this

/-- C7: starting from an empty log of `cap` slots, after `WriteToBackLog` has filled
slots `0 .. k - 1` (`k < cap`) with register entries and `ApplyWriteBackLog` has run
(in either mode), every slot of the index array is `-1`, and a second
`ApplyWriteBackLog` returns the interpreter unchanged, register file and log alike.
Without the precise mode the first flush has applied the entries in order. -/
theorem C7_flush_leaves_log_empty (K : StackOps) (precise : Bool) (cap : Nat)
    (I : Interpreter) (entries : List (Int × Nat))
    (hempty : ∀ i, i < cap → I.m_write_back_log_idx i = -1)
    (hk : entries.length < cap)
    (hne : ∀ e, e ∈ entries → e.1 ≠ -1) :
    ∃ I1 I2, fillLog cap I 0 entries = some I1 ∧
      ApplyWriteBackLog K precise cap I1 = some I2 ∧
      (∀ i, i < cap → I2.m_write_back_log_idx i = -1) ∧
      ApplyWriteBackLog K precise cap I2 = some I2 ∧
      (precise = false → I2.state = writeAll K I.state entries) := by
  obtain ⟨I1, hI1, hst, hin, hout⟩ := fillLog_spec cap entries I 0 (by omega)
  have hsent1 : I1.m_write_back_log_idx (0 + entries.length) = -1 := by
    rw [(hout _ (Or.inr (by omega))).1, Nat.zero_add]
    exact hempty _ hk
  obtain ⟨I2, hI2, _, hidx, hstate⟩ := applyLoop_entries K precise entries.length cap 0 I1 hk
    (by
      intro j hj
      have hget : entries[j]? = some entries[j] := List.getElem?_eq_getElem hj
      rw [(hin j _ hget).1]
      exact hne _ (List.getElem_mem _))
    hsent1
  have hall : ∀ i, i < cap → I2.m_write_back_log_idx i = -1 := by
    intro i hi
    rw [hidx i]
    by_cases h : 0 ≤ i ∧ i < 0 + entries.length
    · rw [if_pos h]
    · rw [if_neg h, (hout i (Or.inr (by omega))).1]
      exact hempty i hi
  have hloop : ApplyWriteBackLog K precise cap I2 = some I2 := by
    unfold ApplyWriteBackLog
    obtain ⟨n, rfl⟩ : ∃ n, cap = n + 1 := ⟨cap - 1, by omega⟩
    simp only [ApplyWriteBackLog.loop]
    rw [if_neg (by simpa using hall 0 (by omega))]
  refine ⟨I1, I2, hI1, hI2, hall, hloop, ?_⟩
  · intro hp
    rw [hstate hp, log_slots_eq I1 0 entries hin, hst]

/-- C7, a concrete instance: two entries, for `AR0` and `ACM0`, appended to the empty
log of five slots and flushed without the precise mode. -/
theorem C7_flush_leaves_log_empty_witness :
    ∃ I1 I2, fillLog 5 emptyLog 0 [(0, 5), (30, 7)] = some I1 ∧
      ApplyWriteBackLog noStacks false 5 I1 = some I2 ∧
      (∀ i, i < 5 → I2.m_write_back_log_idx i = -1) ∧
      ApplyWriteBackLog noStacks false 5 I2 = some I2 ∧
      (false = false → I2.state = writeAll noStacks emptyLog.state [(0, 5), (30, 7)]) :=
  C7_flush_leaves_log_empty noStacks false 5 emptyLog [(0, 5), (30, 7)]
    (fun _ _ => rfl) (by decide)
    (by
      intro e he
      simp only [List.mem_cons, List.mem_singleton, List.not_mem_nil, or_false] at he
      rcases he with rfl | rfl <;> decide)

/-! ## Batch-run loops -/

/-- Away from `INT_MIN` the decrement takes one off. -/
theorem decCycles_eq (cycles : Int) (h : cycles ≠ -2 ^ 31) : decCycles cycles = cycles - 1 := by
  unfold decCycles
  rw [if_neg h]

/-- On every `int` the decrement is the 32-bit two's-complement one. -/
theorem decCycles_wrap (n : Int) (hlo : -2 ^ 31 ≤ n) (hhi : n < 2 ^ 31) :
    decCycles n = toS32 (toU32 (n - 1)) := by
  unfold decCycles toS32 toU32
  split_ifs <;> omega

/-- A burst that runs to its end leaves a non-negative budget, and has taken one
cycle per iteration off a budget other than `INT_MIN`. -/
theorem burst_next_inv (Step : DSPCore → DSPCore) (halt bp idle : Bool) :
    ∀ (n : Nat) (c : DSPCore) (cycles : Int) (c' : DSPCore) (cycles' : Int),
      burst Step halt bp idle n c cycles = Burst.next c' cycles' →
      (cycles ≠ -2 ^ 31 → cycles' = cycles - n) ∧ (0 < n → 0 ≤ cycles') := by
  intro n
  induction n with
  | zero =>
    intro c cycles c' cycles' h
    simp only [burst, Burst.next.injEq] at h
    exact ⟨fun _ => by rw [← h.2]; simp, fun h0 => absurd h0 (by decide)⟩
  | succ n ih =>
    intro c cycles c' cycles' h
    simp only [burst] at h
    split_ifs at h with h1 h2 h3 h4
    obtain ⟨e, hpos⟩ := ih _ _ _ _ h
    have e' := e (by omega)
    refine ⟨fun hne => ?_, fun _ => ?_⟩
    · rw [e', decCycles_eq cycles hne]; push_cast; omega
    · rcases Nat.eq_zero_or_pos n with h0 | h0
      · subst h0; rw [e']; push_cast at h4 ⊢; omega
      · exact hpos h0

/-- The `while` loop returns whenever its fuel exceeds a non-negative budget. -/
theorem mainLoop_isSome (Step : DSPCore → DSPCore) (bp : Bool) :
    ∀ (fuel : Nat) (c : DSPCore) (cycles : Int),
      0 ≤ cycles → cycles.toNat < fuel → ∃ r, mainLoop Step bp fuel c cycles = some r := by
  intro fuel
  induction fuel with
  | zero => intro c cycles _ h; omega
  | succ f ih =>
    intro c cycles h0 h
    simp only [mainLoop]
    cases h1 : burst Step true bp true 8 c cycles with
    | ret c1 v => exact ⟨(c1, v), rfl⟩
    | next c1 cycles1 =>
      obtain ⟨e1, p1⟩ := burst_next_inv _ _ _ _ _ _ _ _ _ h1
      have e1' := e1 (by omega)
      have q1 := p1 (by decide)
      dsimp only
      cases h2 : burst Step false bp false 200 c1 cycles1 with
      | ret c2 v => exact ⟨(c2, v), rfl⟩
      | next c2 cycles2 =>
        obtain ⟨e2, p2⟩ := burst_next_inv _ _ _ _ _ _ _ _ _ h2
        have e2' := e2 (by omega)
        have q2 := p2 (by decide)
        dsimp only
        exact ih c2 cycles2 q2 (by push_cast at e1' e2'; omega)

/-- `RunCycles` and `RunCyclesDebug` return for every `Step`, core and budget. -/
theorem runCycles_isSome (Step : DSPCore → DSPCore) (c : DSPCore) (cycles : Int) :
    (∃ r, RunCycles Step c cycles = some r) ∧ (∃ r, RunCyclesDebug Step c cycles = some r) := by
  constructor
  · unfold RunCycles
    cases h1 : burst Step true false false 8 c cycles with
    | ret c1 v => exact ⟨(c1, v), rfl⟩
    | next c1 cycles1 =>
      have q := (burst_next_inv _ _ _ _ _ _ _ _ _ h1).2 (by decide)
      exact mainLoop_isSome Step false _ c1 cycles1 q (by omega)
  · unfold RunCyclesDebug
    cases h1 : burst Step true true false 8 c cycles with
    | ret c1 v => exact ⟨(c1, v), rfl⟩
    | next c1 cycles1 =>
      have q := (burst_next_inv _ _ _ _ _ _ _ _ _ h1).2 (by decide)
      exact mainLoop_isSome Step true _ c1 cycles1 q (by omega)

/-- Bit `i` of a conditional `sr |= m`. -/
theorem testBit_ite_or {p : Prop} [Decidable p] (sr m i : Nat) :
    (if p then sr ||| m else sr).testBit i = (sr.testBit i || (decide p && m.testBit i)) := by
  by_cases h : p
  · simp [h, Nat.testBit_or]
  · simp [h]

/-- Masking with a run of `b` ones that starts at bit `a` keeps that window. -/
theorem and_shifted_mask (x a b : Nat) :
    x &&& (2 ^ a * (2 ^ b - 1)) = 2 ^ a * (x / 2 ^ a % 2 ^ b) := by
  apply Nat.eq_of_testBit_eq
  intro i
  rw [Nat.testBit_and, Nat.testBit_mul_pow_two, Nat.testBit_mul_pow_two,
    Nat.testBit_two_pow_sub_one, Nat.testBit_mod_two_pow, ← Nat.shiftRight_eq_div_pow,
    Nat.testBit_shiftRight]
  by_cases ha : i ≥ a
  · have e : a + (i - a) = i := by omega
    rw [e]
    by_cases hb : i - a < b <;> simp [ha, hb]
  · simp [ha]

/-- The `u16` pattern of `~SR_CMP_MASK`: bits 6 to 15. -/
theorem notMask16_cmp : notMask16 SR_CMP_MASK = 2 ^ 6 * (2 ^ 10 - 1) := by decide

/-- The `u16` pattern of `~SR_LOGIC_ZERO`: every bit of the low 16 but bit 6. -/
theorem notMask16_logicZero : notMask16 SR_LOGIC_ZERO = 2 ^ 7 * (2 ^ 9 - 1) + (2 ^ 6 - 1) := by
  decide

/-- Bit `i` of the status register after `sr &= ~SR_CMP_MASK`. -/
theorem testBit_and_notCmp (sr i : Nat) :
    (sr &&& notMask16 SR_CMP_MASK).testBit i = (sr.testBit i && decide (6 ≤ i ∧ i < 16)) := by
  rw [Nat.testBit_and, notMask16_cmp, Nat.testBit_mul_pow_two, Nat.testBit_two_pow_sub_one]
  by_cases h1 : 6 ≤ i <;> by_cases h2 : i < 16 <;> simp [h1, h2] <;> omega

/-- Bit `i` of the status register left by `UpdateSR64`, bit by bit. -/
theorem updateSR64_testBit (s : SDSP) (value : Int) (carry overflow : Bool) (i : Nat) :
    (UpdateSR64 s value carry overflow).r.sr.testBit i
      = ((s.r.sr.testBit i && decide (6 ≤ i ∧ i < 16))
        || (carry && decide (i = 0))
        || (overflow && (decide (i = 1) || decide (i = 7)))
        || (decide (value = 0) && decide (i = 2))
        || (decide (value < 0) && decide (i = 3))
        || (decide (value ≠ toS32 (toU64 value)) && decide (i = 4))
        || (decide (toU64 value &&& 0xc0000000 = 0 ∨ toU64 value &&& 0xc0000000 = 0xc0000000)
            && decide (i = 5))) := by
  have hC : SR_CARRY = 2 ^ 0 := rfl
  have hO : SR_OVERFLOW = 2 ^ 1 := rfl
  have hZ : SR_ARITH_ZERO = 2 ^ 2 := rfl
  have hS : SR_SIGN = 2 ^ 3 := rfl
  have h32 : SR_OVER_S32 = 2 ^ 4 := rfl
  have hT : SR_TOP2BITS = 2 ^ 5 := rfl
  have hK : SR_OVERFLOW_STICKY = 2 ^ 7 := rfl
  simp only [UpdateSR64, writeSR, testBit_ite_or, Nat.or_assoc, Nat.testBit_or,
    testBit_and_notCmp, hC, hO, hZ, hS, h32, hT, hK, Nat.testBit_two_pow]
  simp only [eq_comm (a := i)]
  cases carry <;> cases overflow <;> simp
/-- The test `value != static_cast<s32>(value)` holds exactly outside the `s32` range. -/
theorem ne_toS32_iff (value : Int) :
    value ≠ toS32 (toU64 value) ↔ (value < -2 ^ 31 ∨ 2 ^ 31 ≤ value) := by
  simp only [toS32, toU64]
  split_ifs <;> omega

/-- The test on `value & 0xc0000000` holds exactly when bits 31 and 30 agree. -/
theorem top2_iff (value : Int) :
    (toU64 value &&& 0xc0000000 = 0 ∨ toU64 value &&& 0xc0000000 = 0xc0000000)
      ↔ value / 2 ^ 31 % 2 = value / 2 ^ 30 % 2 := by
  have e : (0xc0000000 : Nat) = 2 ^ 30 * (2 ^ 2 - 1) := by norm_num
  rw [e, and_shifted_mask]
  simp only [toU64]
  omega

/-- C11: after `UpdateSR64(value, carry, overflow)` the six comparison bits of the
status register are: carry (bit 0) iff `carry`, overflow (bit 1) iff `overflow`,
arithmetic-zero (bit 2) iff `value = 0`, sign (bit 3) iff `value < 0`, over-S32
(bit 4) iff `value` is outside `[-2^31, 2^31)`, top-two-bits (bit 5) iff bits 31 and
30 of `value` are equal, whatever the status register held before. -/
theorem C11_updateSR64_flags (s : SDSP) (value : Int) (carry overflow : Bool) :
    (UpdateSR64 s value carry overflow).r.sr.testBit 0 = carry ∧
    (UpdateSR64 s value carry overflow).r.sr.testBit 1 = overflow ∧
    (UpdateSR64 s value carry overflow).r.sr.testBit 2 = decide (value = 0) ∧
    (UpdateSR64 s value carry overflow).r.sr.testBit 3 = decide (value < 0) ∧
    (UpdateSR64 s value carry overflow).r.sr.testBit 4
      = decide (value < -2 ^ 31 ∨ 2 ^ 31 ≤ value) ∧
    (UpdateSR64 s value carry overflow).r.sr.testBit 5
      = decide (value / 2 ^ 31 % 2 = value / 2 ^ 30 % 2) := by
  have h4 : decide (value ≠ toS32 (toU64 value)) = decide (value < -2 ^ 31 ∨ 2 ^ 31 ≤ value) :=
    decide_eq_decide.mpr (ne_toS32_iff value)
  have h5 : decide (toU64 value &&& 0xc0000000 = 0 ∨ toU64 value &&& 0xc0000000 = 0xc0000000)
      = decide (value / 2 ^ 31 % 2 = value / 2 ^ 30 % 2) :=
    decide_eq_decide.mpr (top2_iff value)
  simp only [updateSR64_testBit, h4, h5]
  refine ⟨?_, ?_, ?_, ?_, ?_, ?_⟩ <;> simp
/-- Bit `i` of the status register left by `UpdateSR16`, bit by bit. -/
theorem updateSR16_testBit (s : SDSP) (value : Int) (carry overflow over_s32 : Bool) (i : Nat) :
    (UpdateSR16 s value carry overflow over_s32).r.sr.testBit i
      = ((s.r.sr.testBit i && decide (6 ≤ i ∧ i < 16))
        || (carry && decide (i = 0))
        || (overflow && (decide (i = 1) || decide (i = 7)))
        || (decide (value = 0) && decide (i = 2))
        || (decide (value < 0) && decide (i = 3))
        || (over_s32 && decide (i = 4))
        || (decide (toU16 value >>> 14 = 0 ∨ toU16 value >>> 14 = 3) && decide (i = 5))) := by
  have hC : SR_CARRY = 2 ^ 0 := rfl
  have hO : SR_OVERFLOW = 2 ^ 1 := rfl
  have hZ : SR_ARITH_ZERO = 2 ^ 2 := rfl
  have hS : SR_SIGN = 2 ^ 3 := rfl
  have h32 : SR_OVER_S32 = 2 ^ 4 := rfl
  have hT : SR_TOP2BITS = 2 ^ 5 := rfl
  have hK : SR_OVERFLOW_STICKY = 2 ^ 7 := rfl
  simp only [UpdateSR16, writeSR, testBit_ite_or, Nat.or_assoc, Nat.testBit_or,
    testBit_and_notCmp, hC, hO, hZ, hS, h32, hT, hK, Nat.testBit_two_pow]
  simp only [eq_comm (a := i)]
  cases carry <;> cases overflow <;> cases over_s32 <;> simp

/-- Bit `i` of the status register after `sr &= ~SR_LOGIC_ZERO`. -/
theorem testBit_and_notLogicZero (sr i : Nat) :
    (sr &&& notMask16 SR_LOGIC_ZERO).testBit i
      = (sr.testBit i && decide (i < 16 ∧ i ≠ 6)) := by
  have hlt : 2 ^ 6 - 1 < 2 ^ 7 := by norm_num
  rw [Nat.testBit_and, notMask16_logicZero, Nat.mul_add_lt_is_or hlt, Nat.testBit_or,
    Nat.testBit_mul_pow_two, Nat.testBit_two_pow_sub_one, Nat.testBit_two_pow_sub_one]
  by_cases h1 : i < 6
  · have : ¬ i ≥ 7 := by omega
    have : i < 16 ∧ i ≠ 6 := by omega
    simp [*]
  · by_cases h2 : i ≥ 7
    · by_cases h3 : i - 7 < 9
      · have : i < 16 ∧ i ≠ 6 := by omega
        simp [*]
      · have : ¬ (i < 16 ∧ i ≠ 6) := by omega
        simp [*]
    · have : ¬ (i < 16 ∧ i ≠ 6) := by omega
      simp [*]

/-- C19: on a 16-bit status register, `UpdateSR16` and `UpdateSR64` leave every bit
other than the comparison bits 0..5 and the sticky-overflow bit 7 as it was, and the
sticky bit afterwards is set iff it was set or `overflow` holds; `UpdateSRLogicZero b`
leaves every bit other than bit 6 as it was and makes bit 6 equal to `b`. -/
theorem C19_status_updates_frame (s : SDSP) (hsr : s.r.sr < 2 ^ 16) (v16 v64 : Int)
    (carry overflow over_s32 b : Bool) :
    (∀ i, ¬ i < 6 → i ≠ 7 →
      (UpdateSR16 s v16 carry overflow over_s32).r.sr.testBit i = s.r.sr.testBit i) ∧
    (UpdateSR16 s v16 carry overflow over_s32).r.sr.testBit 7
      = (s.r.sr.testBit 7 || overflow) ∧
    (∀ i, ¬ i < 6 → i ≠ 7 →
      (UpdateSR64 s v64 carry overflow).r.sr.testBit i = s.r.sr.testBit i) ∧
    (UpdateSR64 s v64 carry overflow).r.sr.testBit 7 = (s.r.sr.testBit 7 || overflow) ∧
    (∀ i, i ≠ 6 → (UpdateSRLogicZero s b).r.sr.testBit i = s.r.sr.testBit i) ∧
    (UpdateSRLogicZero s b).r.sr.testBit 6 = b := by
  have hhigh : ∀ i, 16 ≤ i → s.r.sr.testBit i = false := fun i hi =>
    Nat.testBit_lt_two_pow (lt_of_lt_of_le hsr (Nat.pow_le_pow_right (by decide) hi))
  have hLZ : SR_LOGIC_ZERO = 2 ^ 6 := rfl
  refine ⟨?_, ?_, ?_, ?_, ?_, ?_⟩
  · intro i h6 h7
    rw [updateSR16_testBit]
    by_cases h16 : i < 16
    · have : 6 ≤ i ∧ i < 16 := by omega
      have e0 : ¬ i = 0 := by omega
      have e1 : ¬ i = 1 := by omega
      have e2 : ¬ i = 2 := by omega
      have e3 : ¬ i = 3 := by omega
      have e4 : ¬ i = 4 := by omega
      have e5 : ¬ i = 5 := by omega
      simp [*]
    · have : ¬ (6 ≤ i ∧ i < 16) := by omega
      have e0 : ¬ i = 0 := by omega
      have e1 : ¬ i = 1 := by omega
      have e2 : ¬ i = 2 := by omega
      have e3 : ¬ i = 3 := by omega
      have e4 : ¬ i = 4 := by omega
      have e5 : ¬ i = 5 := by omega
      simp [*, hhigh i (by omega)]
  · rw [updateSR16_testBit]; simp
  · intro i h6 h7
    rw [updateSR64_testBit]
    by_cases h16 : i < 16
    · have : 6 ≤ i ∧ i < 16 := by omega
      have e0 : ¬ i = 0 := by omega
      have e1 : ¬ i = 1 := by omega
      have e2 : ¬ i = 2 := by omega
      have e3 : ¬ i = 3 := by omega
      have e4 : ¬ i = 4 := by omega
      have e5 : ¬ i = 5 := by omega
      simp [*]
    · have : ¬ (6 ≤ i ∧ i < 16) := by omega
      have e0 : ¬ i = 0 := by omega
      have e1 : ¬ i = 1 := by omega
      have e2 : ¬ i = 2 := by omega
      have e3 : ¬ i = 3 := by omega
      have e4 : ¬ i = 4 := by omega
      have e5 : ¬ i = 5 := by omega
      simp [*, hhigh i (by omega)]
  · rw [updateSR64_testBit]; simp
  · intro i h6
    cases b
    · simp only [UpdateSRLogicZero, writeSR, Bool.false_eq_true, if_false,
        testBit_and_notLogicZero]
      by_cases h16 : i < 16
      · simp [h16, h6]
      · simp [h16, hhigh i (by omega)]
    · simp only [UpdateSRLogicZero, writeSR, if_true, Nat.testBit_or, hLZ, Nat.testBit_two_pow]
      have : ¬ 6 = i := fun h => h6 h.symm
      simp [this]
  · cases b
    · simp only [UpdateSRLogicZero, writeSR, Bool.false_eq_true, if_false,
        testBit_and_notLogicZero]
      simp
    · simp only [UpdateSRLogicZero, writeSR, if_true, Nat.testBit_or, hLZ, Nat.testBit_two_pow]
      simp

/-- C19, a concrete instance: the status register `0x6040` (40-bit mode, multiply
modify and logic-zero set). -/
theorem C19_status_updates_frame_witness :
    (∀ i, ¬ i < 6 → i ≠ 7 →
      (UpdateSR16 (stateWithSR 0x6040) (-1) true true false).r.sr.testBit i
        = (stateWithSR 0x6040).r.sr.testBit i) ∧
    (UpdateSR16 (stateWithSR 0x6040) (-1) true true false).r.sr.testBit 7
      = ((stateWithSR 0x6040).r.sr.testBit 7 || true) ∧
    (∀ i, ¬ i < 6 → i ≠ 7 →
      (UpdateSR64 (stateWithSR 0x6040) 5 true true).r.sr.testBit i
        = (stateWithSR 0x6040).r.sr.testBit i) ∧
    (UpdateSR64 (stateWithSR 0x6040) 5 true true).r.sr.testBit 7
      = ((stateWithSR 0x6040).r.sr.testBit 7 || true) ∧
    (∀ i, i ≠ 6 → (UpdateSRLogicZero (stateWithSR 0x6040) false).r.sr.testBit i
      = (stateWithSR 0x6040).r.sr.testBit i) ∧
    (UpdateSRLogicZero (stateWithSR 0x6040) false).r.sr.testBit 6 = false :=
  C19_status_updates_frame (stateWithSR 0x6040) (by decide) (-1) 5 true true false false

/-! ## Accumulator extension -/

/-- The test `(val & 0x8000) != 0` reads bit 15. -/
theorem and_bit15_ne_zero (n : Nat) : (n &&& 0x8000 ≠ 0) ↔ n / 2 ^ 15 % 2 = 1 := by
  have h := Nat.and_two_pow n 15
  have e : (0x8000 : Nat) = 2 ^ 15 := by norm_num
  rw [e, h, Nat.testBit_to_div_mod]
  generalize n / 2 ^ 15 % 2 = b
  by_cases hb : b = 1 <;> simp [hb]

/-- C13: with 40-bit mode set and `reg` one of `ACM0`, `ACM1` (accumulator `i`),
`ConditionalExtendAccum` leaves the mid window of accumulator `i` unchanged, zeroes
its low window, sets its high window to all ones when bit 15 of mid is set and to
zero otherwise, so that `GetLongAcc i` is `signed16(mid) * 2^16`, and leaves the
other accumulator as it was; for any other `reg`, or with 40-bit mode clear, the
state is unchanged. -/
theorem C13_conditionalExtendAccum (s : SDSP) (reg : Int) :
    (∀ i : Nat, i < 2 → reg = ((DSP_REG_ACM0 + i : Nat) : Int) →
      IsSRFlagSet s SR_40_MODE_BIT = true →
      acM (ConditionalExtendAccum s reg) i = acM s i ∧
      acL (ConditionalExtendAccum s reg) i = 0 ∧
      acH (ConditionalExtendAccum s reg) i = (if (acM s i).testBit 15 then 0xFFFF else 0) ∧
      GetLongAcc (ConditionalExtendAccum s reg) i = toS16 (acM s i) * 2 ^ 16 ∧
      (∀ j, j ≠ i → (ConditionalExtendAccum s reg).r.ac j = s.r.ac j)) ∧
    ((reg ≠ (DSP_REG_ACM0 : Int) ∧ reg ≠ ((DSP_REG_ACM0 + 1 : Nat) : Int)) ∨
      IsSRFlagSet s SR_40_MODE_BIT = false → ConditionalExtendAccum s reg = s) := by
  constructor
  · intro i hi hreg h40
    have hcond : ¬ (reg ≠ (DSP_REG_ACM0 : Int) ∧ reg ≠ ((DSP_REG_ACM0 + 1 : Nat) : Int)) := by
      simp only [DSP_REG_ACM0] at hreg ⊢
      push_cast at hreg ⊢
      omega
    have hidx : (reg - (DSP_REG_ACM0 : Int)).toNat = i := by
      simp only [DSP_REG_ACM0] at hreg ⊢
      push_cast at hreg ⊢
      omega
    have hac : (ConditionalExtendAccum s reg).r.ac
        = Function.update s.r.ac i
            (setField (setField (s.r.ac i) 32
              (if (getField (s.r.ac i) 16 &&& 0x8000) ≠ 0 then 0xFFFF else 0x0000)) 0 0) := by
      unfold ConditionalExtendAccum
      rw [if_neg hcond, if_neg (by simp [h40])]
      simp only [hidx]
    have hbit := and_bit15_ne_zero (getField (s.r.ac i) 16)
    have htb : (getField (s.r.ac i) 16).testBit 15
        = decide (getField (s.r.ac i) 16 / 2 ^ 15 % 2 = 1) := Nat.testBit_to_div_mod
    simp only [acM, acL, acH, GetLongAcc, hac, Function.update_same, htb, decide_eq_true_eq]
    generalize s.r.ac i = v at hbit ⊢
    have hH : (if (getField v 16 &&& 0x8000) ≠ 0 then 0xFFFF else 0x0000)
        = if getField v 16 / 2 ^ 15 % 2 = 1 then 0xFFFF else 0 := by
      by_cases hb : getField v 16 / 2 ^ 15 % 2 = 1
      · rw [if_pos (hbit.mpr hb), if_pos hb]
      · rw [if_neg (fun h => hb (hbit.mp h)), if_neg hb]
    rw [hH]
    clear hH hbit
    simp only [getField, setField, toS64, toS16, Nat.shiftLeft_eq]
    norm_num
    refine ⟨?_, ?_, ?_, ?_, ?_⟩
    · split_ifs <;> omega
    · split_ifs <;> omega
    · split_ifs <;> omega
    · split_ifs <;> omega
    · intro j hj
      rw [Function.update_noteq hj]
  · intro h
    unfold ConditionalExtendAccum
    rcases h with h | h
    · rw [if_pos h]
    · by_cases hc : reg ≠ (DSP_REG_ACM0 : Int) ∧ reg ≠ ((DSP_REG_ACM0 + 1 : Nat) : Int)
      · rw [if_pos hc]
      · rw [if_neg hc, if_pos (by simp [h])]

/-- Instance of C13: 40-bit mode set, accumulator 0 holding mid `0x8001` and low
`0x1234`, `reg = ACM0`. -/
theorem C13_conditionalExtendAccum_witness :
    acM (ConditionalExtendAccum (SetLongAcc (stateWithSR 0x4000) 0 0x80011234) 0x1e) 0
      = acM (SetLongAcc (stateWithSR 0x4000) 0 0x80011234) 0 ∧
    acL (ConditionalExtendAccum (SetLongAcc (stateWithSR 0x4000) 0 0x80011234) 0x1e) 0 = 0 ∧
    acH (ConditionalExtendAccum (SetLongAcc (stateWithSR 0x4000) 0 0x80011234) 0x1e) 0
      = (if (acM (SetLongAcc (stateWithSR 0x4000) 0 0x80011234) 0).testBit 15
          then 0xFFFF else 0) ∧
    GetLongAcc (ConditionalExtendAccum (SetLongAcc (stateWithSR 0x4000) 0 0x80011234) 0x1e) 0
      = toS16 (acM (SetLongAcc (stateWithSR 0x4000) 0 0x80011234) 0) * 2 ^ 16 ∧
    (∀ j, j ≠ 0 →
      (ConditionalExtendAccum (SetLongAcc (stateWithSR 0x4000) 0 0x80011234) 0x1e).r.ac j
        = (SetLongAcc (stateWithSR 0x4000) 0 0x80011234).r.ac j) :=
  (C13_conditionalExtendAccum (SetLongAcc (stateWithSR 0x4000) 0 0x80011234) 0x1e).1 0
    (by decide) (by decide) (by decide)

/-! ## Register write then read -/

/-- Reading a sub-field just written gives the 16 bits written. -/
theorem getField_setField (val v off : Nat)
    (hoff : off = 0 ∨ off = 16 ∨ off = 32 ∨ off = 48) :
    getField (setField val off v) off = v % 2 ^ 16 := by
  unfold getField setField
  rcases hoff with h | h | h | h <;> subst h <;> norm_num <;> omega

/-- The masked register index only depends on the index modulo 32. -/
theorem regIndex_mod (reg_ : Int) :
    toU32 (reg_ % 32) &&& 0x1f = toU32 reg_ &&& 0x1f := by
  have h1 := Nat.and_pow_two_sub_one_eq_mod (toU32 reg_) 5
  have h2 := Nat.and_pow_two_sub_one_eq_mod (toU32 (reg_ % 32)) 5
  norm_num at h1 h2
  rw [h1, h2]
  simp only [toU32]
  omega

/-- The `u16` left in an accumulator high window by a write of `v`: the low byte of
`v`, sign-extended. -/
theorem toU16_toS8 (v : Nat) :
    toU16 (toS8 (v % 2 ^ 8)) = if v % 256 < 128 then v % 256 else v % 256 + 0xFF00 := by
  simp only [toU16, toS8]
  split_ifs <;> omega

/-- C14: for a register index other than the stack registers and a 16-bit `v`,
`OpReadRegister` after `OpWriteRegister(reg, v)` returns `v` and leaves the state
as written; for `ACH0`/`ACH1` it returns the low 8 bits of `v` sign-extended to 16
bits. Both accessors only depend on the index modulo 32. -/
theorem C14_write_then_read (K : StackOps) (s : SDSP) (reg_ : Int) (v : Nat)
    (hv : v < 2 ^ 16) (hns : ¬ isStackIndex reg_) :
    OpReadRegister K (OpWriteRegister K s reg_ v) reg_
      = some (if toU32 reg_ &&& 0x1f = DSP_REG_ACH0 ∨ toU32 reg_ &&& 0x1f = DSP_REG_ACH0 + 1
              then (if v % 256 < 128 then v % 256 else v % 256 + 0xFF00) else v,
              OpWriteRegister K s reg_ v) ∧
    OpReadRegister K s reg_ = OpReadRegister K s (reg_ % 32) ∧
    OpWriteRegister K s reg_ v = OpWriteRegister K s (reg_ % 32) v := by
  refine ⟨?_, ?_, ?_⟩
  · have hlt := regIndex_lt reg_
    have h8 := toU16_toS8 v
    have hmod : v < 65536 := hv
    have h8lt : toU16 (toS8 (v % 256)) < 65536 := by
      have e : (256 : Nat) = 2 ^ 8 := by norm_num
      rw [e, h8]; split_ifs <;> omega
    unfold isStackIndex at hns
    rw [← h8]
    unfold OpReadRegister OpWriteRegister
    generalize toU32 reg_ &&& 0x1f = reg at hlt hns
    interval_cases reg <;>
      simp [DSP_REG_ST0, DSP_REG_AR0, DSP_REG_IX0, DSP_REG_WR0, DSP_REG_ACH0, DSP_REG_CR,
        DSP_REG_SR, DSP_REG_PRODL, DSP_REG_PRODM, DSP_REG_PRODH, DSP_REG_PRODM2, DSP_REG_AXL0,
        DSP_REG_AXH0, DSP_REG_ACL0, DSP_REG_ACM0, getField_setField, hmod, h8lt] at hns ⊢
  · unfold OpReadRegister
    rw [regIndex_mod]
  · unfold OpWriteRegister
    rw [regIndex_mod]

/-- C14, a concrete instance: `0x1280` written to `ACH1`, read back as `0xFF80`. -/
theorem C14_write_then_read_witness :
    OpReadRegister noStacks (OpWriteRegister noStacks zeroState 0x11 0x1280) 0x11
      = some (if toU32 0x11 &&& 0x1f = DSP_REG_ACH0 ∨ toU32 0x11 &&& 0x1f = DSP_REG_ACH0 + 1
              then (if 0x1280 % 256 < 128 then 0x1280 % 256 else 0x1280 % 256 + 0xFF00)
              else 0x1280,
              OpWriteRegister noStacks zeroState 0x11 0x1280) ∧
    OpReadRegister noStacks zeroState 0x11 = OpReadRegister noStacks zeroState (0x11 % 32) ∧
    OpWriteRegister noStacks zeroState 0x11 0x1280
      = OpWriteRegister noStacks zeroState (0x11 % 32) 0x1280 :=
  C14_write_then_read noStacks zeroState 0x11 0x1280 (by decide) (by unfold isStackIndex; decide)

/-- C17: for every integer passed as register index, the value `index & 0x1f` that
`OpReadRegister` switches on is below 32 and has a `case`, so the `default:` branch
with the failing assertion (`none`) is never taken. It is one of the `case` labels
of `OpWriteRegister` as well, and under each label `OpWriteRegister` performs the
statement of that `case`: the call of `StoreStack` for the stack registers, the
assignment to the register or sub-field (the sign-extended low byte for
`ACH0`/`ACH1`) for the others. -/
theorem C17_register_index_always_handled (K : StackOps) (s : SDSP) (reg_ : Int) (val : Nat) :
    toU32 reg_ &&& 0x1f < 32 ∧
    OpReadRegister K s reg_ ≠ none ∧
    (∃ v s', OpReadRegister K s reg_ = some (v, s')) ∧
    (toU32 reg_ &&& 0x1f = DSP_REG_ACH0 ∨ toU32 reg_ &&& 0x1f = DSP_REG_ACH0 + 1 ∨
     toU32 reg_ &&& 0x1f = DSP_REG_ST0 ∨ toU32 reg_ &&& 0x1f = DSP_REG_ST0 + 1 ∨
     toU32 reg_ &&& 0x1f = DSP_REG_ST0 + 2 ∨ toU32 reg_ &&& 0x1f = DSP_REG_ST0 + 3 ∨
     toU32 reg_ &&& 0x1f = DSP_REG_AR0 ∨ toU32 reg_ &&& 0x1f = DSP_REG_AR0 + 1 ∨
     toU32 reg_ &&& 0x1f = DSP_REG_AR0 + 2 ∨ toU32 reg_ &&& 0x1f = DSP_REG_AR0 + 3 ∨
     toU32 reg_ &&& 0x1f = DSP_REG_IX0 ∨ toU32 reg_ &&& 0x1f = DSP_REG_IX0 + 1 ∨
     toU32 reg_ &&& 0x1f = DSP_REG_IX0 + 2 ∨ toU32 reg_ &&& 0x1f = DSP_REG_IX0 + 3 ∨
     toU32 reg_ &&& 0x1f = DSP_REG_WR0 ∨ toU32 reg_ &&& 0x1f = DSP_REG_WR0 + 1 ∨
     toU32 reg_ &&& 0x1f = DSP_REG_WR0 + 2 ∨ toU32 reg_ &&& 0x1f = DSP_REG_WR0 + 3 ∨
     toU32 reg_ &&& 0x1f = DSP_REG_CR ∨ toU32 reg_ &&& 0x1f = DSP_REG_SR ∨
     toU32 reg_ &&& 0x1f = DSP_REG_PRODL ∨ toU32 reg_ &&& 0x1f = DSP_REG_PRODM ∨
     toU32 reg_ &&& 0x1f = DSP_REG_PRODH ∨ toU32 reg_ &&& 0x1f = DSP_REG_PRODM2 ∨
     toU32 reg_ &&& 0x1f = DSP_REG_AXL0 ∨ toU32 reg_ &&& 0x1f = DSP_REG_AXL0 + 1 ∨
     toU32 reg_ &&& 0x1f = DSP_REG_AXH0 ∨ toU32 reg_ &&& 0x1f = DSP_REG_AXH0 + 1 ∨
     toU32 reg_ &&& 0x1f = DSP_REG_ACL0 ∨ toU32 reg_ &&& 0x1f = DSP_REG_ACL0 + 1 ∨
     toU32 reg_ &&& 0x1f = DSP_REG_ACM0 ∨ toU32 reg_ &&& 0x1f = DSP_REG_ACM0 + 1) ∧
    ((toU32 reg_ &&& 0x1f = DSP_REG_ACH0 ∨ toU32 reg_ &&& 0x1f = DSP_REG_ACH0 + 1) →
      OpWriteRegister K s reg_ val
        = { s with r := { s.r with
            ac := Function.update s.r.ac ((toU32 reg_ &&& 0x1f) - DSP_REG_ACH0)
              (setField (s.r.ac ((toU32 reg_ &&& 0x1f) - DSP_REG_ACH0)) 32
                (toU16 (toS8 (val % 2 ^ 8)))) } }) ∧
    ((toU32 reg_ &&& 0x1f = DSP_REG_ST0 ∨ toU32 reg_ &&& 0x1f = DSP_REG_ST0 + 1 ∨
     toU32 reg_ &&& 0x1f = DSP_REG_ST0 + 2 ∨ toU32 reg_ &&& 0x1f = DSP_REG_ST0 + 3) →
      OpWriteRegister K s reg_ val
        = K.StoreStack s ((toU32 reg_ &&& 0x1f) - DSP_REG_ST0) val) ∧
    ((toU32 reg_ &&& 0x1f = DSP_REG_AR0 ∨ toU32 reg_ &&& 0x1f = DSP_REG_AR0 + 1 ∨
     toU32 reg_ &&& 0x1f = DSP_REG_AR0 + 2 ∨ toU32 reg_ &&& 0x1f = DSP_REG_AR0 + 3) →
      OpWriteRegister K s reg_ val
        = { s with r := { s.r with
            ar := Function.update s.r.ar ((toU32 reg_ &&& 0x1f) - DSP_REG_AR0) val } }) ∧
    ((toU32 reg_ &&& 0x1f = DSP_REG_IX0 ∨ toU32 reg_ &&& 0x1f = DSP_REG_IX0 + 1 ∨
     toU32 reg_ &&& 0x1f = DSP_REG_IX0 + 2 ∨ toU32 reg_ &&& 0x1f = DSP_REG_IX0 + 3) →
      OpWriteRegister K s reg_ val
        = { s with r := { s.r with
            ix := Function.update s.r.ix ((toU32 reg_ &&& 0x1f) - DSP_REG_IX0) val } }) ∧
    ((toU32 reg_ &&& 0x1f = DSP_REG_WR0 ∨ toU32 reg_ &&& 0x1f = DSP_REG_WR0 + 1 ∨
     toU32 reg_ &&& 0x1f = DSP_REG_WR0 + 2 ∨ toU32 reg_ &&& 0x1f = DSP_REG_WR0 + 3) →
      OpWriteRegister K s reg_ val
        = { s with r := { s.r with
            wr := Function.update s.r.wr ((toU32 reg_ &&& 0x1f) - DSP_REG_WR0) val } }) ∧
    (toU32 reg_ &&& 0x1f = DSP_REG_CR →
      OpWriteRegister K s reg_ val
        = { s with r := { s.r with cr := val } }) ∧
    (toU32 reg_ &&& 0x1f = DSP_REG_SR →
      OpWriteRegister K s reg_ val
        = { s with r := { s.r with sr := val } }) ∧
    (toU32 reg_ &&& 0x1f = DSP_REG_PRODL →
      OpWriteRegister K s reg_ val
        = { s with r := { s.r with prod := setField s.r.prod 0 val } }) ∧
    (toU32 reg_ &&& 0x1f = DSP_REG_PRODM →
      OpWriteRegister K s reg_ val
        = { s with r := { s.r with prod := setField s.r.prod 16 val } }) ∧
    (toU32 reg_ &&& 0x1f = DSP_REG_PRODH →
      OpWriteRegister K s reg_ val
        = { s with r := { s.r with prod := setField s.r.prod 32 val } }) ∧
    (toU32 reg_ &&& 0x1f = DSP_REG_PRODM2 →
      OpWriteRegister K s reg_ val
        = { s with r := { s.r with prod := setField s.r.prod 48 val } }) ∧
    ((toU32 reg_ &&& 0x1f = DSP_REG_AXL0 ∨ toU32 reg_ &&& 0x1f = DSP_REG_AXL0 + 1) →
      OpWriteRegister K s reg_ val
        = { s with r := { s.r with
            ax := Function.update s.r.ax ((toU32 reg_ &&& 0x1f) - DSP_REG_AXL0)
              (setField (s.r.ax ((toU32 reg_ &&& 0x1f) - DSP_REG_AXL0)) 0 val) } }) ∧
    ((toU32 reg_ &&& 0x1f = DSP_REG_AXH0 ∨ toU32 reg_ &&& 0x1f = DSP_REG_AXH0 + 1) →
      OpWriteRegister K s reg_ val
        = { s with r := { s.r with
            ax := Function.update s.r.ax ((toU32 reg_ &&& 0x1f) - DSP_REG_AXH0)
              (setField (s.r.ax ((toU32 reg_ &&& 0x1f) - DSP_REG_AXH0)) 16 val) } }) ∧
    ((toU32 reg_ &&& 0x1f = DSP_REG_ACL0 ∨ toU32 reg_ &&& 0x1f = DSP_REG_ACL0 + 1) →
      OpWriteRegister K s reg_ val
        = { s with r := { s.r with
            ac := Function.update s.r.ac ((toU32 reg_ &&& 0x1f) - DSP_REG_ACL0)
              (setField (s.r.ac ((toU32 reg_ &&& 0x1f) - DSP_REG_ACL0)) 0 val) } }) ∧
    ((toU32 reg_ &&& 0x1f = DSP_REG_ACM0 ∨ toU32 reg_ &&& 0x1f = DSP_REG_ACM0 + 1) →
      OpWriteRegister K s reg_ val
        = { s with r := { s.r with
            ac := Function.update s.r.ac ((toU32 reg_ &&& 0x1f) - DSP_REG_ACM0)
              (setField (s.r.ac ((toU32 reg_ &&& 0x1f) - DSP_REG_ACM0)) 16 val) } }) := by
  have hlt := regIndex_lt reg_
  obtain ⟨v, s', h⟩ := opReadRegister_isSome K s reg_
  refine ⟨hlt, by rw [h]; exact Option.some_ne_none _, ⟨v, s', h⟩, ?_, ?_⟩
  · generalize toU32 reg_ &&& 0x1f = reg at hlt
    simp only [DSP_REG_ST0, DSP_REG_AR0, DSP_REG_IX0, DSP_REG_WR0, DSP_REG_ACH0, DSP_REG_CR,
      DSP_REG_SR, DSP_REG_PRODL, DSP_REG_PRODM, DSP_REG_PRODH, DSP_REG_PRODM2, DSP_REG_AXL0,
      DSP_REG_AXH0, DSP_REG_ACL0, DSP_REG_ACM0]
    omega
  · unfold OpWriteRegister
    generalize toU32 reg_ &&& 0x1f = reg
    refine ⟨?_, ?_, ?_, ?_, ?_, ?_, ?_, ?_, ?_, ?_, ?_, ?_, ?_, ?_, ?_⟩ <;> intro hcase <;>
      simp only [DSP_REG_ST0, DSP_REG_AR0, DSP_REG_IX0, DSP_REG_WR0, DSP_REG_ACH0, DSP_REG_CR,
        DSP_REG_SR, DSP_REG_PRODL, DSP_REG_PRODM, DSP_REG_PRODH, DSP_REG_PRODM2, DSP_REG_AXL0,
        DSP_REG_AXH0, DSP_REG_ACL0, DSP_REG_ACM0] at hcase ⊢ <;>
      rcases hcase with rfl | rfl | rfl | rfl <;> simp

/-! ## Range of the product -/

/-- C18 (as amended): for every product-register state, `GetLongProduct` lies in
`[-2^39, 2^39 + 2^32)`, and it fits in 40-bit signed two's complement whenever the
sum of the two middle fields stays below `2^16` (as it does when `m2 = 0`). -/
theorem C18_getLongProduct_range (s : SDSP) :
    (-2 ^ 39 ≤ GetLongProduct s ∧ GetLongProduct s < 2 ^ 39 + 2 ^ 32) ∧
    (prodM s + prodM2 s < 2 ^ 16 →
      -2 ^ 39 ≤ GetLongProduct s ∧ GetLongProduct s < 2 ^ 39) := by
  rw [getLongProduct_eq]
  have hl : prodL s < 2 ^ 16 := getField_lt _ _
  have hm : prodM s < 2 ^ 16 := getField_lt _ _
  have hm2 : prodM2 s < 2 ^ 16 := getField_lt _ _
  have hh : -2 ^ 7 ≤ toS8 (prodH s % 2 ^ 8) ∧ toS8 (prodH s % 2 ^ 8) < 2 ^ 7 := by
    unfold toS8; split_ifs <;> omega
  constructor
  · omega
  · intro h; omega

/-- C18 (as stated, refuted): with `h = 0x007F`, `m = m2 = 0xFFFF`, `l = 0` the
product read is `2^39 + 2^32 - 2^17`, outside the signed 40-bit range. -/
theorem C18_counterexample_out_of_range :
    prodH (prodState 0xFFFF007FFFFF0000) = 0x007F ∧
    prodM (prodState 0xFFFF007FFFFF0000) = 0xFFFF ∧
    prodM2 (prodState 0xFFFF007FFFFF0000) = 0xFFFF ∧
    prodL (prodState 0xFFFF007FFFFF0000) = 0 ∧
    GetLongProduct (prodState 0xFFFF007FFFFF0000) = 2 ^ 39 + 2 ^ 32 - 2 ^ 17 ∧
    ¬ (GetLongProduct (prodState 0xFFFF007FFFFF0000) < 2 ^ 39) := by
  have h : GetLongProduct (prodState 0xFFFF007FFFFF0000) = 2 ^ 39 + 2 ^ 32 - 2 ^ 17 := by
    rw [getLongProduct_eq]; decide
  refine ⟨by decide, by decide, by decide, by decide, h, ?_⟩
  rw [h]; decide

/-- Instance of the amended C18 after a product with `m2 = 0`: `h = 0x007F`,
`m = 0xFFFF`, `l = 0xFFFF`, the largest product read, is `2^39 - 1`. -/
theorem C18_getLongProduct_range_witness :
    prodM (prodState 0x0000007FFFFFFFFF) + prodM2 (prodState 0x0000007FFFFFFFFF) < 2 ^ 16 ∧
    -2 ^ 39 ≤ GetLongProduct (prodState 0x0000007FFFFFFFFF) ∧
    GetLongProduct (prodState 0x0000007FFFFFFFFF) < 2 ^ 39 :=
  ⟨by decide, (C18_getLongProduct_range (prodState 0x0000007FFFFFFFFF)).2 (by decide)⟩

/-! ## Breakpoints in the debug run loop -/

/-- The carry into bit `n` of `a + b + cin`: bit `n` of `(a + b + cin) ^ a ^ b` is set
exactly when the low `n` bits of the operands and the carry-in add up to `2 ^ n` or
more. -/
theorem carry_testBit (a b cin n : Nat) (hc : cin ≤ 1) :
    ((a + b + cin) ^^^ a ^^^ b).testBit n = decide (2 ^ n ≤ a % 2 ^ n + b % 2 ^ n + cin) := by
  have hW : 0 < 2 ^ n := Nat.pos_pow_of_pos n (by decide)
  have hra : a % 2 ^ n < 2 ^ n := Nat.mod_lt _ hW
  have hrb : b % 2 ^ n < 2 ^ n := Nat.mod_lt _ hW
  have hsum : a + b + cin = 2 ^ n * (a / 2 ^ n + b / 2 ^ n) + (a % 2 ^ n + b % 2 ^ n + cin) := by
    have h1 := Nat.div_add_mod a (2 ^ n)
    have h2 := Nat.div_add_mod b (2 ^ n)
    rw [Nat.mul_add]
    omega
  have hdiv : (a + b + cin) / 2 ^ n
      = a / 2 ^ n + b / 2 ^ n + (if 2 ^ n ≤ a % 2 ^ n + b % 2 ^ n + cin then 1 else 0) := by
    rw [hsum, Nat.mul_add_div hW]
    congr 1
    by_cases h : 2 ^ n ≤ a % 2 ^ n + b % 2 ^ n + cin
    · rw [if_pos h]
      exact Nat.div_eq_of_lt_le (by omega) (by omega)
    · rw [if_neg h]
      exact Nat.div_eq_of_lt (by omega)
  rw [Nat.testBit_xor, Nat.testBit_xor, Nat.testBit_to_div_mod, Nat.testBit_to_div_mod,
    Nat.testBit_to_div_mod, hdiv]
  generalize a / 2 ^ n = qa
  generalize b / 2 ^ n = qb
  by_cases hD : 2 ^ n ≤ a % 2 ^ n + b % 2 ^ n + cin
  · rw [if_pos hD]
    by_cases hA : (qa + qb + 1) % 2 = 1 <;> by_cases hB : qa % 2 = 1 <;>
      by_cases hC : qb % 2 = 1 <;>
      simp only [hA, hB, hC, hD, decide_True, decide_False, Bool.xor_true, Bool.xor_false,
        Bool.not_true, Bool.not_false] <;>
      first
      | rfl
      | (exfalso; omega)
  · rw [if_neg hD]
    by_cases hA : (qa + qb + 0) % 2 = 1 <;> by_cases hB : qa % 2 = 1 <;>
      by_cases hC : qb % 2 = 1 <;>
      simp only [hA, hB, hC, hD, decide_True, decide_False, Bool.xor_true, Bool.xor_false,
        Bool.not_true, Bool.not_false] <;>
      first
      | rfl
      | (exfalso; omega)

/-- The boundary test of the address arithmetic for a mask `2 ^ n - 1`, `1 ≤ n`: the
masked word exceeds the wrap mask exactly when its bit `n` is set. -/
theorem masked_gt_iff (X n : Nat) (hn1 : 1 ≤ n) :
    (X &&& ((2 ^ n - 1) * 2 ^ 1)) > 2 ^ n - 1 ↔ X.testBit n = true := by
  have hW2 : 2 ^ 1 ≤ 2 ^ n := Nat.pow_le_pow_right (by decide) hn1
  have hM : ((2 ^ n - 1) * 2 ^ 1).testBit n = true := by
    rw [Nat.mul_comm, Nat.testBit_mul_pow_two, Nat.testBit_two_pow_sub_one]
    simp; omega
  have hbit : (X &&& ((2 ^ n - 1) * 2 ^ 1)).testBit n = X.testBit n := by
    rw [Nat.testBit_and, hM, Bool.and_true]
  have hle : X &&& ((2 ^ n - 1) * 2 ^ 1) ≤ (2 ^ n - 1) * 2 ^ 1 := Nat.and_le_right
  rw [← hbit, Nat.testBit_to_div_mod, decide_eq_true_eq]
  generalize X &&& ((2 ^ n - 1) * 2 ^ 1) = y at hle ⊢
  rw [div_mod_two_eq_one_iff y (2 ^ n) (by omega)]
  omega

/-- Adding `2 ^ n` flips bit `n`, also after the reduction to 32 bits. -/
theorem add_two_pow_flips (x n : Nat) (hn : n < 32) :
    (((x + 2 ^ n) % 2 ^ 32) ^^^ x).testBit n = true := by
  have hW : 0 < 2 ^ n := Nat.pos_pow_of_pos n (by decide)
  rw [Nat.testBit_xor, Nat.testBit_mod_two_pow, Nat.testBit_to_div_mod, Nat.testBit_to_div_mod,
    Nat.add_div_right x hW]
  generalize x / 2 ^ n = q
  rcases Nat.mod_two_eq_zero_or_one q with h | h
  · have : (q + 1) % 2 = 1 := by omega
    simp [hn, this, h]
  · have : (q + 1) % 2 = 0 := by omega
    simp [hn, this, h]

/-- The residue modulo a block size `W` (a divisor of `2 ^ 32`) of the `u32` bit
pattern of a signed index in `[-W, W)`. -/
theorem toU32_mod_block (ix : Int) (W K : Nat) (hWK : W * K = 2 ^ 32) (hW16 : W ≤ 2 ^ 16)
    (hlo : -(W : Int) ≤ ix) (hhi : ix < (W : Int)) :
    ((toU32 ix % W : Nat) : Int) = if 0 ≤ ix then ix else ix + (W : Int) := by
  have hWpos : 0 < W := by
    rcases Nat.eq_zero_or_pos W with h | h
    · subst h; simp at hWK
    · exact h
  by_cases h0 : 0 ≤ ix
  · rw [if_pos h0]
    have e : toU32 ix = ix.toNat := by simp only [toU32]; omega
    rw [e, Nat.mod_eq_of_lt (by omega)]
    omega
  · rw [if_neg h0]
    have e2 : W * (K - 1) = 2 ^ 32 - W := by
      rw [Nat.mul_sub, hWK, Nat.mul_one]
    have e : toU32 ix = W * (K - 1) + (ix + (W : Int)).toNat := by
      have e1 : toU32 ix = (ix + 2 ^ 32).toNat := by simp only [toU32]; omega
      rw [e1, e2]
      omega
    rw [e, Nat.mul_add_mod, Nat.mod_eq_of_lt (by omega)]
    omega

/-- The block size `2 ^ n`, `n ≤ 16`, divides `2 ^ 32`. -/
theorem block_dvd (n : Nat) (hn : n ≤ 16) : 2 ^ n * 2 ^ (32 - n) = 2 ^ 32 := by
  rw [← Nat.pow_add]; congr 1; omega
/-- The residue of an integer within one block of its range. -/
theorem emod_block (x W : Int) (h1 : -W ≤ x) (h2 : x < 2 * W) :
    x % W = if x < 0 then x + W else if x < W then x else x - W := by
  split_ifs with ha hb
  · have e : x = (x + W) + W * (-1) := by ring
    rw [e, Int.add_mul_emod_self_left, Int.emod_eq_of_lt (by omega) (by omega)]
    ring
  · exact Int.emod_eq_of_lt (by omega) (by omega)
  · have e : x = (x - W) + W * 1 := by ring
    rw [e, Int.add_mul_emod_self_left, Int.emod_eq_of_lt (by omega) (by omega)]
    ring

/-- The two boundary tests of the indexed address arithmetic, for a mask `2 ^ n - 1`
with `1 ≤ n ≤ 16`, in terms of the carry into bit `n` of `ar + b + cin`, `nar` being
that sum reduced to 32 bits: the overflow test holds exactly when the carry occurs,
the underflow test exactly when it does not. -/
theorem boundary_tests (ar b cin n : Nat) (hc : cin ≤ 1) (hn1 : 1 ≤ n) (hn : n ≤ 16) :
    ((((ar + b + cin) % 2 ^ 32) ^^^ ar ^^^ b) &&& ((2 ^ n - 1) * 2 ^ 1) % 2 ^ 32 > 2 ^ n - 1
      ↔ 2 ^ n ≤ ar % 2 ^ n + b % 2 ^ n + cin) ∧
    (((((ar + b + cin) % 2 ^ 32 + (2 ^ n - 1) + 1) % 2 ^ 32) ^^^ ((ar + b + cin) % 2 ^ 32))
        &&& ((((ar + b + cin) % 2 ^ 32) ^^^ ar ^^^ b) &&& ((2 ^ n - 1) * 2 ^ 1) % 2 ^ 32)
          ≤ 2 ^ n - 1
      ↔ ¬ 2 ^ n ≤ ar % 2 ^ n + b % 2 ^ n + cin) := by
  have hW16 : 2 ^ n ≤ 2 ^ 16 := Nat.pow_le_pow_right (by decide) hn
  have hWpos : 0 < 2 ^ n := Nat.pos_pow_of_pos n (by decide)
  have hM32 : (2 ^ n - 1) * 2 ^ 1 % 2 ^ 32 = (2 ^ n - 1) * 2 ^ 1 :=
    Nat.mod_eq_of_lt (by omega)
  have hn32 : n < 32 := by omega
  have hX : (((ar + b + cin) % 2 ^ 32) ^^^ ar ^^^ b).testBit n
      = decide (2 ^ n ≤ ar % 2 ^ n + b % 2 ^ n + cin) := by
    rw [← carry_testBit ar b cin n hc, Nat.testBit_xor, Nat.testBit_xor, Nat.testBit_xor,
      Nat.testBit_xor, Nat.testBit_mod_two_pow]
    simp [hn32]
  rw [hM32]
  constructor
  · rw [masked_gt_iff _ n hn1, hX, decide_eq_true_eq]
  · have e : (ar + b + cin) % 2 ^ 32 + (2 ^ n - 1) + 1 = (ar + b + cin) % 2 ^ 32 + 2 ^ n := by
      omega
    rw [e, ← Nat.and_assoc, ← Nat.not_lt]
    have h := masked_gt_iff
      (((((ar + b + cin) % 2 ^ 32 + 2 ^ n) % 2 ^ 32) ^^^ ((ar + b + cin) % 2 ^ 32))
        &&& (((ar + b + cin) % 2 ^ 32) ^^^ ar ^^^ b)) n hn1
    rw [Nat.testBit_and, add_two_pow_flips _ n hn32, Bool.true_and, hX, decide_eq_true_eq] at h
    exact not_congr h
/-- The complement of a two's-complement integer. -/
theorem int_not_eq (n : Int) : ~~~n = -n - 1 := by
  cases n with
  | ofNat k =>
    show Int.negSucc k = -(k : Int) - 1
    rw [Int.negSucc_eq]; ring
  | negSucc k =>
    show (k : Int) = -(Int.negSucc k) - 1
    rw [Int.negSucc_eq]; ring

/-- Arithmetic reading of `IncreaseAddressRegister` for a wrap mask `2 ^ n - 1`,
`1 ≤ n ≤ 16`, and an index with `|ix| ≤ wr`: the block of the address is kept and the
offset in the block moves by `ix` modulo the block size. -/
theorem increase_eq (s : SDSP) (reg n : Nat) (ix : Int) (har : s.r.ar reg < 2 ^ 16)
    (hn1 : 1 ≤ n) (hn : n ≤ 16) (hwr : s.r.wr reg = 2 ^ n - 1)
    (hix : -((2 ^ n - 1 : Nat) : Int) ≤ ix ∧ ix ≤ ((2 ^ n - 1 : Nat) : Int)) :
    ((IncreaseAddressRegister s reg ix : Nat) : Int)
      = ((s.r.ar reg / 2 ^ n * 2 ^ n : Nat) : Int)
        + (((s.r.ar reg % 2 ^ n : Nat) : Int) + ix) % ((2 ^ n : Nat) : Int) := by
  unfold IncreaseAddressRegister
  have hW16 : 2 ^ n ≤ 2 ^ 16 := Nat.pow_le_pow_right (by decide) hn
  have hW2 : 2 ^ 1 ≤ 2 ^ n := Nat.pow_le_pow_right (by decide) hn1
  simp only [hwr, mask_or_one n hn1, Nat.shiftLeft_eq]
  generalize s.r.ar reg = ar at har
  obtain ⟨ht1, ht2⟩ := boundary_tests ar (toU32 ix) 0 n (by decide) hn1 hn
  simp only [Nat.add_zero] at ht1 ht2
  have he := toU32_mod_block ix (2 ^ n) (2 ^ (32 - n)) (block_dvd n hn) hW16
    (by omega) (by omega)
  have hu : ((toU32 ix : Nat) : Int) = if 0 ≤ ix then ix else ix + 2 ^ 32 := by
    simp only [toU32]; split_ifs <;> omega
  have hB : ar / 2 ^ n * 2 ^ n + ar % 2 ^ n = ar := Nat.div_add_mod' ar (2 ^ n)
  have hr : ar % 2 ^ n < 2 ^ n := Nat.mod_lt _ (by omega)
  have hroom : ar / 2 ^ n * 2 ^ n + 2 ^ n ≤ 2 ^ 16 :=
    block_room _ n hn (by omega) (Nat.mul_mod_left _ _)
  have hm := emod_block (((ar % 2 ^ n : Nat) : Int) + ix) ((2 ^ n : Nat) : Int)
    (by omega) (by omega)
  rw [hm]
  simp only [ht1, ht2, ge_iff_le]
  clear ht1 ht2 hm
  generalize toU32 ix % 2 ^ n = e at he ⊢
  generalize toU32 ix = u at hu ⊢
  generalize ar / 2 ^ n * 2 ^ n = B at hB hroom ⊢
  generalize ar % 2 ^ n = r at hB hr he ⊢
  generalize 2 ^ n = W at hW16 hW2 hix he hr hroom ⊢
  norm_num at har hW16 hW2 hroom hu ⊢
  split_ifs at he hu ⊢ <;> omega
/-- Arithmetic reading of `DecreaseAddressRegister` for a wrap mask `2 ^ n - 1`,
`1 ≤ n ≤ 16`, and an `s16` index with `|ix| ≤ wr`: the block of the address is kept
and the offset in the block moves by `-ix` modulo the block size. -/
theorem decrease_eq (s : SDSP) (reg n : Nat) (ix : Int) (har : s.r.ar reg < 2 ^ 16)
    (hn1 : 1 ≤ n) (hn : n ≤ 16) (hwr : s.r.wr reg = 2 ^ n - 1)
    (hs16 : -2 ^ 15 ≤ ix ∧ ix < 2 ^ 15)
    (hix : -((2 ^ n - 1 : Nat) : Int) ≤ ix ∧ ix ≤ ((2 ^ n - 1 : Nat) : Int)) :
    ((DecreaseAddressRegister s reg ix : Nat) : Int)
      = ((s.r.ar reg / 2 ^ n * 2 ^ n : Nat) : Int)
        + (((s.r.ar reg % 2 ^ n : Nat) : Int) - ix) % ((2 ^ n : Nat) : Int) := by
  unfold DecreaseAddressRegister
  have hW16 : 2 ^ n ≤ 2 ^ 16 := Nat.pow_le_pow_right (by decide) hn
  have hW2 : 2 ^ 1 ≤ 2 ^ n := Nat.pow_le_pow_right (by decide) hn1
  have hW15 : 2 ^ n ≤ 2 ^ 15 ∨ 2 ^ n = 2 ^ 16 := by
    rcases Nat.lt_or_ge n 16 with h | h
    · exact Or.inl (Nat.pow_le_pow_right (by decide) (by omega))
    · have : n = 16 := by omega
      exact Or.inr (by rw [this])
  simp only [hwr, mask_or_one n hn1, Nat.shiftLeft_eq]
  generalize s.r.ar reg = ar at har
  have hnot : toU32 (~~~ix) = 2 ^ 32 - 1 - toU32 ix := by
    simp only [toU32, int_not_eq]; omega
  have hult : toU32 ix < 2 ^ 32 := by simp only [toU32]; omega
  have hnar : ar + 2 ^ 32 - toU32 ix = ar + toU32 (~~~ix) + 1 := by omega
  rw [hnar]
  obtain ⟨ht1, ht2⟩ := boundary_tests ar (toU32 (~~~ix)) 1 n (by decide) hn1 hn
  have he := toU32_mod_block (~~~ix) (2 ^ n) (2 ^ (32 - n)) (block_dvd n hn) hW16
    (by rw [int_not_eq]; omega) (by rw [int_not_eq]; omega)
  have hu : ((toU32 (~~~ix) : Nat) : Int) = if 0 ≤ ix then 2 ^ 32 - 1 - ix else -ix - 1 := by
    simp only [toU32, int_not_eq]; split_ifs <;> omega
  have hbr : toU32 ix > 0xFFFF8000 ↔ (-2 ^ 15 < ix ∧ ix < 0) := by
    simp only [toU32]; omega
  have hB : ar / 2 ^ n * 2 ^ n + ar % 2 ^ n = ar := Nat.div_add_mod' ar (2 ^ n)
  have hr : ar % 2 ^ n < 2 ^ n := Nat.mod_lt _ (by omega)
  have hroom : ar / 2 ^ n * 2 ^ n + 2 ^ n ≤ 2 ^ 16 :=
    block_room _ n hn (by omega) (Nat.mul_mod_left _ _)
  have hm := emod_block (((ar % 2 ^ n : Nat) : Int) - ix) ((2 ^ n : Nat) : Int)
    (by omega) (by omega)
  rw [hm]
  simp only [ht1, ht2, hbr]
  clear ht1 ht2 hm hbr hnot hnar hult
  generalize toU32 (~~~ix) % 2 ^ n = e at he ⊢
  generalize toU32 (~~~ix) = u at hu ⊢
  rw [int_not_eq] at he
  generalize ar / 2 ^ n * 2 ^ n = B at hB hroom ⊢
  generalize ar % 2 ^ n = r at hB hr he ⊢
  generalize 2 ^ n = W at hW16 hW2 hW15 hix he hr hroom ⊢
  norm_num at har hW16 hW2 hW15 hroom hu hs16 ⊢
  split_ifs at he hu ⊢ <;> omega

/-- The `u16` complement of a wrap mask `2 ^ n - 1`: the bits from `n` to 15. -/
theorem notMask16_wrap (n : Nat) (hn : n ≤ 16) :
    notMask16 (2 ^ n - 1) = 2 ^ n * (2 ^ (16 - n) - 1) := by
  have hK : 2 ^ n * 2 ^ (16 - n) = 2 ^ 16 := by
    rw [← Nat.pow_add]; congr 1; omega
  have hpos : 0 < 2 ^ n := Nat.pos_pow_of_pos n (by decide)
  have hle : 2 ^ n ≤ 2 ^ 16 := Nat.pow_le_pow_right (by decide) hn
  rw [Nat.mul_sub, hK, Nat.mul_one]
  simp only [notMask16, toU16, int_not_eq]
  generalize 2 ^ n = W at hpos hle
  omega

/-- The wrapped address `(ar & ~wr) | (x & wr)` of a 16-bit `ar`, for the mask
`wr = 2 ^ n - 1` and a signed `x` taken modulo `2 ^ 16`: the block of `ar` plus the
residue of `x` modulo the block size. -/
theorem wrap_form (ar n : Nat) (x : Int) (har : ar < 2 ^ 16) (hn : n ≤ 16) :
    (((ar &&& notMask16 (2 ^ n - 1)) ||| (toU16 x &&& (2 ^ n - 1)) : Nat) : Int)
      = ((ar / 2 ^ n * 2 ^ n : Nat) : Int) + x % ((2 ^ n : Nat) : Int) := by
  have hK : 2 ^ n * 2 ^ (16 - n) = 2 ^ 16 := by
    rw [← Nat.pow_add]; congr 1; omega
  have hpos : 0 < 2 ^ n := Nat.pos_pow_of_pos n (by decide)
  have hq : ar / 2 ^ n < 2 ^ (16 - n) := by
    apply Nat.div_lt_of_lt_mul
    rw [hK]; exact har
  have hlow : toU16 x &&& (2 ^ n - 1) < 2 ^ n := by
    rw [Nat.and_pow_two_sub_one_eq_mod]; exact Nat.mod_lt _ hpos
  rw [notMask16_wrap n hn, and_shifted_mask, Nat.mod_eq_of_lt hq, ← Nat.mul_add_lt_is_or hlow,
    Nat.and_pow_two_sub_one_eq_mod, Nat.mul_comm]
  push_cast
  congr 1
  have hdvd : ((2 : Int) ^ n) ∣ (2 : Int) ^ 16 := pow_dvd_pow 2 hn
  have hnonneg : 0 ≤ x % (2 : Int) ^ 16 := Int.emod_nonneg _ (by positivity)
  simp only [toU16]
  rw [Int.toNat_of_nonneg hnonneg, Int.emod_emod_of_dvd _ hdvd]

/-- C16: for a 16-bit address, a wrap mask `wr = 2 ^ n - 1` with `1 ≤ n ≤ 16` and an
`s16` index with `|ix| ≤ wr`, `IncreaseAddressRegister` returns
`(ar & ~wr) | ((ar + ix) & wr)` and `DecreaseAddressRegister` returns
`(ar & ~wr) | ((ar - ix) & wr)`, the arithmetic taken modulo `2 ^ 16`. -/
theorem C16_increase_decrease_wrap (s : SDSP) (reg n : Nat) (ix : Int)
    (har : s.r.ar reg < 2 ^ 16) (hn1 : 1 ≤ n) (hn : n ≤ 16) (hwr : s.r.wr reg = 2 ^ n - 1)
    (hs16 : -2 ^ 15 ≤ ix ∧ ix < 2 ^ 15) (hix : |ix| ≤ (s.r.wr reg : Int)) :
    IncreaseAddressRegister s reg ix
      = (s.r.ar reg &&& notMask16 (s.r.wr reg))
        ||| (toU16 ((s.r.ar reg : Int) + ix) &&& s.r.wr reg) ∧
    DecreaseAddressRegister s reg ix
      = (s.r.ar reg &&& notMask16 (s.r.wr reg))
        ||| (toU16 ((s.r.ar reg : Int) - ix) &&& s.r.wr reg) := by
  have hix' : -((2 ^ n - 1 : Nat) : Int) ≤ ix ∧ ix ≤ ((2 ^ n - 1 : Nat) : Int) := by
    rw [hwr] at hix
    exact abs_le.mp hix
  have hI := increase_eq s reg n ix har hn1 hn hwr hix'
  have hD := decrease_eq s reg n ix har hn1 hn hwr hs16 hix'
  have hpos : 0 < 2 ^ n := Nat.pos_pow_of_pos n (by decide)
  have hsplit : ((s.r.ar reg : Nat) : Int)
      = ((s.r.ar reg % 2 ^ n : Nat) : Int) + ((2 ^ n : Nat) : Int) * ((s.r.ar reg / 2 ^ n : Nat) : Int) := by
    have := Nat.mod_add_div (s.r.ar reg) (2 ^ n)
    exact_mod_cast this.symm
  constructor
  · apply Int.ofNat_inj.mp
    rw [hwr, wrap_form _ n _ har hn]
    rw [hI]
    congr 1
    conv_rhs => rw [hsplit]
    rw [add_right_comm, Int.add_mul_emod_self_left]
  · apply Int.ofNat_inj.mp
    rw [hwr, wrap_form _ n _ har hn]
    rw [hD]
    congr 1
    conv_rhs => rw [hsplit]
    rw [add_sub_right_comm, Int.add_mul_emod_self_left]

/-- C16, a concrete instance: address `0x10FE` in a 256-word block, index `3`. -/
theorem C16_increase_decrease_wrap_witness :
    IncreaseAddressRegister (addrState 0x10FE 0xFF) 0 3
      = ((addrState 0x10FE 0xFF).r.ar 0 &&& notMask16 ((addrState 0x10FE 0xFF).r.wr 0))
        ||| (toU16 (((addrState 0x10FE 0xFF).r.ar 0 : Int) + 3)
              &&& (addrState 0x10FE 0xFF).r.wr 0) ∧
    DecreaseAddressRegister (addrState 0x10FE 0xFF) 0 3
      = ((addrState 0x10FE 0xFF).r.ar 0 &&& notMask16 ((addrState 0x10FE 0xFF).r.wr 0))
        ||| (toU16 (((addrState 0x10FE 0xFF).r.ar 0 : Int) - 3)
              &&& (addrState 0x10FE 0xFF).r.wr 0) :=
  C16_increase_decrease_wrap (addrState 0x10FE 0xFF) 0 8 3 (by decide) (by decide) (by decide)
    (by decide) (by decide) (by decide)

/-! ## Unit steps of the indexed address arithmetic -/

/-- The bits changed by `a + 1` are the trailing ones of `a` and the zero above
them: `(a + 1) ^ a = 2 ^ (k + 1) - 1`, `k` being the number of trailing ones. -/
theorem xor_succ_form (a : Nat) :
    ∃ k, (a + 1) ^^^ a = 2 ^ (k + 1) - 1 ∧ a % 2 ^ (k + 1) = 2 ^ k - 1 := by
  induction a using Nat.strong_induction_on with
  | _ a ih =>
    have hx2 : ((a + 1) ^^^ a) % 2 = 1 := by rw [Nat.xor_mod_two_eq]; omega
    have hxd : ((a + 1) ^^^ a) / 2 = ((a + 1) / 2) ^^^ (a / 2) := Nat.xor_div_two
    rcases Nat.mod_two_eq_zero_or_one a with he | ho
    · refine ⟨0, ?_, ?_⟩
      · have h1 : (a + 1) / 2 = a / 2 := by omega
        rw [h1, Nat.xor_self] at hxd
        norm_num
        omega
      · norm_num
        omega
    · obtain ⟨k, hk1, hk2⟩ := ih (a / 2) (by omega)
      refine ⟨k + 1, ?_, ?_⟩
      · have h1 : (a + 1) / 2 = a / 2 + 1 := by omega
        rw [h1, hk1] at hxd
        have hp : 0 < 2 ^ (k + 1) := Nat.pos_pow_of_pos _ (by decide)
        have e : 2 ^ (k + 1 + 1) = 2 * 2 ^ (k + 1) := by ring
        rw [e]
        generalize (a + 1) ^^^ a = x at hx2 hxd ⊢
        generalize 2 ^ (k + 1) = P at hxd hp ⊢
        omega
      · have hmod : a % 2 ^ (k + 1 + 1) = a % 2 + 2 * (a / 2 % 2 ^ (k + 1)) := by
          rw [Nat.pow_succ, Nat.mul_comm, Nat.mod_mul]
        have hp : 0 < 2 ^ k := Nat.pos_pow_of_pos _ (by decide)
        have e : 2 ^ (k + 1) = 2 * 2 ^ k := by ring
        rw [hmod, hk2, e]
        generalize 2 ^ k = P at hp ⊢
        omega

/-- The word `wr | 1` is `wr` with its low bit forced. -/
theorem or_one_eq (wr : Nat) : wr ||| 1 = 2 * (wr / 2) + 1 := by
  have h2 : (wr ||| 1) / 2 = wr / 2 := by
    rw [Nat.or_div_two]; simp
  have h1 : (wr ||| 1) % 2 = 1 := Nat.or_mod_two_eq_one.mpr (Or.inr rfl)
  omega

/-- Masking an even word `2 * w` with the low `k + 1` ones. -/
theorem and_low_ones (w k : Nat) :
    (2 ^ (k + 1) - 1) &&& (2 * w) = 2 * (w % 2 ^ k) := by
  rw [Nat.and_comm, Nat.and_pow_two_sub_one_eq_mod, Nat.pow_succ, Nat.mul_comm (2 ^ k) 2,
    Nat.mul_mod_mul_left]

/-- The residue of `w` modulo `P` leaves room for one `P` below `w` when `P ≤ w`. -/
theorem mod_add_le (w P : Nat) (hP : 0 < P) (h : P ≤ w) : w % P + P ≤ w := by
  have h1 := Nat.div_add_mod w P
  have h2 : 1 ≤ w / P := Nat.div_pos h hP
  have h3 : P * 1 ≤ P * (w / P) := Nat.mul_le_mul_left P h2
  omega

/-- The overflow tests of the unit and of the indexed increment agree for every wrap
mask: with `x = (ar + 1) ^ ar` and `mx = 2 * (wr | 1)`, `x > mx` holds exactly when
`x & mx > wr`. -/
theorem unit_overflow_tests (ar wr : Nat) :
    (((ar + 1) ^^^ ar) &&& (2 * (wr ||| 1)) > wr) ↔ ((ar + 1) ^^^ ar > 2 * (wr ||| 1)) := by
  obtain ⟨k, hk1, _⟩ := xor_succ_form ar
  have hw := or_one_eq wr
  have hP : 0 < 2 ^ k := Nat.pos_pow_of_pos _ (by decide)
  have e : 2 ^ (k + 1) = 2 * 2 ^ k := by ring
  rw [hk1, and_low_ones, e]
  have hm : (wr ||| 1) % 2 ^ k < 2 ^ k := Nat.mod_lt _ hP
  rcases Nat.lt_or_ge (wr ||| 1) (2 ^ k) with h | h
  · have hm2 : (wr ||| 1) % 2 ^ k = wr ||| 1 := Nat.mod_eq_of_lt h
    rw [hm2]
    generalize wr ||| 1 = w at hw h ⊢
    generalize 2 ^ k = P at h hP ⊢
    omega
  · have hm2 := mod_add_le (wr ||| 1) (2 ^ k) hP h
    generalize (wr ||| 1) % 2 ^ k = m at hm hm2 ⊢
    generalize wr ||| 1 = w at hw h hm2 ⊢
    generalize 2 ^ k = P at h hP hm hm2 ⊢
    omega

/-- The steps `+1`: `IncreaseAddressRegister(reg, 1)` and
`DecreaseAddressRegister(reg, -1)` both return what `IncrementAddressRegister`
returns, for every 16-bit address and every 16-bit wrap mask. -/
theorem step_up_eq_increment (s : SDSP) (reg : Nat) (har : s.r.ar reg < 2 ^ 16)
    (hwr : s.r.wr reg < 2 ^ 16) :
    IncreaseAddressRegister s reg 1 = IncrementAddressRegister s reg ∧
    DecreaseAddressRegister s reg (-1) = IncrementAddressRegister s reg := by
  unfold IncreaseAddressRegister DecreaseAddressRegister IncrementAddressRegister
  generalize s.r.ar reg = ar at har
  generalize s.r.wr reg = wr at hwr
  have hw := or_one_eq wr
  have hmx : ((wr ||| 1) <<< 1) % 2 ^ 32 = 2 * (wr ||| 1) := by
    rw [Nat.shiftLeft_eq, Nat.pow_one, Nat.mul_comm]
    exact Nat.mod_eq_of_lt (by omega)
  have hu1 : toU32 1 = 1 := by decide
  have hum : toU32 (-1) = 2 ^ 32 - 1 := by decide
  have hun : toU32 (~~~(-1)) = 0 := by decide
  have hnar : (ar + 1) % 2 ^ 32 = ar + 1 := Nat.mod_eq_of_lt (by omega)
  have hnar2 : (ar + 2 ^ 32 - (2 ^ 32 - 1)) % 2 ^ 32 = ar + 1 := by
    have : ar + 2 ^ 32 - (2 ^ 32 - 1) = ar + 1 := by omega
    rw [this, hnar]
  have hone : 1 &&& (2 * (wr ||| 1)) = 0 := by
    rw [Nat.and_comm, Nat.and_one_is_mod]; omega
  have hdar : ((ar + 1) ^^^ ar ^^^ 1) &&& (2 * (wr ||| 1))
      = ((ar + 1) ^^^ ar) &&& (2 * (wr ||| 1)) := by
    rw [Nat.and_xor_distrib_right, hone, Nat.xor_zero]
  have ht := unit_overflow_tests ar wr
  have hbr : (2 ^ 32 - 1 : Nat) > 0xFFFF8000 := by decide
  simp only [hmx, hu1, hum, hun, hnar, hnar2, hdar, Nat.xor_zero, ht, hbr, ge_iff_le,
    zero_le_one, if_true]
  exact ⟨trivial, trivial⟩

/-- Dropping the low part of `u` does not change whether it exceeds `wr`, when the
low part of `u` is at most that of `wr`. -/
theorem hi_gt_iff (u wr Q : Nat) (hQ : 0 < Q) (h : u % Q ≤ wr % Q) :
    wr < u ↔ wr < Q * (u / Q) := by
  have hu := Nat.div_add_mod u Q
  have hw := Nat.div_add_mod wr Q
  constructor
  · intro hlt
    by_contra hcon
    have h1 : u / Q ≤ wr / Q := by
      rw [Nat.le_div_iff_mul_le hQ, Nat.mul_comm]
      omega
    have h2 : Q * (u / Q) ≤ Q * (wr / Q) := Nat.mul_le_mul_left Q h1
    omega
  · intro hlt
    omega

/-- Below the lowest set bit of `ar` and at it, adding `wr` to `ar` changes exactly
the bits of `wr`. -/
theorem low_bits_agree (ar wr k : Nat) (hk : ar % 2 ^ (k + 1) = 2 ^ k) :
    ((ar + wr) ^^^ ar) % 2 ^ (k + 1) = wr % 2 ^ (k + 1) := by
  apply Nat.eq_of_testBit_eq
  intro i
  rw [Nat.testBit_mod_two_pow, Nat.testBit_mod_two_pow]
  by_cases hi : i < k + 1
  · have hdvd1 : 2 ^ i ∣ 2 ^ (k + 1) := pow_dvd_pow 2 (by omega)
    have hdvd2 : 2 ^ i ∣ 2 ^ k := pow_dvd_pow 2 (by omega)
    have har : ar % 2 ^ i = 0 := by
      apply Nat.mod_eq_zero_of_dvd
      rw [← Nat.dvd_mod_iff hdvd1, hk]
      exact hdvd2
    have hc := carry_testBit ar wr 0 i (by decide)
    have hlt : wr % 2 ^ i < 2 ^ i := Nat.mod_lt _ (Nat.pos_pow_of_pos _ (by decide))
    rw [har, Nat.add_zero, Nat.zero_add, Nat.add_zero, Nat.testBit_xor] at hc
    have hf : decide (2 ^ i ≤ wr % 2 ^ i) = false := by
      rw [decide_eq_false_iff_not]; omega
    rw [hf] at hc
    simp only [hi, decide_True, Bool.true_and]
    cases h1 : ((ar + wr) ^^^ ar).testBit i <;> cases h2 : wr.testBit i <;>
      simp [h1, h2] at hc ⊢
  · simp [hi]

/-- The underflow test of the indexed decrement looks at the part of the masked
word above the lowest set bit of `ar`: with `y = 2 ^ (k + 1) - 1` the bits changed
by `ar - 1`, and an even 32-bit mask `mx`. -/
theorem masked_high_part (V mx k : Nat) (hmx : mx < 2 ^ 32) (heven : mx % 2 = 0) :
    (V ^^^ (2 ^ (k + 1) - 1)) &&& (((2 ^ (k + 1) - 1) ^^^ (2 ^ 32 - 2)) &&& mx)
      = 2 ^ (k + 1) * ((V &&& mx) / 2 ^ (k + 1)) := by
  apply Nat.eq_of_testBit_eq
  intro i
  have hE : (2 ^ 32 - 2 : Nat) = 2 ^ 1 * (2 ^ 31 - 1) := by norm_num
  rw [Nat.testBit_and, Nat.testBit_and, Nat.testBit_xor, Nat.testBit_xor, hE,
    Nat.testBit_mul_pow_two, Nat.testBit_mul_pow_two, Nat.testBit_two_pow_sub_one,
    Nat.testBit_two_pow_sub_one, ← Nat.shiftRight_eq_div_pow, Nat.testBit_shiftRight,
    Nat.testBit_and]
  cases hm : mx.testBit i
  · by_cases hge : i ≥ k + 1
    · have e : k + 1 + (i - (k + 1)) = i := by omega
      simp [hge, e, hm]
    · simp [hge]
  · have h0 : i ≠ 0 := by
      intro h
      subst h
      rw [Nat.testBit_to_div_mod] at hm
      simp at hm
      omega
    have h32 : i < 32 := by
      by_contra hcon
      have : mx < 2 ^ i := lt_of_lt_of_le hmx (Nat.pow_le_pow_right (by decide) (by omega))
      rw [Nat.testBit_lt_two_pow this] at hm
      exact Bool.noConfusion hm
    have hE1 : decide (i ≥ 1) = true := by simp; omega
    have hE2 : decide (i - 1 < 31) = true := by simp; omega
    by_cases hc : i < k + 1
    · have hge : ¬ i ≥ k + 1 := by omega
      simp [hc, hge, hE1, hE2]
    · have hge : i ≥ k + 1 := by omega
      have e : k + 1 + (i - (k + 1)) = i := by omega
      simp [hc, hge, hE1, hE2, e, hm]

/-- For `ar ≥ 1` the underflow test of the indexed decrement by one is the negation
of the overflow test of `DecrementAddressRegister`. -/
theorem unit_underflow_tests (ar wr : Nat) (h1 : 1 ≤ ar) (hwr : wr < 2 ^ 16) :
    ((((ar + wr) ^^^ (ar - 1)) &&& ((((ar - 1) ^^^ ar) ^^^ (2 ^ 32 - 2)) &&& (2 * (wr ||| 1))))
        ≤ wr) ↔ ¬ ((((ar + wr) ^^^ ar) &&& (2 * (wr ||| 1))) > wr) := by
  obtain ⟨a, rfl⟩ : ∃ a, ar = a + 1 := ⟨ar - 1, by omega⟩
  obtain ⟨k, hk1, hk2⟩ := xor_succ_form a
  have hw := or_one_eq wr
  have hP : 0 < 2 ^ k := Nat.pos_pow_of_pos _ (by decide)
  have hQ : 0 < 2 ^ (k + 1) := Nat.pos_pow_of_pos _ (by decide)
  have e : 2 ^ (k + 1) = 2 * 2 ^ k := by ring
  have hmx : 2 * (wr ||| 1) < 2 ^ 32 := by omega
  have hev : 2 * (wr ||| 1) % 2 = 0 := by omega
  have hark : (a + 1) % 2 ^ (k + 1) = 2 ^ k := by
    have h1q : 1 % 2 ^ (k + 1) = 1 := Nat.mod_eq_of_lt (by omega)
    have hPq : (2 ^ k - 1 + 1) % 2 ^ (k + 1) = 2 ^ k := by
      have : 2 ^ k - 1 + 1 = 2 ^ k := by omega
      rw [this]
      exact Nat.mod_eq_of_lt (by omega)
    rw [Nat.add_mod, hk2, h1q, hPq]
  have hy : (a + 1 - 1) ^^^ (a + 1) = 2 ^ (k + 1) - 1 := by
    rw [Nat.add_sub_cancel, Nat.xor_comm, hk1]
  have hZ : (a + 1 + wr) ^^^ (a + 1 - 1)
      = ((a + 1 + wr) ^^^ (a + 1)) ^^^ (2 ^ (k + 1) - 1) := by
    rw [Nat.add_sub_cancel, ← hk1, Nat.xor_assoc, ← Nat.xor_assoc (a + 1), Nat.xor_self,
      Nat.zero_xor]
  have hhigh := masked_high_part ((a + 1 + wr) ^^^ (a + 1)) (2 * (wr ||| 1)) k hmx hev
  have hlow := low_bits_agree (a + 1) wr k hark
  have hu : (((a + 1 + wr) ^^^ (a + 1)) &&& (2 * (wr ||| 1))) % 2 ^ (k + 1)
      ≤ wr % 2 ^ (k + 1) := by
    rw [← hlow, ← Nat.and_pow_two_sub_one_eq_mod, Nat.and_assoc,
      Nat.and_comm (2 * (wr ||| 1)), ← Nat.and_assoc, Nat.and_pow_two_sub_one_eq_mod]
    exact Nat.and_le_left
  have hgt := hi_gt_iff _ wr (2 ^ (k + 1)) hQ hu
  rw [hy, hZ, hhigh, gt_iff_lt, hgt]
  omega

/-- With index `1` the indexed decrement, and with index `-1` the indexed
increment, compute `DecrementAddressRegister`, for every 16-bit `ar` and `wr`. -/
theorem step_down_eq_decrement (s : SDSP) (reg : Nat) (har : s.r.ar reg < 2 ^ 16)
    (hwr : s.r.wr reg < 2 ^ 16) :
    DecreaseAddressRegister s reg 1 = DecrementAddressRegister s reg ∧
    IncreaseAddressRegister s reg (-1) = DecrementAddressRegister s reg := by
  unfold IncreaseAddressRegister DecreaseAddressRegister DecrementAddressRegister
  generalize s.r.ar reg = ar at har
  generalize s.r.wr reg = wr at hwr
  have hw := or_one_eq wr
  have hmx : ((wr ||| 1) <<< 1) % 2 ^ 32 = 2 * (wr ||| 1) := by
    rw [Nat.shiftLeft_eq, Nat.pow_one, Nat.mul_comm]
    exact Nat.mod_eq_of_lt (by omega)
  have hmxlt : 2 * (wr ||| 1) < 2 ^ 32 := by omega
  have hu1 : toU32 1 = 1 := by decide
  have hum : toU32 (-1) = 2 ^ 32 - 1 := by decide
  have hun : toU32 (~~~(1 : Int)) = 2 ^ 32 - 2 := by decide
  have hneg : ¬ ((-1 : Int) ≥ 0) := by decide
  have hbr : ¬ ((1 : Nat) > 0xFFFF8000) := by decide
  have hnarI : (ar + (2 ^ 32 - 1)) % 2 ^ 32 = (ar + 2 ^ 32 - 1) % 2 ^ 32 := by
    have : ar + (2 ^ 32 - 1) = ar + 2 ^ 32 - 1 := by omega
    rw [this]
  have hF : (2 ^ 32 - 1) &&& (2 * (wr ||| 1)) = 2 * (wr ||| 1) := by
    rw [Nat.and_comm, Nat.and_pow_two_sub_one_eq_mod]
    exact Nat.mod_eq_of_lt hmxlt
  have hE : (2 ^ 32 - 2) &&& (2 * (wr ||| 1)) = 2 * (wr ||| 1) := by
    have h2 : (2 ^ 32 - 2 : Nat) = 2 ^ 1 * (2 ^ 31 - 1) := by norm_num
    rw [Nat.and_comm, h2, and_shifted_mask]
    omega
  have hdar : ∀ y : Nat, (y ^^^ (2 ^ 32 - 1)) &&& (2 * (wr ||| 1))
      = (y ^^^ (2 ^ 32 - 2)) &&& (2 * (wr ||| 1)) := by
    intro y
    rw [Nat.and_xor_distrib_right, Nat.and_xor_distrib_right, hF, hE]
  simp only [hmx, hu1, hum, hun, hneg, hbr, hnarI, hdar, if_false]
  rw [and_self]
  rcases Nat.eq_zero_or_pos ar with h0 | hpos
  · subst h0
    have hn : (0 + 2 ^ 32 - 1) % 2 ^ 32 = 2 ^ 32 - 1 := by decide
    have hx : ((2 ^ 32 - 1) ^^^ 0 ^^^ (2 ^ 32 - 2) : Nat) = 1 := by decide
    have hone : 1 &&& (2 * (wr ||| 1)) = 0 := by
      rw [Nat.and_comm, Nat.and_one_is_mod]; omega
    have hlow : ((0 + wr) % 2 ^ 32 ^^^ 0) &&& (2 * (wr ||| 1)) ≤ wr := by
      rw [Nat.zero_add, Nat.xor_zero, Nat.mod_eq_of_lt (by omega)]
      exact Nat.and_le_left
    have hnot : ¬ (((0 + wr) % 2 ^ 32 ^^^ 0) &&& (2 * (wr ||| 1)) > wr) := by omega
    rw [hn, hx, hone, Nat.and_zero, if_pos (Nat.zero_le _), if_neg hnot]
    omega
  · have hn : (ar + 2 ^ 32 - 1) % 2 ^ 32 = ar - 1 := by omega
    have hs : (ar - 1 + wr + 1) % 2 ^ 32 = ar + wr := by omega
    have hd : (ar + wr) % 2 ^ 32 = ar + wr := by omega
    have ht := unit_underflow_tests ar wr hpos hwr
    rw [hn, hs, hd]
    by_cases hD : ((ar + wr) ^^^ ar) &&& (2 * (wr ||| 1)) > wr
    · have h2 := mt ht.mp (not_not.mpr hD)
      rw [if_neg h2, if_pos hD]
      omega
    · have h2 := ht.mpr hD
      rw [if_pos h2, if_neg hD]

/-- C20: the indexed and the unit address operations agree at step 1 for every
16-bit address `ar` and every 16-bit wrap mask `wr`, whatever the shape of the mask:
`IncreaseAddressRegister(reg, 1)` and `DecreaseAddressRegister(reg, -1)` both equal
`IncrementAddressRegister(reg)`, and `DecreaseAddressRegister(reg, 1)` and
`IncreaseAddressRegister(reg, -1)` both equal `DecrementAddressRegister(reg)`. -/
theorem C20_unit_steps_agree (s : SDSP) (reg : Nat) (har : s.r.ar reg < 2 ^ 16)
    (hwr : s.r.wr reg < 2 ^ 16) :
    IncreaseAddressRegister s reg 1 = IncrementAddressRegister s reg ∧
    DecreaseAddressRegister s reg (-1) = IncrementAddressRegister s reg ∧
    DecreaseAddressRegister s reg 1 = DecrementAddressRegister s reg ∧
    IncreaseAddressRegister s reg (-1) = DecrementAddressRegister s reg :=
  ⟨(step_up_eq_increment s reg har hwr).1, (step_up_eq_increment s reg har hwr).2,
    (step_down_eq_decrement s reg har hwr).1, (step_down_eq_decrement s reg har hwr).2⟩

/-- Instance of C20 at `ar = 0x12FF` with the mask `wr = 0x00FE`, which is not of
the form `2 ^ n - 1`. -/
theorem C20_unit_steps_agree_witness :
    (addrState 0x12FF 0xFE).r.ar 0 < 2 ^ 16 ∧ (addrState 0x12FF 0xFE).r.wr 0 < 2 ^ 16 ∧
    (IncreaseAddressRegister (addrState 0x12FF 0xFE) 0 1
        = IncrementAddressRegister (addrState 0x12FF 0xFE) 0 ∧
      DecreaseAddressRegister (addrState 0x12FF 0xFE) 0 (-1)
        = IncrementAddressRegister (addrState 0x12FF 0xFE) 0 ∧
      DecreaseAddressRegister (addrState 0x12FF 0xFE) 0 1
        = DecrementAddressRegister (addrState 0x12FF 0xFE) 0 ∧
      IncreaseAddressRegister (addrState 0x12FF 0xFE) 0 (-1)
        = DecrementAddressRegister (addrState 0x12FF 0xFE) 0) :=
  ⟨by decide, by decide,
    C20_unit_steps_agree (addrState 0x12FF 0xFE) 0 (by decide) (by decide)⟩

/-! ## The thread-mode run loop -/

/-- The decrement `cycles--` of an `int` above `INT_MIN` does not wrap. -/
theorem dec_no_wrap (n : Int) (hlo : -2 ^ 31 < n) (hhi : n < 2 ^ 31) :
    toS32 (toU32 (n - 1)) = n - 1 := by
  simp only [toS32, toU32]
  split_ifs <;> omega

/-- The decremented counter is an `int`, whatever it was before. -/
theorem dec_range (n : Int) :
    -2 ^ 31 ≤ toS32 (toU32 (n - 1)) ∧ toS32 (toU32 (n - 1)) < 2 ^ 31 := by
  simp only [toS32, toU32]
  split_ifs <;> omega

/-- The thread loop on a budget above `INT_MIN`, with fuel beyond the budget: it
returns 0 after `k ≤ max(n, 0) + 1` rounds, the halt bit was clear at each of the
`k` tests passed, and a return before the budget ran out found the halt bit set. -/
theorem threadLoop_spec (E : InterruptOps) (Step : DSPCore → DSPCore) :
    ∀ (fuel : Nat) (c : DSPCore) (n : Int), -2 ^ 31 < n → n < 2 ^ 31 → n.toNat < fuel →
      ∃ k, k ≤ n.toNat + 1 ∧
        threadLoop E Step fuel c n = some ((threadRound E Step)^[k] c, 0) ∧
        (∀ j, j < k → haltSet ((threadRound E Step)^[j] c) = false) ∧
        (k ≤ n.toNat → haltSet ((threadRound E Step)^[k] c) = true) := by
  intro fuel
  induction fuel with
  | zero => intro c n _ _ h; omega
  | succ fuel ih =>
    intro c n hlo hhi hf
    rw [threadLoop]
    by_cases hh : haltSet c = true
    · refine ⟨0, by omega, ?_, ?_, ?_⟩
      · rw [if_pos hh]; rfl
      · intro j hj; omega
      · intro _; exact hh
    · have hh2 : haltSet c = false := by
        cases h : haltSet c
        · rfl
        · exact absurd h hh
      rw [if_neg hh]
      dsimp only
      rw [dec_no_wrap n hlo hhi]
      by_cases hneg : n - 1 < 0
      · refine ⟨1, by omega, ?_, ?_, ?_⟩
        · rw [if_pos hneg]; rfl
        · intro j hj
          have : j = 0 := by omega
          subst this
          exact hh2
        · intro h; omega
      · rw [if_neg hneg]
        obtain ⟨k, hk, hrun, hclear, hstop⟩ :=
          ih (threadRound E Step c) (n - 1) (by omega) (by omega) (by omega)
        refine ⟨k + 1, by omega, ?_, ?_, ?_⟩
        · rw [hrun, Function.iterate_succ_apply]
        · intro j hj
          cases j with
          | zero => exact hh2
          | succ j =>
            rw [Function.iterate_succ_apply]
            exact hclear j (by omega)
        · intro h
          rw [Function.iterate_succ_apply]
          exact hstop (by omega)

/-- With the halt bit clear at every test, the thread loop on a budget `n ≥ 0` runs
exactly `n + 1` rounds. -/
theorem threadLoop_exact (E : InterruptOps) (Step : DSPCore → DSPCore) (fuel : Nat)
    (c : DSPCore) (n : Int) (h0 : 0 ≤ n) (hhi : n < 2 ^ 31) (hf : n.toNat < fuel)
    (hclear : ∀ j, j ≤ n.toNat → haltSet ((threadRound E Step)^[j] c) = false) :
    threadLoop E Step fuel c n = some ((threadRound E Step)^[n.toNat + 1] c, 0) := by
  obtain ⟨k, hk, hrun, _, hstop⟩ := threadLoop_spec E Step fuel c n (by omega) hhi hf
  by_cases hle : k ≤ n.toNat
  · have h1 := hstop hle
    rw [hclear k hle] at h1
    exact Bool.noConfusion h1
  · have e : k = n.toNat + 1 := by omega
    rw [hrun, e]

/-- `RunCyclesThread` returns for every core, every `Step` and every budget, with
the value 0, after at most `2 ^ 31 + 1` rounds. -/
theorem runCyclesThread_total (E : InterruptOps) (Step : DSPCore → DSPCore) (c : DSPCore)
    (n : Int) :
    ∃ k, k ≤ 2 ^ 31 + 1 ∧
      RunCyclesThread E Step c n = some ((threadRound E Step)^[k] c, 0) ∧
      (∀ j, j < k → haltSet ((threadRound E Step)^[j] c) = false) := by
  have e32 : (2 : Nat) ^ 32 = 4294967295 + 1 := by norm_num
  unfold RunCyclesThread
  rw [e32, threadLoop]
  by_cases hh : haltSet c = true
  · refine ⟨0, by omega, ?_, ?_⟩
    · rw [if_pos hh]; rfl
    · intro j hj; omega
  · have hh2 : haltSet c = false := by
      cases h : haltSet c
      · rfl
      · exact absurd h hh
    rw [if_neg hh]
    dsimp only
    have hr := dec_range n
    generalize toS32 (toU32 (n - 1)) = n1 at hr
    by_cases hneg : n1 < 0
    · refine ⟨1, by omega, ?_, ?_⟩
      · rw [if_pos hneg]; rfl
      · intro j hj
        have : j = 0 := by omega
        subst this
        exact hh2
    · rw [if_neg hneg]
      obtain ⟨k, hk, hrun, hclear, _⟩ :=
        threadLoop_spec E Step 4294967295 (threadRound E Step c) n1 (by omega) hr.2 (by omega)
      refine ⟨k + 1, by omega, ?_, ?_⟩
      · rw [hrun, Function.iterate_succ_apply]
      · intro j hj
        cases j with
        | zero => exact hh2
        | succ j =>
          rw [Function.iterate_succ_apply]
          exact hclear j (by omega)

/-- `Step` adds one to the step counter when its collaborators leave it alone. -/
theorem step_counter_step (P : StepOps) (c : DSPCore)
    (hCE : keepsStepCounter P.CheckExceptions)
    (hF : keepsStepCounter (fun c => (P.FetchInstruction c).2))
    (hX : ∀ opc, keepsStepCounter (fun c => P.ExecuteInstruction c opc))
    (hL : keepsStepCounter P.HandleLoop) :
    (Step P c).interp.state.step_counter = c.interp.state.step_counter + 1 := by
  have h1 : (P.ExecuteInstruction (P.FetchInstruction (incStepCounter (P.CheckExceptions c))).2
      (P.FetchInstruction (incStepCounter (P.CheckExceptions c))).1).interp.state.step_counter
      = c.interp.state.step_counter + 1 := by
    rw [hX _ _, hF _]
    show (P.CheckExceptions c).interp.state.step_counter + 1 = _
    rw [hCE c]
  unfold Step
  dsimp only
  split_ifs
  · rw [hL _, h1]
  · exact h1

/-- A round of the thread loop adds to the step counter what `Step` adds, when the
interrupt collaborators leave it alone. -/
theorem step_counter_round (E : InterruptOps) (Step : DSPCore → DSPCore)
    (hC : keepsStepCounter E.CheckExternalInterrupt)
    (hS : ∀ b, keepsStepCounter (fun c => E.SetExternalInterrupt c b))
    (hStep : ∀ c, (Step c).interp.state.step_counter = c.interp.state.step_counter + 1) :
    ∀ (k : Nat) (c : DSPCore),
      ((threadRound E Step)^[k] c).interp.state.step_counter
        = c.interp.state.step_counter + k := by
  have h1 : ∀ c, (threadRound E Step c).interp.state.step_counter
      = c.interp.state.step_counter + 1 := by
    intro c
    unfold threadRound
    dsimp only
    rw [hStep]
    split_ifs
    · rw [hS false _, hC c]
    · rfl
  intro k
  induction k with
  | zero => intro c; rfl
  | succ k ih =>
    intro c
    rw [Function.iterate_succ_apply, ih, h1]
    omega

/-- C21 (as amended): `RunCyclesThread` returns for every behaviour of `Step` and
every `int` budget `n`, with the value 0, after some number `k` of rounds (one
`Step` each) at whose tests the halt bit was clear; `k ≤ 2^31 + 1`, and
`k ≤ max(n, 0) + 1` for every budget other than `INT_MIN`. With `n ≥ 0` and the
halt bit clear before every iteration it runs exactly `n + 1` rounds, and the step
counter grows by `n + 1` when the collaborators of `Step` and of the loop leave it
alone. With the halt bit set on entry it runs no `Step`. -/
theorem C21_runCyclesThread (E : InterruptOps) (Step : DSPCore → DSPCore) (P : StepOps)
    (c : DSPCore) (n : Int) (hlo : -2 ^ 31 ≤ n) (hhi : n < 2 ^ 31) :
    (∃ k, RunCyclesThread E Step c n = some ((threadRound E Step)^[k] c, 0) ∧
      (∀ j, j < k → haltSet ((threadRound E Step)^[j] c) = false) ∧
      k ≤ 2 ^ 31 + 1 ∧
      (n ≠ -2 ^ 31 → k ≤ (max n 0).toNat + 1)) ∧
    (0 ≤ n → (∀ j, j ≤ n.toNat → haltSet ((threadRound E Step)^[j] c) = false) →
      RunCyclesThread E Step c n = some ((threadRound E Step)^[n.toNat + 1] c, 0)) ∧
    (0 ≤ n → (∀ j, j ≤ n.toNat → haltSet ((threadRound E (DSP.Step P))^[j] c) = false) →
      keepsStepCounter P.CheckExceptions →
      keepsStepCounter (fun c => (P.FetchInstruction c).2) →
      (∀ opc, keepsStepCounter (fun c => P.ExecuteInstruction c opc)) →
      keepsStepCounter P.HandleLoop →
      keepsStepCounter E.CheckExternalInterrupt →
      (∀ b, keepsStepCounter (fun c => E.SetExternalInterrupt c b)) →
      ∃ c', RunCyclesThread E (DSP.Step P) c n = some (c', 0) ∧
        c'.interp.state.step_counter = c.interp.state.step_counter + (n.toNat + 1)) ∧
    (haltSet c = true → RunCyclesThread E Step c n = some (c, 0)) := by
  have e32 : (2 : Nat) ^ 32 = 4294967295 + 1 := by norm_num
  refine ⟨?_, ?_, ?_, ?_⟩
  · by_cases hmin : n = -2 ^ 31
    · obtain ⟨k, hk, hrun, hclear⟩ := runCyclesThread_total E Step c n
      exact ⟨k, hrun, hclear, hk, fun h => absurd hmin h⟩
    · obtain ⟨k, hk, hrun, hclear, _⟩ :=
        threadLoop_spec E Step (2 ^ 32) c n (by omega) hhi (by omega)
      exact ⟨k, hrun, hclear, by omega, fun _ => by omega⟩
  · intro h0 hclear
    exact threadLoop_exact E Step (2 ^ 32) c n h0 hhi (by omega) hclear
  · intro h0 hclear hCE hF hX hL hC hS
    refine ⟨_, threadLoop_exact E (DSP.Step P) (2 ^ 32) c n h0 hhi (by omega) hclear, ?_⟩
    exact step_counter_round E (DSP.Step P) hC hS
      (fun c => step_counter_step P c hCE hF hX hL) (n.toNat + 1) c
  · intro hh
    unfold RunCyclesThread
    rw [e32, threadLoop, if_pos hh]

/-- With collaborators that do nothing, a round of the thread loop only moves the
step counter. -/
theorem idleRound_eq (c : DSPCore) :
    threadRound noInterrupts (Step idleStepOps) c = incStepCounter c := by
  unfold threadRound Step
  simp only [noInterrupts, idleStepOps, ite_self]

/-- Rounds that only move the step counter leave the halt bit as it was. -/
theorem idleRound_iterate_halt (k : Nat) (c : DSPCore) :
    haltSet ((threadRound noInterrupts (Step idleStepOps))^[k] c) = haltSet c := by
  induction k generalizing c with
  | zero => rfl
  | succ k ih =>
    rw [Function.iterate_succ_apply, ih, idleRound_eq]
    rfl

/-- Instance of C21 at the budget 3 with collaborators that do nothing, from the
all-zero core: four rounds run and the step counter ends at 4. -/
theorem C21_runCyclesThread_witness :
    (-2 ^ 31 ≤ (3 : Int) ∧ (3 : Int) < 2 ^ 31) ∧
    RunCyclesThread noInterrupts (Step idleStepOps) zeroCore 3
      = some ((threadRound noInterrupts (Step idleStepOps))^[(3 : Int).toNat + 1] zeroCore, 0) ∧
    (∃ c', RunCyclesThread noInterrupts (Step idleStepOps) zeroCore 3 = some (c', 0) ∧
      c'.interp.state.step_counter
        = zeroCore.interp.state.step_counter + ((3 : Int).toNat + 1)) :=
  ⟨by decide,
    (C21_runCyclesThread noInterrupts (Step idleStepOps) idleStepOps zeroCore 3 (by decide)
      (by decide)).2.1 (by decide) (fun j _ => idleRound_iterate_halt j zeroCore),
    (C21_runCyclesThread noInterrupts (Step idleStepOps) idleStepOps zeroCore 3 (by decide)
      (by decide)).2.2.1 (by decide) (fun j _ => idleRound_iterate_halt j zeroCore)
      (fun _ => rfl) (fun _ => rfl) (fun _ _ => rfl) (fun _ => rfl) (fun _ => rfl)
      (fun _ _ => rfl)⟩

/-- C21 (as stated, refuted): on the budget `INT_MIN = -2^31` the decrement wraps to
`INT_MAX`; with a `Step` that never sets the halt bit the call then runs
`2^31 + 1` Steps, not at most `max(n, 0) + 1 = 1`. -/
theorem C21_counterexample_int_min :
    ∃ c', RunCyclesThread noInterrupts (Step idleStepOps) zeroCore (-2 ^ 31) = some (c', 0) ∧
      c'.interp.state.step_counter = 2 ^ 31 + 1 ∧
      ¬ (2 ^ 31 + 1 ≤ (max (-2 ^ 31 : Int) 0).toNat + 1) := by
  have e32 : (2 : Nat) ^ 32 = 4294967295 + 1 := by norm_num
  have hdec : toS32 (toU32 (-2 ^ 31 - 1)) = 2 ^ 31 - 1 := by decide
  have hrun : RunCyclesThread noInterrupts (Step idleStepOps) zeroCore (-2 ^ 31)
      = some ((threadRound noInterrupts (Step idleStepOps))^[(2 ^ 31 - 1 : Int).toNat + 1]
          (threadRound noInterrupts (Step idleStepOps) zeroCore), 0) := by
    unfold RunCyclesThread
    rw [e32, threadLoop, if_neg (by decide : ¬ haltSet zeroCore = true)]
    dsimp only
    rw [hdec, if_neg (by decide : ¬ ((2 : Int) ^ 31 - 1 < 0))]
    exact threadLoop_exact noInterrupts (Step idleStepOps) 4294967295 _ (2 ^ 31 - 1)
      (by decide) (by decide) (by decide)
      (fun j _ => by rw [idleRound_iterate_halt, idleRound_eq]; rfl)
  refine ⟨_, hrun, ?_, by decide⟩
  rw [step_counter_round noInterrupts (Step idleStepOps) (fun _ => rfl) (fun _ _ => rfl)
    (fun c => step_counter_step idleStepOps c (fun _ => rfl) (fun _ => rfl) (fun _ _ => rfl)
      (fun _ => rfl)), idleRound_eq]
  show 0 + 1 + ((2 ^ 31 - 1 : Int).toNat + 1) = 2 ^ 31 + 1
  decide

/-! ## The two status updates on mid-aligned values -/

/-- For a signed 16-bit `x`, the top-two-bits test of `UpdateSR64` on `x * 2 ^ 16`
is the test of `UpdateSR16` on `x`: bits 31 and 30 of the one are bits 15 and 14 of
the other. -/
theorem top2_mid_aligned (x : Int) (hlo : -2 ^ 15 ≤ x) (hhi : x < 2 ^ 15) :
    (toU64 (x * 2 ^ 16) &&& 0xc0000000 = 0 ∨ toU64 (x * 2 ^ 16) &&& 0xc0000000 = 0xc0000000)
      ↔ (toU16 x >>> 14 = 0 ∨ toU16 x >>> 14 = 3) := by
  rw [top2_iff, Nat.shiftRight_eq_div_pow]
  simp only [toU16]
  omega

/-- C22: for every signed 16-bit `x`, booleans `carry`, `overflow` and every prior
state, `UpdateSR64(x * 2^16, carry, overflow)` and
`UpdateSR16(x, carry, overflow, over_s32 = false)` leave the same state, in
particular the same status register. -/
theorem C22_updateSR64_eq_updateSR16 (s : SDSP) (x : Int) (hlo : -2 ^ 15 ≤ x)
    (hhi : x < 2 ^ 15) (carry overflow : Bool) :
    UpdateSR64 s (x * 2 ^ 16) carry overflow = UpdateSR16 s x carry overflow false ∧
    (UpdateSR64 s (x * 2 ^ 16) carry overflow).r.sr
      = (UpdateSR16 s x carry overflow false).r.sr := by
  have h1 : x * 2 ^ 16 = 0 ↔ x = 0 := by omega
  have h2 : x * 2 ^ 16 < 0 ↔ x < 0 := by omega
  have h3 : ¬ (x * 2 ^ 16 ≠ toS32 (toU64 (x * 2 ^ 16))) := by
    rw [ne_toS32_iff]; omega
  have h4 := top2_mid_aligned x hlo hhi
  have e : UpdateSR64 s (x * 2 ^ 16) carry overflow = UpdateSR16 s x carry overflow false := by
    simp only [UpdateSR64, UpdateSR16, h1, h2, h3, h4, if_false, Bool.false_eq_true]
  exact ⟨e, by rw [e]⟩

/-- Instance of C22 at `x = -3` (mid word `0xFFFD`), carry set, on the status
register `0x40FF`. -/
theorem C22_updateSR64_eq_updateSR16_witness :
    (-2 ^ 15 ≤ (-3 : Int) ∧ (-3 : Int) < 2 ^ 15) ∧
    UpdateSR64 (stateWithSR 0x40FF) (-3 * 2 ^ 16) true false
      = UpdateSR16 (stateWithSR 0x40FF) (-3) true false false ∧
    (UpdateSR64 (stateWithSR 0x40FF) (-3 * 2 ^ 16) true false).r.sr
      = (UpdateSR16 (stateWithSR 0x40FF) (-3) true false false).r.sr :=
  ⟨by decide, C22_updateSR64_eq_updateSR16 (stateWithSR 0x40FF) (-3) (by decide) (by decide)
    true false⟩

/-! ## Final values after a flush of the write-back log -/

/-- Overwriting one 16-bit sub-field leaves the others as they were. -/
theorem getField_setField_ne (val v off off' : Nat)
    (hoff : off = 0 ∨ off = 16 ∨ off = 32 ∨ off = 48)
    (hoff' : off' = 0 ∨ off' = 16 ∨ off' = 32 ∨ off' = 48) (hne : off ≠ off') :
    getField (setField val off v) off' = getField val off' := by
  unfold getField setField
  rcases hoff with h | h | h | h <;> rcases hoff' with h' | h' | h' | h' <;> subst h <;>
    subst h' <;> first | exact absurd rfl hne | (norm_num; omega)

set_option maxHeartbeats 8000000 in
/-- A write to one register other than a stack register is not seen by a read of
another register other than a stack register. -/
theorem read_write_other_plain (K : StackOps) (s : SDSP) (a r : Int) (v : Nat)
    (hr : ¬ isStackIndex r) (ha : ¬ isStackIndex a)
    (hne : toU32 a &&& 0x1f ≠ toU32 r &&& 0x1f) :
    (OpReadRegister K (OpWriteRegister K s a v) r).map Prod.fst
      = (OpReadRegister K s r).map Prod.fst := by
  have hlta := regIndex_lt a
  have hltr := regIndex_lt r
  unfold isStackIndex at hr ha
  unfold OpReadRegister OpWriteRegister
  generalize toU32 a &&& 0x1f = i at hlta ha hne
  generalize toU32 r &&& 0x1f = j at hltr hr hne
  interval_cases i <;> interval_cases j <;>
    simp [DSP_REG_ST0, DSP_REG_AR0, DSP_REG_IX0, DSP_REG_WR0, DSP_REG_ACH0, DSP_REG_CR,
      DSP_REG_SR, DSP_REG_PRODL, DSP_REG_PRODM, DSP_REG_PRODH, DSP_REG_PRODM2, DSP_REG_AXL0,
      DSP_REG_AXH0, DSP_REG_ACL0, DSP_REG_ACM0, getField_setField_ne] at hr ha hne ⊢

/-- A write to a stack register, `StoreStack` keeping to the stack registers, is not
seen by a read of a register other than a stack register. -/
theorem read_write_other_stack (K : StackOps) (s : SDSP) (a r : Int) (v : Nat)
    (hr : ¬ isStackIndex r) (ha : isStackIndex a) (hK : keepsRegisters K) :
    (OpReadRegister K (OpWriteRegister K s a v) r).map Prod.fst
      = (OpReadRegister K s r).map Prod.fst := by
  have hlta := regIndex_lt a
  have hltr := regIndex_lt r
  unfold isStackIndex at hr ha
  have hw : OpWriteRegister K s a v = K.StoreStack s ((toU32 a &&& 0x1f) - DSP_REG_ST0) v := by
    unfold OpWriteRegister
    generalize toU32 a &&& 0x1f = i at hlta ha
    simp only [DSP_REG_ST0] at ha
    have hi : i = 12 ∨ i = 13 ∨ i = 14 ∨ i = 15 := by omega
    rcases hi with rfl | rfl | rfl | rfl <;>
      simp [DSP_REG_ST0, DSP_REG_ACH0]
  rw [hw]
  obtain ⟨h1, h2, h3, h4, h5, h6, h7, h8⟩ := hK s ((toU32 a &&& 0x1f) - DSP_REG_ST0) v
  generalize K.StoreStack s ((toU32 a &&& 0x1f) - DSP_REG_ST0) v = s' at h1 h2 h3 h4 h5 h6 h7 h8 ⊢
  unfold OpReadRegister
  generalize toU32 r &&& 0x1f = j at hltr hr
  interval_cases j <;>
    simp [DSP_REG_ST0, DSP_REG_AR0, DSP_REG_IX0, DSP_REG_WR0, DSP_REG_ACH0, DSP_REG_CR,
      DSP_REG_SR, DSP_REG_PRODL, DSP_REG_PRODM, DSP_REG_PRODH, DSP_REG_PRODM2, DSP_REG_AXL0,
      DSP_REG_AXH0, DSP_REG_ACL0, DSP_REG_ACM0, h1, h2, h3, h4, h5, h6, h7, h8] at hr ⊢

/-- A write of a 16-bit value to a register other than a stack register is what a
read of the same masked index returns: the value, or for `ACH0`/`ACH1` its low byte
sign-extended. -/
theorem read_write_same (K : StackOps) (s : SDSP) (a r : Int) (v : Nat) (hv : v < 2 ^ 16)
    (hr : ¬ isStackIndex r) (he : toU32 a &&& 0x1f = toU32 r &&& 0x1f) :
    (OpReadRegister K (OpWriteRegister K s a v) r).map Prod.fst
      = some (if toU32 r &&& 0x1f = DSP_REG_ACH0 ∨ toU32 r &&& 0x1f = DSP_REG_ACH0 + 1
              then (if v % 256 < 128 then v % 256 else v % 256 + 0xFF00) else v) := by
  have hlt := regIndex_lt r
  have h8 := toU16_toS8 v
  have hmod : v < 65536 := hv
  have h8lt : toU16 (toS8 (v % 256)) < 65536 := by
    have e : (256 : Nat) = 2 ^ 8 := by norm_num
    rw [e, h8]; split_ifs <;> omega
  unfold isStackIndex at hr
  rw [← h8]
  unfold OpReadRegister OpWriteRegister
  rw [he]
  generalize toU32 r &&& 0x1f = reg at hlt hr
  interval_cases reg <;>
    simp [DSP_REG_ST0, DSP_REG_AR0, DSP_REG_IX0, DSP_REG_WR0, DSP_REG_ACH0, DSP_REG_CR,
      DSP_REG_SR, DSP_REG_PRODL, DSP_REG_PRODM, DSP_REG_PRODH, DSP_REG_PRODM2, DSP_REG_AXL0,
      DSP_REG_AXH0, DSP_REG_ACL0, DSP_REG_ACM0, getField_setField, hmod, h8lt] at hr ⊢

/-- Writes to other registers, applied in list order, are not seen by a read of a
register other than a stack register. -/
theorem read_writeAll_other (K : StackOps) (r : Int) (hr : ¬ isStackIndex r) :
    ∀ (post : List (Int × Nat)) (s : SDSP),
      (∀ e, e ∈ post → toU32 e.1 &&& 0x1f ≠ toU32 r &&& 0x1f) →
      ((∃ e, e ∈ post ∧ isStackIndex e.1) → keepsRegisters K) →
      (OpReadRegister K (writeAll K s post) r).map Prod.fst
        = (OpReadRegister K s r).map Prod.fst := by
  intro post
  induction post with
  | nil => intro s _ _; rfl
  | cons e es ih =>
    intro s hne hK
    have h1 : writeAll K s (e :: es) = writeAll K (OpWriteRegister K s e.1 e.2) es := rfl
    rw [h1, ih _ (fun x hx => hne x (List.mem_cons_of_mem _ hx))
      (fun ⟨x, hx, hs⟩ => hK ⟨x, List.mem_cons_of_mem _ hx, hs⟩)]
    by_cases hst : isStackIndex e.1
    · exact read_write_other_stack K s e.1 r e.2 hr hst (hK ⟨e, List.mem_cons_self _ _, hst⟩)
    · exact read_write_other_plain K s e.1 r e.2 hr hst (hne e (List.mem_cons_self _ _))

/-- The last write to a register other than a stack register, in a list of writes
applied in order, is what a read of that register returns. -/
theorem read_writeAll_last (K : StackOps) (s : SDSP) (pre post : List (Int × Nat)) (reg_ : Int)
    (v : Nat) (hv : v < 2 ^ 16) (hr : ¬ isStackIndex reg_)
    (hne : ∀ e, e ∈ post → toU32 e.1 &&& 0x1f ≠ toU32 reg_ &&& 0x1f)
    (hK : (∃ e, e ∈ post ∧ isStackIndex e.1) → keepsRegisters K) :
    (OpReadRegister K (writeAll K s (pre ++ (reg_, v) :: post)) reg_).map Prod.fst
      = some (if toU32 reg_ &&& 0x1f = DSP_REG_ACH0 ∨ toU32 reg_ &&& 0x1f = DSP_REG_ACH0 + 1
              then (if v % 256 < 128 then v % 256 else v % 256 + 0xFF00) else v) := by
  have h1 : writeAll K s (pre ++ (reg_, v) :: post)
      = writeAll K (OpWriteRegister K (writeAll K s pre) reg_ v) post := by
    simp only [writeAll, List.foldl_append, List.foldl_cons]
  rw [h1, read_writeAll_other K reg_ hr post _ hne hK]
  exact read_write_same K _ reg_ reg_ v hv hr rfl

/-- C6: with the precise mode disabled, on a log of `cap` slots holding `k < cap`
entries in slots `0 .. k - 1` followed by the sentinel, `ApplyWriteBackLog` returns
and leaves the state produced by `OpWriteRegister(idx_0, v_0)`, ...,
`OpWriteRegister(idx_{k-1}, v_{k-1})` in that order. After the flush a register
other than a stack register holds the value of the last entry that names it (for
`ACH0`/`ACH1` its low byte sign-extended), whatever earlier entries wrote to it and
whatever the entries after it wrote to other registers (`StoreStack` keeping to the
stack registers when one of these is a stack register). -/
theorem C6_flush_applies_in_append_order (K : StackOps) (cap : Nat) (I : Interpreter)
    (entries : List (Int × Nat))
    (hk : entries.length < cap)
    (hslots : ∀ j e, entries[j]? = some e →
      I.m_write_back_log_idx j = e.1 ∧ I.m_write_back_log j = e.2)
    (hne : ∀ e, e ∈ entries → e.1 ≠ -1)
    (hsent : I.m_write_back_log_idx entries.length = -1) :
    (∃ I', ApplyWriteBackLog K false cap I = some I' ∧
      I'.state = writeAll K I.state entries) ∧
    (∀ (pre post : List (Int × Nat)) (reg_ : Int) (v : Nat),
      entries = pre ++ (reg_, v) :: post → ¬ isStackIndex reg_ → v < 2 ^ 16 →
      (∀ e, e ∈ post → toU32 e.1 &&& 0x1f ≠ toU32 reg_ &&& 0x1f) →
      ((∃ e, e ∈ post ∧ isStackIndex e.1) → keepsRegisters K) →
      ∃ I', ApplyWriteBackLog K false cap I = some I' ∧
        (OpReadRegister K I'.state reg_).map Prod.fst
          = some (if toU32 reg_ &&& 0x1f = DSP_REG_ACH0 ∨ toU32 reg_ &&& 0x1f = DSP_REG_ACH0 + 1
                  then (if v % 256 < 128 then v % 256 else v % 256 + 0xFF00) else v)) := by
  have hflush : ∃ I', ApplyWriteBackLog K false cap I = some I' ∧
      I'.state = writeAll K I.state entries := by
    have hslots0 : ∀ j e, entries[j]? = some e →
        I.m_write_back_log_idx (0 + j) = e.1 ∧ I.m_write_back_log (0 + j) = e.2 := by
      intro j e h; rw [Nat.zero_add]; exact hslots j e h
    obtain ⟨I', hI', _, _, hstate⟩ := applyLoop_entries K false entries.length cap 0 I hk
      (by
        intro j hj
        have hget : entries[j]? = some entries[j] := List.getElem?_eq_getElem hj
        rw [(hslots0 j _ hget).1]
        exact hne _ (List.getElem_mem _))
      (by rw [Nat.zero_add]; exact hsent)
    refine ⟨I', hI', ?_⟩
    rw [hstate rfl, log_slots_eq I 0 entries hslots0]
  refine ⟨hflush, ?_⟩
  intro pre post reg_ v he hns hv hother hK
  obtain ⟨I', hI', hstate⟩ := hflush
  refine ⟨I', hI', ?_⟩
  rw [hstate, he]
  exact read_writeAll_last K I.state pre post reg_ v hv hns hother hK

/-- C6, a concrete instance: the three entries `(AR0, 5)`, `(AR1, 9)`, `(AR0, 7)` in
a log of five slots; after the flush `AR0` holds 7 and `AR1` holds 9. -/
theorem C6_flush_applies_in_append_order_witness :
    (∃ I', ApplyWriteBackLog noStacks false 5 threeEntryLog = some I' ∧
      I'.state = writeAll noStacks threeEntryLog.state [(0, 5), (1, 9), (0, 7)]) ∧
    (∃ I', ApplyWriteBackLog noStacks false 5 threeEntryLog = some I' ∧
      (OpReadRegister noStacks I'.state 0).map Prod.fst
        = some (if toU32 0 &&& 0x1f = DSP_REG_ACH0 ∨ toU32 0 &&& 0x1f = DSP_REG_ACH0 + 1
                then (if 7 % 256 < 128 then 7 % 256 else 7 % 256 + 0xFF00) else 7)) ∧
    (ApplyWriteBackLog noStacks false 5 threeEntryLog).map (fun I' => I'.state.r.ar 0) = some 7 ∧
    (ApplyWriteBackLog noStacks false 5 threeEntryLog).map (fun I' => I'.state.r.ar 1) = some 9 :=
  ⟨(C6_flush_applies_in_append_order noStacks 5 threeEntryLog [(0, 5), (1, 9), (0, 7)]
      (by decide)
      (by
        intro j e h
        match j, h with
        | 0, h => cases h; exact ⟨rfl, rfl⟩
        | 1, h => cases h; exact ⟨rfl, rfl⟩
        | 2, h => cases h; exact ⟨rfl, rfl⟩
        | (n + 3), h => simp at h)
      (by
        intro e he
        simp only [List.mem_cons, List.mem_singleton, List.not_mem_nil, or_false] at he
        rcases he with rfl | rfl | rfl <;> decide)
      (by decide)).1,
    (C6_flush_applies_in_append_order noStacks 5 threeEntryLog [(0, 5), (1, 9), (0, 7)]
      (by decide)
      (by
        intro j e h
        match j, h with
        | 0, h => cases h; exact ⟨rfl, rfl⟩
        | 1, h => cases h; exact ⟨rfl, rfl⟩
        | 2, h => cases h; exact ⟨rfl, rfl⟩
        | (n + 3), h => simp at h)
      (by
        intro e he
        simp only [List.mem_cons, List.mem_singleton, List.not_mem_nil, or_false] at he
        rcases he with rfl | rfl | rfl <;> decide)
      (by decide)).2 [(0, 5), (1, 9)] [] 0 7 rfl (by unfold isStackIndex; decide) (by decide)
      (fun e he => absurd he (List.not_mem_nil e))
      (fun ⟨e, he, _⟩ => absurd he (List.not_mem_nil e)),
    by decide, by decide⟩

end DSP
